import Mathlib

/-!
# Access-control chaincode over a key-value ledger

A shallow embedding of `chaincode/main.go`: identity registration, resource
creation, ownership-gated permission grants, permit/deny adjudication and the
per-resource audit log, all over one shared key-value world state.

Conventions of the embedding.

* Go strings that are ledger keys or parts of keys (identities, contentIDs,
  operations, transaction identifiers) are Lean strings, sequences of Unicode
  scalar values: the ledger carries keys as UTF-8 text.  Their order is the
  lexicographic order by code point, which is the byte order of UTF-8.  The key
  text and the role handed to `Register` never become keys; they are
  `GoString`s, which need not be UTF-8, and `json.Marshal` stores them with
  U+FFFD in the place of every byte that is not part of a valid encoding.
* `encoding/json` is modelled on documents: a byte string that is JSON text is
  kept as the `Json` document it denotes, every other byte string is `raw`.
  Marshalling builds a document, unmarshalling reads one with the rules of
  `json.Unmarshal` (case-insensitive member names, later members overwrite
  earlier ones, `null` leaves a field alone, a member of the wrong kind is an
  error, unknown members are skipped).
* The Go standard library calls on key material (`pem.Decode`,
  `x509.ParsePKIXPublicKey`, `sha256.Sum256`, `base64` decoding,
  `rsa.VerifyPKCS1v15`) are the fields of a `Lib` record every operation takes.
* The ledger stub is a finite map.  `GetState` returns the value committed
  before the call: an operation reads the world state it started in, and what
  it puts is seen by the calls that follow it, not by its own reads.  Every
  operation but `Register` does all its reads before its first write; `Register`
  reads the identity after the role set may have been written, from the state
  it started in.  The stub's own argument checks are
  kept: `PutState` refuses the empty key, `CreateCompositeKey` refuses
  attributes holding U+0000 or U+10FFFF, `GetStateByRange` refuses range keys
  starting with U+0000.  Reading the world state does not fail, so the
  `err != nil` branches that follow `GetState` in the source have no
  counterpart; neither has `json.Marshal` failing on the three record types.
* An operation returns its result together with the world state it leaves.
  Writes made before an error return stay in that state: discarding the writes
  of a failed transaction is the host platform's doing, not the contract's.
* `time.Now()` and the transaction identifier come from a `TxContext`.
  `log.Printf` lines are dropped.
-/

namespace Chaincode

/-! ## Strings and their order -/

/-- Lexicographic order on character lists by code point. -/
def ltChars : List Char → List Char → Bool
  | [], [] => false
  | [], _ :: _ => true
  | _ :: _, [] => false
  | a :: as, b :: bs => if a < b then true else if b < a then false else ltChars as bs

/-- Order of ledger keys: the byte order of the UTF-8 encodings. -/
def keyLt (a b : String) : Bool := ltChars a.data b.data

/-! ## JSON documents and byte strings -/

/-- JSON documents as `encoding/json` reads and writes them. -/
inductive Json where
  | null
  | bool (b : Bool)
  | num (n : Int)
  | str (s : String)
  | arr (items : List Json)
  | obj (members : List (String × Json))

/-- A byte string handed to the ledger or to `json.Unmarshal`: JSON text, kept as
its document, or bytes that are not JSON text. -/
inductive Bytes where
  | json (doc : Json)
  | raw (bytes : List Nat)

/-- Case folding of one character of a member name (`foldName` of
`encoding/json`): ASCII letters fold to upper case, and the two non-ASCII
characters whose fold orbit holds an ASCII letter fold to that letter. -/
def foldChar (c : Char) : Char :=
  if c.toNat = 0x17F then 'S'
  else if c.toNat = 0x212A then 'K'
  else c.toUpper

/-- Folded form of a member name. -/
def foldName (s : String) : List Char := s.data.map foldChar

/-- Whether the member name `key` of a JSON object selects the struct field
tagged `name`. -/
def fieldIs (name key : String) : Bool := foldName key == foldName name

/-- Reads the members of a JSON object into a record, in order. -/
def decodeMembers {α : Type} (set : α → String → Json → Option α) :
    List (String × Json) → α → Option α
  | [], t => some t
  | (k, v) :: ms, t =>
    match set t k v with
    | some t1 => decodeMembers set ms t1
    | none => none

/-- Unmarshals a byte string into a struct value starting from `zero`. -/
def unmarshalStruct {α : Type} (set : α → String → Json → Option α) (zero : α) :
    Bytes → Option α
  | .raw _ => none
  | .json .null => some zero
  | .json (.obj ms) => decodeMembers set ms zero
  | .json _ => none

/-- A JSON value read into a Go `string`: `null` leaves the old value. -/
def decodeString (old : String) : Json → Option String
  | .str s => some s
  | .null => some old
  | _ => none

/-! ## Timestamps -/

/-- Decimal value of a run of digits, or `none` if a character is not a digit or
the value lies outside `[lo, hi]` (`parseUint` of `time.parseRFC3339`). -/
def parseUint (cs : List Char) (lo hi : Nat) : Option Nat :=
  if cs.all Char.isDigit then
    let x := cs.foldl (fun acc c => acc * 10 + (c.toNat - 48)) 0
    if lo ≤ x ∧ x ≤ hi then some x else none
  else none

/-- Days in a month of a year of the proleptic Gregorian calendar. -/
def daysIn (month year : Nat) : Nat :=
  if month = 2 then
    (if year % 4 = 0 ∧ (year % 100 ≠ 0 ∨ year % 400 = 0) then 29 else 28)
  else if month = 4 ∨ month = 6 ∨ month = 9 ∨ month = 11 then 30
  else 31

/-- Whether the text after the seconds is an optional fraction followed by `Z`
or a numeric zone offset. -/
def isZoneSuffix (cs : List Char) : Bool :=
  let rest :=
    match cs with
    | '.' :: d :: tl => if d.isDigit then tl.dropWhile Char.isDigit else cs
    | _ => cs
  match rest with
  | ['Z'] => true
  | [sg, h1, h2, ':', m1, m2] =>
    (sg = '-' ∨ sg = '+') ∧ (parseUint [h1, h2] 0 23).isSome ∧ (parseUint [m1, m2] 0 59).isSome
  | _ => false

/-- Whether a string is an RFC 3339 timestamp as `time.Time.UnmarshalJSON`
accepts it. -/
def isRFC3339 (s : String) : Bool :=
  match s.data with
  | y1 :: y2 :: y3 :: y4 :: '-' :: mo1 :: mo2 :: '-' :: d1 :: d2 :: 'T' ::
      h1 :: h2 :: ':' :: mi1 :: mi2 :: ':' :: s1 :: s2 :: rest =>
    match parseUint [y1, y2, y3, y4] 0 9999, parseUint [mo1, mo2] 1 12 with
    | some year, some month =>
      (parseUint [d1, d2] 1 (daysIn month year)).isSome ∧ (parseUint [h1, h2] 0 23).isSome ∧
        (parseUint [mi1, mi2] 0 59).isSome ∧ (parseUint [s1, s2] 0 59).isSome ∧ isZoneSuffix rest
    | _, _ => false
  | _ => false

/-- A `time.Time`, kept as the RFC 3339 text it marshals to. -/
structure Time where
  rfc3339 : String
  wf : isRFC3339 rfc3339 = true

/-- The zero `time.Time`. -/
def Time.zero : Time := ⟨"0001-01-01T00:00:00Z", by decide⟩

/-- A JSON value read into a `time.Time` field. -/
def decodeTime (old : Time) : Json → Option Time
  | .str s => if h : isRFC3339 s = true then some ⟨s, h⟩ else none
  | .null => some old
  | _ => none

/-! ## Records of the contract -/

/-- A registered identity: its PEM public key and its role. -/
structure User where
  PK : String
  Role : String

/-- A resource: its owner, its content identifier and its creation time. -/
structure Resource where
  OwnerUID : String
  CID : String
  Created : Time

/-- An audit entry: who asked, what was decided, and when. -/
structure AccessLog where
  UID : String
  Decision : String
  Time : Chaincode.Time

/-- The fixed key of the role set. -/
def roleSetKeyPrefix : String := "roleSet"

/-- The object type of policy composite keys. -/
def policyObjType : String := "policy"

/-- The encoding `json.Marshal` gives a `User`. -/
def User.marshal (u : User) : Bytes :=
  .json (.obj [("pk", .str u.PK), ("role", .str u.Role)])

/-- One member of a JSON object read into a `User`. -/
def User.setField (u : User) (key : String) (v : Json) : Option User :=
  if fieldIs "pk" key then (decodeString u.PK v).map (fun s => { u with PK := s })
  else if fieldIs "role" key then (decodeString u.Role v).map (fun s => { u with Role := s })
  else some u

/-- What `json.Unmarshal` into a `User` gives, `none` on error. -/
def User.unmarshal (b : Bytes) : Option User :=
  unmarshalStruct User.setField ⟨"", ""⟩ b

/-- The encoding `json.Marshal` gives a `Resource`. -/
def Resource.marshal (r : Resource) : Bytes :=
  .json (.obj [("ownerUID", .str r.OwnerUID), ("cid", .str r.CID),
    ("created", .str r.Created.rfc3339)])

/-- One member of a JSON object read into a `Resource`. -/
def Resource.setField (r : Resource) (key : String) (v : Json) : Option Resource :=
  if fieldIs "ownerUID" key then
    (decodeString r.OwnerUID v).map (fun s => { r with OwnerUID := s })
  else if fieldIs "cid" key then (decodeString r.CID v).map (fun s => { r with CID := s })
  else if fieldIs "created" key then
    (decodeTime r.Created v).map (fun t => { r with Created := t })
  else some r

/-- What `json.Unmarshal` into a `Resource` gives, `none` on error. -/
def Resource.unmarshal (b : Bytes) : Option Resource :=
  unmarshalStruct Resource.setField ⟨"", "", Time.zero⟩ b

/-- The encoding `json.Marshal` gives an `AccessLog`. -/
def AccessLog.marshal (l : AccessLog) : Bytes :=
  .json (.obj [("uid", .str l.UID), ("decision", .str l.Decision),
    ("time", .str l.Time.rfc3339)])

/-- One member of a JSON object read into an `AccessLog`. -/
def AccessLog.setField (l : AccessLog) (key : String) (v : Json) : Option AccessLog :=
  if fieldIs "uid" key then (decodeString l.UID v).map (fun s => { l with UID := s })
  else if fieldIs "decision" key then
    (decodeString l.Decision v).map (fun s => { l with Decision := s })
  else if fieldIs "time" key then (decodeTime l.Time v).map (fun t => { l with Time := t })
  else some l

/-- What `json.Unmarshal` into an `AccessLog` gives, `none` on error. -/
def AccessLog.unmarshal (b : Bytes) : Option AccessLog :=
  unmarshalStruct AccessLog.setField ⟨"", "", Time.zero⟩ b

/-- The encoding `json.Marshal` gives a `[]string`. -/
def marshalStrings (xs : List String) : Bytes := .json (.arr (xs.map Json.str))

/-- The elements of a JSON array read into `string` slots. -/
def decodeElems : List Json → Option (List String)
  | [] => some []
  | j :: js =>
    match decodeString "" j, decodeElems js with
    | some s, some ss => some (s :: ss)
    | _, _ => none

/-- What `json.Unmarshal` into a nil `[]string` gives: `none` on error,
`some none` for the nil slice (JSON `null`), `some (some xs)` for a slice. -/
def unmarshalStrings : Bytes → Option (Option (List String))
  | .json .null => some none
  | .json (.arr items) => (decodeElems items).map some
  | _ => none

/-! ## Errors -/

/-- The errors the contract and the stub return, one constructor per message. -/
inductive Err where
  /-- "invalid PEM public key" -/
  | invalidPEM
  /-- "parse public key failed: ..." -/
  | parsePublicKeyFailed
  /-- "public key is not RSA" -/
  | notRSA
  /-- "decode signature failed: ..." -/
  | decodeSignatureFailed
  /-- "invalid signature: ..." -/
  | invalidSignature
  /-- "unmarshal roleSet failed: ..." -/
  | unmarshalRoleSetFailed
  /-- The stub: "key must not be an empty string" -/
  | emptyKey
  /-- The stub: an attribute of a composite key holds U+0000 or U+10FFFF -/
  | badCompositeKeyAttribute
  /-- The stub: a range key starts with U+0000 -/
  | rangeKeyStartsWithNull
  /-- "create composite key failed: ..." -/
  | createCompositeKeyFailed (cause : Err)
  /-- "ensure roles failed: ..." -/
  | ensureRolesFailed (cause : Err)
  /-- "userID ... already exists" -/
  | userAlreadyExists (userID : String)
  /-- "invalid public key: ..." -/
  | invalidPublicKey (cause : Err)
  /-- "userID ... does not exist" -/
  | userDoesNotExist (userID : String)
  /-- "unmarshal user failed: ..." -/
  | unmarshalUserFailed
  /-- "resource with cid ... already exists" -/
  | resourceAlreadyExists (cid : String)
  /-- "parse pubkey failed: ..." -/
  | parsePubkeyFailed (cause : Err)
  /-- "put state for cid failed: ..." -/
  | putStateForCidFailed (cause : Err)
  /-- "cid ... not found" -/
  | cidNotFound (cid : String)
  /-- "unmarshal resource failed: ..." -/
  | unmarshalResourceFailed
  /-- "permission denied: user ... is not owner of cid ..." -/
  | permissionDenied (userID cid : String)
  /-- "parse rolesJSON failed: ..." -/
  | parseRolesJSONFailed
  /-- "role ... not in system roleSet" -/
  | roleNotInRoleSet (role : String)
  /-- "signature verify failed: ..." -/
  | signatureVerifyFailed (cause : Err)
  /-- "logGen failed: ..." -/
  | logGenFailed (cause : Err)
  /-- "get logs by range failed: ..." -/
  | getLogsByRangeFailed (cause : Err)
  deriving DecidableEq, Repr

/-! ## Argument strings that are not keys -/

/-- A Go string as a call argument carries it: UTF-8 text, or a byte string that
is not the UTF-8 encoding of a text. -/
inductive GoString where
  | text (s : String)
  | invalid (bytes : List Nat)

instance : Coe String GoString := ⟨GoString.text⟩

/-- The UTF-8 encoding of a character (`utf8.AppendRune`). -/
def encodeRune (c : Char) : List Nat :=
  let n := c.toNat
  if n < 0x80 then [n]
  else if n < 0x800 then [0xC0 + n / 64, 0x80 + n % 64]
  else if n < 0x10000 then [0xE0 + n / 4096, 0x80 + n / 64 % 64, 0x80 + n % 64]
  else [0xF0 + n / 262144, 0x80 + n / 4096 % 64, 0x80 + n / 64 % 64, 0x80 + n % 64]

/-- The bytes of a Go string. -/
def GoString.bytes : GoString → List Nat
  | .text s => s.data.flatMap encodeRune
  | .invalid bytes => bytes

/-- The first rune of a byte string and its width in bytes
(`utf8.DecodeRuneInString`): the code point of the encoding the string starts
with and its length, or U+FFFD with width 1 when it starts with none. -/
def decodeRune : List Nat → Nat × Nat
  | [] => (0xFFFD, 0)
  | s0 :: rest =>
    if s0 < 0x80 then (s0, 1)
    else if s0 < 0xC2 ∨ 0xF4 < s0 then (0xFFFD, 1)
    else
      let sz := if s0 < 0xE0 then 2 else if s0 < 0xF0 then 3 else 4
      let lo := if s0 = 0xE0 then 0xA0 else if s0 = 0xF0 then 0x90 else 0x80
      let hi := if s0 = 0xED then 0x9F else if s0 = 0xF4 then 0x8F else 0xBF
      if rest.length + 1 < sz then (0xFFFD, 1)
      else
        match rest with
        | [] => (0xFFFD, 1)
        | s1 :: rest1 =>
          if s1 < lo ∨ hi < s1 then (0xFFFD, 1)
          else if sz ≤ 2 then (s0 % 32 * 64 + s1 % 64, 2)
          else
            match rest1 with
            | [] => (0xFFFD, 1)
            | s2 :: rest2 =>
              if s2 < 0x80 ∨ 0xBF < s2 then (0xFFFD, 1)
              else if sz ≤ 3 then (s0 % 16 * 4096 + s1 % 64 * 64 + s2 % 64, 3)
              else
                match rest2 with
                | [] => (0xFFFD, 1)
                | s3 :: _ =>
                  if s3 < 0x80 ∨ 0xBF < s3 then (0xFFFD, 1)
                  else (s0 % 8 * 262144 + s1 % 64 * 4096 + s2 % 64 * 64 + s3 % 64, 4)

/-- The runes of a byte string as the string encoder of `encoding/json` walks
it: at each position the rune `decodeRune` finds, then on by its width; `skip`
counts the bytes of the last rune still to pass. -/
def decodeRunes : Nat → List Nat → List Char
  | _, [] => []
  | skip + 1, _ :: rest => decodeRunes skip rest
  | 0, s0 :: rest => Char.ofNat (decodeRune (s0 :: rest)).1 ::
      decodeRunes ((decodeRune (s0 :: rest)).2 - 1) rest

/-- The text `json.Marshal` stores for a Go string and `json.Unmarshal` reads
back: the string itself when it is UTF-8 text, else its runes with U+FFFD in the
place of every byte that is not part of a valid encoding. -/
def GoString.toValid : GoString → String
  | .text s => s
  | .invalid bytes => ⟨decodeRunes 0 bytes⟩

/-! ## The Go standard library on key material -/

/-- A PEM block: its type line and its decoded bytes. -/
structure PemBlock where
  blockType : String
  bytes : List Nat

/-- An RSA public key: modulus and public exponent. -/
structure RSAPublicKey where
  N : Nat
  E : Nat
  deriving DecidableEq, Repr

/-- What `x509.ParsePKIXPublicKey` returns: an RSA key or a key of another kind. -/
inductive PublicKey where
  | rsa (key : RSAPublicKey)
  | other

/-- The standard library functions the contract calls on key material. -/
structure Lib where
  /-- First PEM block of the bytes (`pem.Decode`), if there is one. -/
  pemDecode : GoString → Option PemBlock
  /-- DER parser of a `SubjectPublicKeyInfo` (`x509.ParsePKIXPublicKey`). -/
  parsePKIXPublicKey : List Nat → Option PublicKey
  /-- Digest of the bytes of a string (`sha256.Sum256`). -/
  sha256 : String → List Nat
  /-- Standard base64 decoding (`base64.StdEncoding.DecodeString`). -/
  base64Decode : String → Option (List Nat)
  /-- Signature check (`rsa.VerifyPKCS1v15` with `crypto.SHA256`). -/
  verifyPKCS1v15 : RSAPublicKey → List Nat → List Nat → Bool

/-- Parses a PEM public key and requires it to be RSA. -/
def parsePublicKeyPEM (lib : Lib) (pubPEM : GoString) : Except Err RSAPublicKey :=
  match lib.pemDecode pubPEM with
  | none => .error .invalidPEM
  | some block =>
    if block.blockType ≠ "PUBLIC KEY" then .error .invalidPEM
    else
      match lib.parsePKIXPublicKey block.bytes with
      | none => .error .parsePublicKeyFailed
      | some (.rsa rsaPub) => .ok rsaPub
      | some .other => .error .notRSA

/-- Checks a base64 signature over `uid ++ cid`. -/
def verifySignature (lib : Lib) (uid cid sigB64 : String) (pub : RSAPublicKey) :
    Except Err Unit :=
  let data := uid ++ cid
  let sum := lib.sha256 data
  match lib.base64Decode sigB64 with
  | none => .error .decodeSignatureFailed
  | some sig =>
    if lib.verifyPKCS1v15 pub sum sig then .ok () else .error .invalidSignature

/-- Checks a base64 signature over `uid` alone. -/
def verifySignature_for_caliper (lib : Lib) (uid sigB64 : String) (pub : RSAPublicKey) :
    Except Err Unit :=
  let data := uid
  let sum := lib.sha256 data
  match lib.base64Decode sigB64 with
  | none => .error .decodeSignatureFailed
  | some sig =>
    if lib.verifyPKCS1v15 pub sum sig then .ok () else .error .invalidSignature

/-! ## The world state and the stub -/

/-- Value stored under a key in a list of entries. -/
def lookup (k : String) : List (String × Bytes) → Option Bytes
  | [] => none
  | (k1, v) :: t => if k1 = k then some v else lookup k t

/-- Stores a value under a key, keeping the entries in key order. -/
def insert (k : String) (v : Bytes) : List (String × Bytes) → List (String × Bytes)
  | [] => [(k, v)]
  | (k1, v1) :: t =>
    if keyLt k k1 then (k, v) :: (k1, v1) :: t
    else if k1 = k then (k, v) :: t
    else (k1, v1) :: insert k v t

/-- Entries in strictly increasing key order. -/
def Sorted (l : List (String × Bytes)) : Prop :=
  l.Pairwise (fun a b => keyLt a.1 b.1 = true)

/-- The world state: finitely many keys with a value each, in key order. -/
structure World where
  entries : List (String × Bytes)
  sorted : Sorted entries

/-- The transaction a call runs in: its identifier and the clock reading. -/
structure TxContext where
  txID : String
  now : Time

/-- The empty ledger. -/
def World.empty : World := ⟨[], List.Pairwise.nil⟩

/-- Reads a key (`GetState`): `none` is Go's nil. -/
def GetState (w : World) (key : String) : Option Bytes := lookup key w.entries

/-- Whether a string starts with U+0000, the namespace of composite keys. -/
def startsWithNull (s : String) : Bool :=
  match s.data with
  | c :: _ => c.toNat = 0
  | [] => false

/-- Whether a string may be an attribute of a composite key
(`validateCompositeKeyAttribute`): no U+0000 and no U+10FFFF. -/
def validAttribute (s : String) : Bool :=
  s.data.all (fun c => c.toNat ≠ 0 ∧ c.toNat ≠ 0x10FFFF)

/-- The separator of composite keys, U+0000. -/
def nullSep : String := String.singleton (Char.ofNat 0)

/-- Appends the attributes of a composite key, a separator after each. -/
def appendAttributes (ck : String) : List String → Except Err String
  | [] => .ok ck
  | att :: rest =>
    if validAttribute att then appendAttributes (ck ++ att ++ nullSep) rest
    else .error .badCompositeKeyAttribute

/-- Builds a composite key (`CreateCompositeKey`). -/
def CreateCompositeKey (objectType : String) (attributes : List String) : Except Err String :=
  if validAttribute objectType then
    appendAttributes (nullSep ++ objectType ++ nullSep) attributes
  else .error .badCompositeKeyAttribute

/-! ### The key order is a strict total order, and `insert` keeps key order

These facts are needed to define `PutState` on the ordered world state. -/

theorem ltChars_irrefl (a : List Char) : ltChars a a = false := by
  induction a with
  | nil => rfl
  | cons x xs ih => simp [ltChars, ih]

theorem ltChars_trans : ∀ (a b c : List Char), ltChars a b = true → ltChars b c = true →
    ltChars a c = true
  | [], [], _, h, _ => by simp [ltChars] at h
  | [], _ :: _, [], _, h => by simp [ltChars] at h
  | [], _ :: _, _ :: _, _, _ => by simp [ltChars]
  | _ :: _, [], _, h, _ => by simp [ltChars] at h
  | _ :: _, _ :: _, [], _, h => by simp [ltChars] at h
  | x :: xs, y :: ys, z :: zs, h1, h2 => by
    simp only [ltChars] at h1 h2 ⊢
    by_cases hxy : x < y
    · by_cases hyz : y < z
      · simp [lt_trans hxy hyz]
      · simp only [hyz, if_false] at h2
        by_cases hzy : z < y
        · simp [hzy] at h2
        · have : y = z := le_antisymm (not_lt.mp hzy) (not_lt.mp hyz)
          subst this; simp [hxy]
    · simp only [hxy, if_false] at h1
      by_cases hyx : y < x
      · simp [hyx] at h1
      · have hxy' : x = y := le_antisymm (not_lt.mp hyx) (not_lt.mp hxy)
        subst hxy'
        simp only [hyx, if_false] at h1
        by_cases hxz : x < z
        · simp [hxz]
        · simp only [hxz, if_false] at h2 ⊢
          by_cases hzx : z < x
          · simp [hzx] at h2
          · simp only [hzx, if_false] at h2 ⊢
            exact ltChars_trans xs ys zs h1 h2

theorem ltChars_total : ∀ (a b : List Char), ltChars a b = false → a ≠ b → ltChars b a = true
  | [], [], _, h => absurd rfl h
  | [], _ :: _, h, _ => by simp [ltChars] at h
  | _ :: _, [], _, _ => by simp [ltChars]
  | x :: xs, y :: ys, h1, h2 => by
    simp only [ltChars] at h1 ⊢
    by_cases hxy : x < y
    · simp [hxy] at h1
    · simp only [hxy, if_false] at h1
      by_cases hyx : y < x
      · simp [hyx]
      · simp only [hyx, if_false] at h1 ⊢
        have hxy' : x = y := le_antisymm (not_lt.mp hyx) (not_lt.mp hxy)
        subst hxy'
        simp only [hxy, if_false]
        exact ltChars_total xs ys h1 (fun h => h2 (by rw [h]))

theorem keyLt_irrefl (a : String) : keyLt a a = false := ltChars_irrefl _
theorem keyLt_trans {a b c : String} (h1 : keyLt a b = true) (h2 : keyLt b c = true) :
    keyLt a c = true := ltChars_trans _ _ _ h1 h2
theorem keyLt_total {a b : String} (h1 : keyLt a b = false) (h2 : a ≠ b) : keyLt b a = true :=
  ltChars_total _ _ h1 (fun h => h2 (String.ext h))
theorem keyLt_ne {a b : String} (h : keyLt a b = true) : a ≠ b := by
  rintro rfl; rw [keyLt_irrefl] at h; exact Bool.noConfusion h

theorem mem_insert {k : String} {v : Bytes} {x : String × Bytes} :
    ∀ {l : List (String × Bytes)}, x ∈ insert k v l → x = (k, v) ∨ x ∈ l
  | [], h => by simpa [insert] using h
  | (k1, v1) :: t, h => by
    simp only [insert] at h
    split at h
    · simpa using h
    · split at h
      · rcases List.mem_cons.mp h with h | h
        · exact Or.inl h
        · exact Or.inr (List.mem_cons_of_mem _ h)
      · rcases List.mem_cons.mp h with h | h
        · exact Or.inr (h ▸ List.mem_cons_self _ _)
        · rcases mem_insert h with h | h
          · exact Or.inl h
          · exact Or.inr (List.mem_cons_of_mem _ h)

theorem insert_sorted (k : String) (v : Bytes) :
    ∀ {l : List (String × Bytes)}, Sorted l → Sorted (insert k v l)
  | [], _ => by simp [insert, Sorted]
  | (k1, v1) :: t, h => by
    have hp := List.pairwise_cons.mp h
    simp only [insert]
    split
    · rename_i hlt
      refine List.pairwise_cons.mpr ⟨?_, h⟩
      intro x hx
      rcases List.mem_cons.mp hx with hx | hx
      · subst hx; exact hlt
      · exact keyLt_trans hlt (hp.1 x hx)
    · split
      · rename_i _ heq
        subst heq
        exact List.pairwise_cons.mpr ⟨hp.1, hp.2⟩
      · rename_i hnlt hne
        refine List.pairwise_cons.mpr ⟨?_, insert_sorted k v hp.2⟩
        intro x hx
        rcases mem_insert hx with hx | hx
        · subst hx
          exact keyLt_total (by simpa using hnlt) (fun h => hne h.symm)
        · exact hp.1 x hx

/-- Writes a key (`PutState`): the stub refuses the empty key. -/
def PutState (w : World) (key : String) (value : Bytes) : Except Err World :=
  if key = "" then .error .emptyKey
  else .ok ⟨insert key value w.entries, insert_sorted key value w.sorted⟩

/-- Range scan (`GetStateByRange`): the entries with `startKey ≤ key < endKey` in
key order; an empty `endKey` is unbounded, an empty `startKey` is replaced by
U+0001, and a range key starting with U+0000 is refused. -/
def GetStateByRange (w : World) (startKey endKey : String) :
    Except Err (List (String × Bytes)) :=
  let startKey := if startKey = "" then String.singleton (Char.ofNat 1) else startKey
  if startsWithNull startKey || startsWithNull endKey then .error .rangeKeyStartsWithNull
  else .ok (w.entries.filter
    (fun kv => !keyLt kv.1 startKey && (endKey = "" || keyLt kv.1 endKey)))

/-- The world a discarded write (`_ = f(...)`) leaves: the written one if the
write went through, the old one otherwise. -/
def written (r : Except Err World) (w : World) : World :=
  match r with
  | .ok w1 => w1
  | .error _ => w

/-! ## Role set -/

/-- Reads the role set: Go's nil slice is `none`. -/
def getRoleSet (w : World) : Except Err (Option (List String)) :=
  match GetState w roleSetKeyPrefix with
  | none => .ok none
  | some b =>
    match unmarshalStrings b with
    | none => .error .unmarshalRoleSetFailed
    | some roles => .ok roles

/-- Writes the role set. -/
def putRoleSet (w : World) (roles : List String) : Except Err World :=
  PutState w roleSetKeyPrefix (marshalStrings roles)

/-- The roles a fresh ledger starts with. -/
def defaultRoles : List String := ["Creator", "Contributor", "Public"]

/-- Creates the role set if the ledger has none. -/
def ensureSystemRolesInitialized (w : World) : Except Err Unit × World :=
  match getRoleSet w with
  | .error e => (.error e, w)
  | .ok (some _) => (.ok (), w)
  | .ok none =>
    match putRoleSet w defaultRoles with
    | .error e => (.error e, w)
    | .ok w1 => (.ok (), w1)

/-! ## Policy entries -/

/-- The marker byte stored under a policy key. -/
def policyMarker : Bytes := .raw [1]

/-- Writes the policy entry of `(role, cid, operation)`, without reading. -/
def putPolicyEntry (w : World) (role cid operation : String) : Except Err World :=
  match CreateCompositeKey policyObjType [role, cid, operation] with
  | .error e => .error (.createCompositeKeyFailed e)
  | .ok compositeKey => PutState w compositeKey policyMarker

/-- Whether the policy entry of `(role, cid, operation)` is present. -/
def hasPolicyEntry (w : World) (role cid operation : String) : Except Err Bool :=
  match CreateCompositeKey policyObjType [role, cid, operation] with
  | .error e => .error (.createCompositeKeyFailed e)
  | .ok compositeKey => .ok (GetState w compositeKey).isSome

/-! ## Registration and lookup of identities -/

/-- Registers an identity with its PEM public key and its role.  The existence
check reads the state `w` the call started in: the role set that
`ensureSystemRolesInitialized` may just have written is not seen by it.  The
record is stored as `json.Marshal` writes it, its two strings with U+FFFD for
every byte that is not UTF-8. -/
def Register (lib : Lib) (w : World) (userID : String) (publicKeyPEM role : GoString) :
    Except Err Unit × World :=
  match ensureSystemRolesInitialized w with
  | (.error e, w1) => (.error (.ensureRolesFailed e), w1)
  | (.ok _, w1) =>
    match GetState w userID with
    | some _ => (.error (.userAlreadyExists userID), w1)
    | none =>
      match parsePublicKeyPEM lib publicKeyPEM with
      | .error e => (.error (.invalidPublicKey e), w1)
      | .ok _ =>
        let u : User := ⟨publicKeyPEM.toValid, role.toValid⟩
        match PutState w1 userID u.marshal with
        | .error e => (.error e, w1)
        | .ok w2 => (.ok (), w2)

/-- Looks an identity up. -/
def QueryUserID (w : World) (userID : String) : Except Err User :=
  match GetState w userID with
  | none => .error (.userDoesNotExist userID)
  | some val =>
    match User.unmarshal val with
    | none => .error .unmarshalUserFailed
    | some u => .ok u

/-! ## AddResource -/

/-- Creates the resource `cid` owned by `userID`; the signature is over the
identity alone. -/
def AddResource (lib : Lib) (ctx : TxContext) (w : World) (signatureB64 userID cid : String) :
    Except Err Unit × World :=
  match GetState w cid with
  | some _ => (.error (.resourceAlreadyExists cid), w)
  | none =>
    match QueryUserID w userID with
    | .error e => (.error e, w)
    | .ok u =>
      match parsePublicKeyPEM lib u.PK with
      | .error e => (.error (.parsePubkeyFailed e), w)
      | .ok pub =>
        match verifySignature_for_caliper lib userID signatureB64 pub with
        | .error e => (.error e, w)
        | .ok _ =>
          let res : Resource := ⟨userID, cid, ctx.now⟩
          match PutState w cid res.marshal with
          | .error e => (.error (.putStateForCidFailed e), w)
          | .ok w1 => (.ok (), w1)

/-! ## AddPerm -/

/-- The grant loop of `AddPerm`: each role must be in the role set and gets its
policy entry written; the first role outside the set ends the loop. -/
def grantRoles (sysRoles : List String) (cid operation : String) :
    World → List String → Except Err Unit × World
  | w, [] => (.ok (), w)
  | w, role :: rest =>
    if sysRoles.contains role then
      match putPolicyEntry w role cid operation with
      | .error e => (.error e, w)
      | .ok w1 => grantRoles sysRoles cid operation w1 rest
    else (.error (.roleNotInRoleSet role), w)

/-- The policy keys the grant loop writes, in order, up to the first role it refuses. -/
def grantedKeys (sysRoles : List String) (cid operation : String) : List String → List String
  | [] => []
  | role :: rest =>
    if sysRoles.contains role then
      match CreateCompositeKey policyObjType [role, cid, operation] with
      | .error _ => []
      | .ok key => key :: grantedKeys sysRoles cid operation rest
    else []

/-- Grants `operation` on `cid` to the roles of `rolesJSON`; the caller must own
the resource and sign `userID ++ cid`. -/
def AddPerm (lib : Lib) (w : World) (signatureB64 userID cid operation : String)
    (rolesJSON : Bytes) : Except Err Unit × World :=
  match GetState w cid with
  | none => (.error (.cidNotFound cid), w)
  | some b =>
    match Resource.unmarshal b with
    | none => (.error .unmarshalResourceFailed, w)
    | some res =>
      if res.OwnerUID ≠ userID then (.error (.permissionDenied userID cid), w)
      else
        match QueryUserID w userID with
        | .error e => (.error e, w)
        | .ok u =>
          match parsePublicKeyPEM lib u.PK with
          | .error e => (.error (.parsePubkeyFailed e), w)
          | .ok pub =>
            match verifySignature lib userID cid signatureB64 pub with
            | .error e => (.error e, w)
            | .ok _ =>
              match unmarshalStrings rolesJSON with
              | none => (.error .parseRolesJSONFailed, w)
              | some targetRoles =>
                match getRoleSet w with
                | .error e => (.error e, w)
                | .ok sysRoles =>
                  grantRoles (sysRoles.getD []) cid operation w (targetRoles.getD [])

/-! ## CheckPerm and the audit log -/

/-- Appends the audit entry of this transaction for `cid`. -/
def logGen (ctx : TxContext) (w : World) (cid uid decision : String) : Except Err World :=
  let txID := ctx.txID
  let key := cid ++ "_log_" ++ txID
  let logEntry : AccessLog := ⟨uid, decision, ctx.now⟩
  PutState w key logEntry.marshal

/-- Adjudicates `operation` on `cid` for `userID`, who signs `userID ++ cid`. -/
def CheckPerm (lib : Lib) (ctx : TxContext) (w : World)
    (signatureB64 operation userID cid : String) : Except Err String × World :=
  match QueryUserID w userID with
  | .error e => (.error e, w)
  | .ok u =>
    let role := u.Role
    match parsePublicKeyPEM lib u.PK with
    | .error e => (.error (.parsePubkeyFailed e), w)
    | .ok pub =>
      match verifySignature lib userID cid signatureB64 pub with
      | .error e =>
        (.error (.signatureVerifyFailed e), written (logGen ctx w cid userID "Deny") w)
      | .ok _ =>
        match hasPolicyEntry w role cid operation with
        | .error e => (.error e, written (logGen ctx w cid userID "Deny") w)
        | .ok allowed =>
          let decision := if allowed then "Permit" else "Deny"
          match logGen ctx w cid userID decision with
          | .error e => (.error (.logGenFailed e), w)
          | .ok w1 => (.ok decision, w1)

/-! ## Queries -/

/-- The owner of a resource. -/
def QueryCid (w : World) (cid : String) : Except Err String :=
  match GetState w cid with
  | none => .error (.cidNotFound cid)
  | some b =>
    match Resource.unmarshal b with
    | none => .error .unmarshalResourceFailed
    | some res => .ok res.OwnerUID

/-- The audit entries of a resource, in key order; stored values that do not
unmarshal are skipped. -/
def TraceCid (w : World) (cid : String) : Except Err (List AccessLog) :=
  let startKey := cid ++ "_log_"
  let endKey := cid ++ "_log_" ++ "\uffff"
  match GetStateByRange w startKey endKey with
  | .error e => .error (.getLogsByRangeFailed e)
  | .ok kvs => .ok (kvs.filterMap (fun kv => AccessLog.unmarshal kv.2))

/-- Whether a transaction identifier sorts below the end sentinel of the audit
range: it is empty or starts with a character below U+FFFF. -/
def belowSentinel (txID : String) : Bool := keyLt txID "\uffff"

/-! ## Calls of the public operations -/

/-- A call of one of the seven public operations with its arguments. -/
inductive Call where
  | register (userID : String) (publicKeyPEM role : GoString)
  | queryUserID (userID : String)
  | addResource (signatureB64 userID cid : String)
  | addPerm (signatureB64 userID cid operation : String) (rolesJSON : Bytes)
  | checkPerm (signatureB64 operation userID cid : String)
  | queryCid (cid : String)
  | traceCid (cid : String)

/-- The world state a call leaves. -/
def Call.run (lib : Lib) (ctx : TxContext) (w : World) : Call → World
  | .register userID publicKeyPEM role => (Register lib w userID publicKeyPEM role).2
  | .queryUserID _ => w
  | .addResource signatureB64 userID cid => (AddResource lib ctx w signatureB64 userID cid).2
  | .addPerm signatureB64 userID cid operation rolesJSON =>
    (AddPerm lib w signatureB64 userID cid operation rolesJSON).2
  | .checkPerm signatureB64 operation userID cid =>
    (CheckPerm lib ctx w signatureB64 operation userID cid).2
  | .queryCid _ => w
  | .traceCid _ => w

/-- Whether a call is a `Register`. -/
def Call.isRegister : Call → Bool
  | .register _ _ _ => true
  | _ => false

/-- The world state a sequence of calls leaves, each call in its own transaction. -/
def runCalls (lib : Lib) (w : World) : List (TxContext × Call) → World
  | [] => w
  | (ctx, c) :: rest => runCalls lib (c.run lib ctx w) rest

/-! ## Record kinds along a run -/

/-- Whether some call of a run, started in `w`, is a `Register` of `u` that succeeds. -/
def registeredBy (lib : Lib) : World → List (TxContext × Call) → String → Prop
  | _, [], _ => False
  | w, (ctx, call) :: rest, u =>
    (∃ pem role, call = .register u pem role ∧ (Register lib w u pem role).1 = .ok ()) ∨
      registeredBy lib (call.run lib ctx w) rest u

/-- A stored value that does not read as an identity with a key: it does not
unmarshal into a `User`, or it does with an empty `PK`. -/
def noIdentity (v : Bytes) : Prop := ∀ usr, User.unmarshal v = some usr → usr.PK = ""

/-- Every stored value is the record of an identity in `R` or reads as no identity. -/
def KindInv (w : World) (R : String → Prop) : Prop :=
  ∀ k v, GetState w k = some v → R k ∨ noIdentity v

/-- Whether a string is made of hexadecimal digits, as transaction identifiers are. -/
def isHexID (s : String) : Bool :=
  s.data.all (fun ch => ch.isDigit || (97 ≤ ch.toNat && ch.toNat ≤ 102))

/-- What a ledger reached from the empty one holds under the role set key:
nothing at all, the ledger being empty, or the default roles, or the record of
an identity registered under that key. -/
def ReachedRoleSet (w : World) : Prop :=
  w = World.empty ∨
    GetState w roleSetKeyPrefix = some (marshalStrings ["Creator", "Contributor", "Public"]) ∨
    ∃ pk role, GetState w roleSetKeyPrefix = some (User.marshal ⟨pk, role⟩)

/-! ## Names of calls and the ranges they fall in -/

/-- Whether the name under which a call stores a record, if it stores one, lies
outside the namespace of composite keys: the identity of a `Register`, the
contentID of an `AddResource` or of a `CheckPerm` does not start with U+0000. -/
def Call.plainName : Call → Bool
  | .register userID _ _ => !startsWithNull userID
  | .addResource _ _ cid => !startsWithNull cid
  | .checkPerm _ _ _ cid => !startsWithNull cid
  | _ => true

/-- Whether a key lies in the range `TraceCid` scans for `cid`. -/
def inAuditRange (cid key : String) : Bool :=
  !keyLt key (cid ++ "_log_") && keyLt key (cid ++ "_log_" ++ "\uffff")

/-- Whether a call run in `ctx` stores no record in the audit range of `cid`
other than the audit entry of a `CheckPerm` on `cid` itself. -/
def Call.keepsScope (cid : String) (ctx : TxContext) : Call → Bool
  | .register userID _ _ => !inAuditRange cid userID
  | .addResource _ _ c => !inAuditRange cid c
  | .checkPerm _ _ _ c => c == cid || !inAuditRange cid (c ++ "_log_" ++ ctx.txID)
  | _ => true

/-- The audit entries the `CheckPerm` calls on `cid` of a run can have written. -/
def checkedIn (cid : String) (calls : List (TxContext × Call)) (l : AccessLog) : Prop :=
  ∃ x ∈ calls, ∃ sig op u d, x.2 = .checkPerm sig op u cid ∧ l = ⟨u, d, x.1.now⟩

/-- Every value stored in the audit range of `cid` is the encoding of an entry in `S`. -/
def ScopeInv (cid : String) (w : World) (S : AccessLog → Prop) : Prop :=
  ∀ k v, GetState w k = some v → inAuditRange cid k = true → ∃ l, S l ∧ v = l.marshal

/-! ## A small library instance and sample ledgers

`demoLib` is an instance of `Lib` small enough to evaluate: a key text starts
with the bytes of `KEY`, its number is its length in bytes, the digest of a
message is its list of code points and a signature is valid when it is the key
number followed by the digest.  It serves to run the contract on concrete inputs. -/

/-- Code points of a string. -/
def codes (s : String) : List Nat := s.data.map Char.toNat

/-- A library instance for concrete runs. -/
def demoLib : Lib where
  pemDecode s := if s.bytes.take 3 = [75, 69, 89] then some ⟨"PUBLIC KEY", s.bytes⟩ else none
  parsePKIXPublicKey bytes := some (.rsa ⟨bytes.length, 3⟩)
  sha256 s := codes s
  base64Decode s := some (codes s)
  verifyPKCS1v15 pub sum sig := sig == pub.N :: sum

/-- The signature `demoLib` accepts for key number `n` over message `m`. -/
def demoSig (n : Nat) (m : String) : String := String.singleton (Char.ofNat n) ++ m

/-- A transaction context with the given identifier. -/
def demoCtx (txID : String) : TxContext := ⟨txID, Time.zero⟩

/-- Ledger with `U1` (role Creator, key `KEY1`) and `U2` (role Public, key
`KEY22`) registered. -/
def demoRegistered : World :=
  (Register demoLib (Register demoLib World.empty "U1" "KEY1" "Creator").2
    "U2" "KEY22" "Public").2

/-- Ledger where `U1` has also created resource `X`. -/
def demoResource : World :=
  (AddResource demoLib (demoCtx "tx0") demoRegistered (demoSig 4 "U1") "U1" "X").2

/-- Ledger where `U1` has also granted `download` on `X` to role Creator. -/
def demoGranted : World :=
  (AddPerm demoLib demoResource (demoSig 4 "U1X") "U1" "X" "download"
    (marshalStrings ["Creator"])).2

/-- Ledger in which the identity named by the policy key of
`(Creator, X, download)` is registered and owns resource `X`. -/
def collisionWorld : World :=
  (AddResource demoLib (demoCtx "tx0")
    (Register demoLib World.empty "\x00policy\x00Creator\x00X\x00download\x00" "KEY1" "Creator").2
    (demoSig 4 "\x00policy\x00Creator\x00X\x00download\x00")
    "\x00policy\x00Creator\x00X\x00download\x00" "X").2

/-- The calls that build the sample ledger with resource `X`. -/
def demoCalls : List (TxContext × Call) :=
  [(demoCtx "t1", .register "U1" "KEY1" "Creator"),
   (demoCtx "t2", .register "U2" "KEY22" "Public"),
   (demoCtx "tx0", .addResource (demoSig 4 "U1") "U1" "X")]

/-- A run from the empty ledger whose one call registers an identity under the
role set key. -/
def roleSetIdentityCalls : List (TxContext × Call) :=
  [(demoCtx "t1", .register "roleSet" "KEY1" "Creator")]

/-- A transaction identifier of the shape the platform generates, for sample runs. -/
def demoTx : String := "9f86d081884c7d659a2feaa0c55ad015a3bf4f1b2b0b822cd15d6c15b0f00a08"

/-- A run from the empty ledger whose one call registers an identity under the
policy key of `(Auditor, Y, delete)`. -/
def forgedPolicyCalls : List (TxContext × Call) :=
  [(demoCtx "t1", .register "\x00policy\x00Auditor\x00Y\x00delete\x00" "KEY1" "Creator")]

/-- A run from the empty ledger with no `CheckPerm` on `X`: `U1` creates `X` and
`X_log_a`, an identity is registered under `X_log_b`, and `U1` has `download` on
`X_log_a` checked. -/
def traceScopeCalls : List (TxContext × Call) :=
  demoCalls ++
  [(demoCtx "t3", .addResource (demoSig 4 "U1") "U1" "X_log_a"),
   (demoCtx "t4", .register "X_log_b" "KEY333" "Public"),
   (demoCtx demoTx, .checkPerm (demoSig 4 "U1X_log_a") "download" "U1" "X_log_a")]

/-- Ledger in which an identity is registered under the name of an audit key of `X`. -/
def auditNameIdentity : World :=
  (Register demoLib demoGranted ("X_log_" ++ demoTx) "KEY333" "Public").2

/-- Ledger in which `U1` has created a resource under the name of an audit key of `X`. -/
def auditNameResource : World :=
  (AddResource demoLib (demoCtx "tx7") demoGranted (demoSig 4 "U1") "U1"
    ("X_log_" ++ demoTx)).2

deriving instance DecidableEq for Except

/-! # Theorems -/

/-! ## The world state as a map -/

theorem lookup_insert_self (k : String) (v : Bytes) :
    ∀ l : List (String × Bytes), lookup k (insert k v l) = some v
  | [] => by simp [insert, lookup]
  | (k1, v1) :: t => by
    simp only [insert]
    split
    · simp [lookup]
    · split
      · simp [lookup]
      · rename_i _ hne
        simp [lookup, hne, lookup_insert_self k v t]

theorem lookup_insert_ne {k k0 : String} (v : Bytes) (h : k0 ≠ k) :
    ∀ l : List (String × Bytes), lookup k0 (insert k v l) = lookup k0 l
  | [] => by simp [insert, lookup, Ne.symm h]
  | (k1, v1) :: t => by
    simp only [insert]
    split
    · simp [lookup, Ne.symm h]
    · split
      · rename_i _ heq
        subst heq
        simp [lookup, Ne.symm h]
      · simp [lookup, lookup_insert_ne v h t]

theorem lookup_eq_none_of_lt {k : String} :
    ∀ {l : List (String × Bytes)}, (∀ x ∈ l, keyLt k x.1 = true) → lookup k l = none
  | [], _ => rfl
  | (k1, v1) :: t, h => by
    have h1 : k1 ≠ k := fun e => keyLt_ne (h (k1, v1) (List.mem_cons_self _ _)) e.symm
    simp only [lookup, h1, if_false]
    exact lookup_eq_none_of_lt (fun x hx => h x (List.mem_cons_of_mem _ hx))

theorem sorted_ext : ∀ {l1 l2 : List (String × Bytes)}, Sorted l1 → Sorted l2 →
    (∀ k, lookup k l1 = lookup k l2) → l1 = l2
  | [], [], _, _, _ => rfl
  | [], (k2, v2) :: t2, _, _, h => by
    have := h k2
    simp [lookup] at this
  | (k1, v1) :: t1, [], _, _, h => by
    have := h k1
    simp [lookup] at this
  | (k1, v1) :: t1, (k2, v2) :: t2, h1, h2, h => by
    have hp1 := List.pairwise_cons.mp h1
    have hp2 := List.pairwise_cons.mp h2
    have n1 : lookup k1 t1 = none := lookup_eq_none_of_lt hp1.1
    have n2 : lookup k2 t2 = none := lookup_eq_none_of_lt hp2.1
    have hk : k1 = k2 := by
      by_contra hne
      by_cases hlt : keyLt k1 k2 = true
      · have e := h k1
        have : lookup k1 ((k2, v2) :: t2) = none :=
          lookup_eq_none_of_lt (fun x hx => by
            rcases List.mem_cons.mp hx with hx | hx
            · subst hx; exact hlt
            · exact keyLt_trans hlt (hp2.1 x hx))
        rw [this] at e
        simp [lookup] at e
      · have hgt : keyLt k2 k1 = true := keyLt_total (by simpa using hlt) hne
        have e := h k2
        have : lookup k2 ((k1, v1) :: t1) = none :=
          lookup_eq_none_of_lt (fun x hx => by
            rcases List.mem_cons.mp hx with hx | hx
            · subst hx; exact hgt
            · exact keyLt_trans hgt (hp1.1 x hx))
        rw [this] at e
        simp [lookup] at e
    subst hk
    have hv : v1 = v2 := by
      have e := h k1
      simpa [lookup] using e
    subst hv
    have ht : t1 = t2 := by
      apply sorted_ext hp1.2 hp2.2
      intro k
      by_cases hk : k1 = k
      · subst hk; rw [n1, n2]
      · have e := h k
        simpa [lookup, hk] using e
    rw [ht]

theorem World.ext {w1 w2 : World} (h : ∀ k, GetState w1 k = GetState w2 k) : w1 = w2 := by
  cases w1 with
  | mk e1 s1 =>
    cases w2 with
    | mk e2 s2 =>
      have : e1 = e2 := sorted_ext s1 s2 h
      subst this
      rfl

theorem GetState_PutState_self {w w1 : World} {k : String} {v : Bytes}
    (h : PutState w k v = .ok w1) : GetState w1 k = some v := by
  unfold PutState at h
  split at h
  · cases h
  · cases h
    exact lookup_insert_self k v _

theorem GetState_PutState_ne {w w1 : World} {k k0 : String} {v : Bytes}
    (h : PutState w k v = .ok w1) (hne : k0 ≠ k) : GetState w1 k0 = GetState w k0 := by
  unfold PutState at h
  split at h
  · cases h
  · cases h
    exact lookup_insert_ne v hne _

theorem PutState_ok {w : World} {k : String} (v : Bytes) (hk : k ≠ "") :
    ∃ w1, PutState w k v = .ok w1 := by
  simp [PutState, hk]

theorem PutState_empty (w : World) (v : Bytes) : PutState w "" v = .error .emptyKey := by
  simp [PutState]

/-! ## Composite keys -/

theorem split_at_sep {α : Type} (z : α) :
    ∀ (a b x y : List α), z ∉ a → z ∉ b → a ++ z :: x = b ++ z :: y → a = b ∧ x = y
  | [], [], x, y, _, _, h => by simpa using h
  | [], b0 :: b, x, y, _, hb, h => by
    simp only [List.nil_append, List.cons_append, List.cons.injEq] at h
    exact absurd h.1 (fun e => hb (e ▸ List.mem_cons_self _ _))
  | a0 :: a, [], x, y, ha, _, h => by
    simp only [List.nil_append, List.cons_append, List.cons.injEq] at h
    exact absurd h.1 (fun e => ha (e ▸ List.mem_cons_self _ _))
  | a0 :: a, b0 :: b, x, y, ha, hb, h => by
    simp only [List.cons_append, List.cons.injEq] at h
    have := split_at_sep z a b x y (fun m => ha (List.mem_cons_of_mem _ m))
      (fun m => hb (List.mem_cons_of_mem _ m)) h.2
    exact ⟨by rw [h.1, this.1], this.2⟩

theorem null_not_mem_of_valid {s : String} (h : validAttribute s = true) :
    Char.ofNat 0 ∉ s.data := by
  intro hm
  simp only [validAttribute, List.all_eq_true] at h
  have := h _ hm
  simp at this

/-- The composite key of a policy tuple, when its attributes are valid. -/
theorem CreateCompositeKey_policy (r c op : String) :
    CreateCompositeKey policyObjType [r, c, op] =
      if validAttribute r && validAttribute c && validAttribute op then
        .ok (nullSep ++ policyObjType ++ nullSep ++ r ++ nullSep ++ c ++ nullSep ++ op ++ nullSep)
      else .error .badCompositeKeyAttribute := by
  have hp : validAttribute policyObjType = true := by decide
  simp only [CreateCompositeKey, hp, if_true, appendAttributes]
  by_cases hr : validAttribute r = true <;> by_cases hc : validAttribute c = true <;>
    by_cases ho : validAttribute op = true <;> simp [hr, hc, ho]

theorem CreateCompositeKey_ok_iff {r c op key : String} :
    CreateCompositeKey policyObjType [r, c, op] = .ok key ↔
      (validAttribute r = true ∧ validAttribute c = true ∧ validAttribute op = true) ∧
      key = nullSep ++ policyObjType ++ nullSep ++ r ++ nullSep ++ c ++ nullSep ++ op ++ nullSep := by
  rw [CreateCompositeKey_policy]
  by_cases hr : validAttribute r = true <;> by_cases hc : validAttribute c = true <;>
    by_cases ho : validAttribute op = true <;> simp [hr, hc, ho, eq_comm]

theorem compositeKey_inj {r c op r1 c1 op1 key : String}
    (h : CreateCompositeKey policyObjType [r, c, op] = .ok key)
    (h1 : CreateCompositeKey policyObjType [r1, c1, op1] = .ok key) :
    r = r1 ∧ c = c1 ∧ op = op1 := by
  obtain ⟨⟨vr, vc, vo⟩, e⟩ := CreateCompositeKey_ok_iff.mp h
  obtain ⟨⟨vr1, vc1, vo1⟩, e1⟩ := CreateCompositeKey_ok_iff.mp h1
  have hd := congrArg String.data (e.symm.trans e1)
  simp only [String.data_append, nullSep, String.singleton, List.append_assoc] at hd
  have hd := List.append_cancel_left hd
  have hd := List.append_cancel_left hd
  have hd := List.append_cancel_left hd
  have s1 := split_at_sep (Char.ofNat 0) r.data r1.data _ _ (null_not_mem_of_valid vr)
    (null_not_mem_of_valid vr1) hd
  have s2 := split_at_sep (Char.ofNat 0) c.data c1.data _ _ (null_not_mem_of_valid vc)
    (null_not_mem_of_valid vc1) s1.2
  have s3 := split_at_sep (Char.ofNat 0) op.data op1.data _ _ (null_not_mem_of_valid vo)
    (null_not_mem_of_valid vo1) s2.2
  exact ⟨String.ext s1.1, String.ext s2.1, String.ext s3.1⟩

theorem compositeKey_startsWithNull {r c op key : String}
    (h : CreateCompositeKey policyObjType [r, c, op] = .ok key) : startsWithNull key = true := by
  obtain ⟨_, e⟩ := CreateCompositeKey_ok_iff.mp h
  subst e
  simp [startsWithNull, nullSep, String.singleton]

/-! ## Encodings decode to what was encoded -/

theorem unmarshal_marshal_User (u : User) : User.unmarshal u.marshal = some u := by
  have h1 : fieldIs "pk" "pk" = true := by decide
  have h2 : fieldIs "pk" "role" = false := by decide
  have h3 : fieldIs "role" "role" = true := by decide
  simp [User.unmarshal, User.marshal, unmarshalStruct, decodeMembers, User.setField, h1, h2, h3,
    decodeString]

theorem unmarshal_marshal_Resource (r : Resource) : Resource.unmarshal r.marshal = some r := by
  have h1 : fieldIs "ownerUID" "ownerUID" = true := by decide
  have h2 : fieldIs "ownerUID" "cid" = false := by decide
  have h3 : fieldIs "cid" "cid" = true := by decide
  have h4 : fieldIs "ownerUID" "created" = false := by decide
  have h5 : fieldIs "cid" "created" = false := by decide
  have h6 : fieldIs "created" "created" = true := by decide
  simp [Resource.unmarshal, Resource.marshal, unmarshalStruct, decodeMembers, Resource.setField,
    h1, h2, h3, h4, h5, h6, decodeString, decodeTime, r.Created.wf]

theorem unmarshal_marshal_AccessLog (l : AccessLog) : AccessLog.unmarshal l.marshal = some l := by
  have h1 : fieldIs "uid" "uid" = true := by decide
  have h2 : fieldIs "uid" "decision" = false := by decide
  have h3 : fieldIs "decision" "decision" = true := by decide
  have h4 : fieldIs "uid" "time" = false := by decide
  have h5 : fieldIs "decision" "time" = false := by decide
  have h6 : fieldIs "time" "time" = true := by decide
  simp [AccessLog.unmarshal, AccessLog.marshal, unmarshalStruct, decodeMembers,
    AccessLog.setField, h1, h2, h3, h4, h5, h6, decodeString, decodeTime, l.Time.wf]

/-! ## UTF-8 text read as bytes -/

/-- The code point of a character is a Unicode scalar value. -/
theorem toNat_valid (c : Char) : c.toNat < 0xD800 ∨ (0xDFFF < c.toNat ∧ c.toNat < 0x110000) :=
  c.valid

/-- The decoder reads the encoding of a character back, with its width. -/
theorem decodeRune_encode (c : Char) (rest : List Nat) :
    decodeRune (encodeRune c ++ rest) = (c.toNat, (encodeRune c).length) := by
  have hv := toNat_valid c
  unfold encodeRune
  simp only
  generalize c.toNat = n at hv ⊢
  by_cases h1 : n < 0x80
  · simp [decodeRune, h1]
  · by_cases h2 : n < 0x800
    · simp only [h1, h2, if_true, if_false, List.cons_append, List.nil_append, decodeRune,
        List.length_cons, List.length_nil]
      have a1 : ¬ (0xC0 + n / 64 < 0x80) := by omega
      have a2 : ¬ (0xC0 + n / 64 < 0xC2 ∨ 0xF4 < 0xC0 + n / 64) := by omega
      have a3 : 0xC0 + n / 64 < 0xE0 := by omega
      have a4 : ¬ (0xC0 + n / 64 = 0xE0) := by omega
      have a5 : ¬ (0xC0 + n / 64 = 0xF0) := by omega
      have a6 : ¬ (0xC0 + n / 64 = 0xED) := by omega
      have a7 : ¬ (0xC0 + n / 64 = 0xF4) := by omega
      simp only [a1, a2, a3, a4, a5, a6, a7, if_true, if_false]
      have b1 : ¬ (rest.length + 1 + 1 < 2) := by omega
      have b2 : ¬ (0x80 + n % 64 < 0x80 ∨ 0xBF < 0x80 + n % 64) := by omega
      simp only [b1, b2, if_false, le_refl, if_true, Prod.mk.injEq, and_true]
      omega
    · by_cases h3 : n < 0x10000
      · simp only [h1, h2, h3, if_true, if_false, List.cons_append, List.nil_append, decodeRune,
          List.length_cons, List.length_nil]
        have a1 : ¬ (0xE0 + n / 4096 < 0x80) := by omega
        have a2 : ¬ (0xE0 + n / 4096 < 0xC2 ∨ 0xF4 < 0xE0 + n / 4096) := by omega
        have a3 : ¬ (0xE0 + n / 4096 < 0xE0) := by omega
        have a3b : 0xE0 + n / 4096 < 0xF0 := by omega
        have a5 : ¬ (0xE0 + n / 4096 = 0xF0) := by omega
        have a7 : ¬ (0xE0 + n / 4096 = 0xF4) := by omega
        simp only [a1, a2, a3, a3b, a5, a7, if_true, if_false]
        have b1 : ¬ (rest.length + 1 + 1 + 1 < 3) := by omega
        have b2 : ¬ ((0x80 + n / 64 % 64 < if 0xE0 + n / 4096 = 0xE0 then 0xA0 else 0x80) ∨
            (if 0xE0 + n / 4096 = 0xED then 0x9F else 0xBF) < 0x80 + n / 64 % 64) := by
          split_ifs <;> omega
        have b3 : ¬ (0x80 + n % 64 < 0x80 ∨ 0xBF < 0x80 + n % 64) := by omega
        have b4 : ¬ (3 ≤ 2) := by omega
        simp only [b1, b2, b3, b4, if_false, le_refl, if_true, Prod.mk.injEq, and_true]
        omega
      · simp only [h1, h2, h3, if_true, if_false, List.cons_append, List.nil_append, decodeRune,
          List.length_cons, List.length_nil]
        have a1 : ¬ (0xF0 + n / 262144 < 0x80) := by omega
        have a2 : ¬ (0xF0 + n / 262144 < 0xC2 ∨ 0xF4 < 0xF0 + n / 262144) := by omega
        have a3 : ¬ (0xF0 + n / 262144 < 0xE0) := by omega
        have a3b : ¬ (0xF0 + n / 262144 < 0xF0) := by omega
        have a4 : ¬ (0xF0 + n / 262144 = 0xE0) := by omega
        have a6 : ¬ (0xF0 + n / 262144 = 0xED) := by omega
        simp only [a1, a2, a3, a3b, a4, a6, if_true, if_false]
        have b1 : ¬ (rest.length + 1 + 1 + 1 + 1 < 4) := by omega
        have b2 : ¬ ((0x80 + n / 4096 % 64 < if 0xF0 + n / 262144 = 0xF0 then 0x90 else 0x80) ∨
            (if 0xF0 + n / 262144 = 0xF4 then 0x8F else 0xBF) < 0x80 + n / 4096 % 64) := by
          split_ifs <;> omega
        have b3 : ¬ (0x80 + n / 64 % 64 < 0x80 ∨ 0xBF < 0x80 + n / 64 % 64) := by omega
        have b3b : ¬ (0x80 + n % 64 < 0x80 ∨ 0xBF < 0x80 + n % 64) := by omega
        have b4 : ¬ (4 ≤ 2) := by omega
        have b5 : ¬ (4 ≤ 3) := by omega
        simp only [b1, b2, b3, b3b, b4, b5, if_false, le_refl, if_true, Prod.mk.injEq, and_true]
        omega

/-- The walk passes the bytes it was told to pass. -/
theorem decodeRunes_skip : ∀ (pre rest : List Nat),
    decodeRunes pre.length (pre ++ rest) = decodeRunes 0 rest
  | [], _ => rfl
  | _ :: pre, rest => by
    simp only [List.length_cons, List.cons_append, decodeRunes]
    exact decodeRunes_skip pre rest

theorem encodeRune_cons (c : Char) : ∃ b0 tl, encodeRune c = b0 :: tl := by
  unfold encodeRune
  simp only
  split_ifs <;> exact ⟨_, _, rfl⟩

/-- The walk over the encoding of a character gives that character. -/
theorem decodeRunes_encode (c : Char) (rest : List Nat) :
    decodeRunes 0 (encodeRune c ++ rest) = c :: decodeRunes 0 rest := by
  have h := decodeRune_encode c rest
  obtain ⟨b0, tl, e⟩ := encodeRune_cons c
  rw [e] at h ⊢
  simp only [List.cons_append, List.length_cons] at h
  have h2 : decodeRunes 0 (b0 :: (tl ++ rest)) =
      Char.ofNat (decodeRune (b0 :: (tl ++ rest))).1 ::
        decodeRunes ((decodeRune (b0 :: (tl ++ rest))).2 - 1) (tl ++ rest) := rfl
  rw [List.cons_append, h2, h]
  simp only [Nat.add_sub_cancel, Char.ofNat_toNat]
  rw [decodeRunes_skip]

/-- UTF-8 text handed over as bytes is stored as the same text: the two forms of
a `GoString` agree on text. -/
theorem toValid_bytes (s : String) :
    GoString.toValid (.invalid (GoString.text s).bytes) = s := by
  have key : ∀ cs : List Char, decodeRunes 0 (cs.flatMap encodeRune) = cs := by
    intro cs
    induction cs with
    | nil => rfl
    | cons c cs ih => rw [List.flatMap_cons, decodeRunes_encode, ih]
  exact String.ext (key s.data)

/-! ## Facts about single operations -/

theorem logKey_ne_empty (cid txID : String) : cid ++ "_log_" ++ txID ≠ "" := by
  intro h
  have := congrArg (fun s => s.data.length) h
  simp at this

theorem logGen_ok (ctx : TxContext) (w : World) (cid uid decision : String) :
    ∃ w1, logGen ctx w cid uid decision = .ok w1 :=
  PutState_ok _ (logKey_ne_empty cid ctx.txID)

theorem hasPolicyEntry_of_key {w : World} {r c op key : String}
    (h : CreateCompositeKey policyObjType [r, c, op] = .ok key) :
    hasPolicyEntry w r c op = .ok (GetState w key).isSome := by
  simp [hasPolicyEntry, h]

theorem compositeKey_ne_empty {r c op key : String}
    (h : CreateCompositeKey policyObjType [r, c, op] = .ok key) : key ≠ "" := by
  intro e
  have := compositeKey_startsWithNull h
  rw [e] at this
  revert this
  decide

/-! ## What each operation writes -/

theorem GetState_PutState {w w1 : World} {k : String} {v : Bytes}
    (h : PutState w k v = .ok w1) (k0 : String) :
    GetState w1 k0 = if k0 = k then some v else GetState w k0 := by
  by_cases e : k0 = k
  · subst e; simp [GetState_PutState_self h]
  · simp [e, GetState_PutState_ne h e]

theorem putPolicyEntry_ok_iff {w w1 : World} {r c op : String} :
    putPolicyEntry w r c op = .ok w1 ↔
      ∃ key, CreateCompositeKey policyObjType [r, c, op] = .ok key ∧
        PutState w key policyMarker = .ok w1 := by
  unfold putPolicyEntry
  cases h : CreateCompositeKey policyObjType [r, c, op] with
  | error e => simp
  | ok key => simp

/-- What the grant loop changes: only policy keys of listed roles of the role set. -/
theorem grantRoles_footprint (sysRoles : List String) (c op : String) :
    ∀ (roles : List String) (w : World) (k : String),
      GetState (grantRoles sysRoles c op w roles).2 k = GetState w k ∨
      (∃ role, role ∈ roles ∧ role ∈ sysRoles ∧
        CreateCompositeKey policyObjType [role, c, op] = .ok k ∧
        GetState (grantRoles sysRoles c op w roles).2 k = some policyMarker)
  | [], w, k => Or.inl rfl
  | role :: rest, w, k => by
    unfold grantRoles
    by_cases hc : sysRoles.contains role = true
    · simp only [hc, if_true]
      cases hp : putPolicyEntry w role c op with
      | error e => exact Or.inl rfl
      | ok w1 =>
        simp only
        obtain ⟨key, hkey, hput⟩ := putPolicyEntry_ok_iff.mp hp
        rcases grantRoles_footprint sysRoles c op rest w1 k with h | ⟨r, hr, hs, hk, hv⟩
        · by_cases e : k = key
          · subst e
            refine Or.inr ⟨role, List.mem_cons_self _ _, by simpa using hc, hkey, ?_⟩
            rw [h, GetState_PutState_self hput]
          · exact Or.inl (by rw [h, GetState_PutState_ne hput e])
        · exact Or.inr ⟨r, List.mem_cons_of_mem _ hr, hs, hk, hv⟩
    · simp only [hc]
      exact Or.inl rfl

/-- What `ensureSystemRolesInitialized` changes: the role set key, when it read nil. -/
theorem ensure_footprint (w : World) (k : String) :
    GetState (ensureSystemRolesInitialized w).2 k = GetState w k ∨
    (k = roleSetKeyPrefix ∧ getRoleSet w = .ok none ∧
      (ensureSystemRolesInitialized w).1 = .ok () ∧
      GetState (ensureSystemRolesInitialized w).2 k = some (marshalStrings defaultRoles)) := by
  unfold ensureSystemRolesInitialized
  cases hg : getRoleSet w with
  | error e => exact Or.inl rfl
  | ok rs =>
    cases rs with
    | some _ => exact Or.inl rfl
    | none =>
      simp only
      cases hp : putRoleSet w defaultRoles with
      | error e => exact Or.inl rfl
      | ok w1 =>
        simp only
        by_cases e : k = roleSetKeyPrefix
        · subst e
          exact Or.inr ⟨rfl, trivial, trivial, GetState_PutState_self hp⟩
        · exact Or.inl (GetState_PutState_ne hp e)

/-- What `Register` changes: the role set key (when it read nil) and the key of
the new identity (when it was free). -/
theorem Register_footprint (lib : Lib) (w : World) (u : String) (pem role : GoString)
    (k : String) :
    GetState (Register lib w u pem role).2 k = GetState w k ∨
    (k = roleSetKeyPrefix ∧ getRoleSet w = .ok none ∧
      GetState (Register lib w u pem role).2 k = some (marshalStrings defaultRoles)) ∨
    (k = u ∧ GetState w u = none ∧ (Register lib w u pem role).1 = .ok () ∧
      GetState (Register lib w u pem role).2 k =
        some (User.marshal ⟨pem.toValid, role.toValid⟩)) := by
  unfold Register
  have he := ensure_footprint w
  cases hen : ensureSystemRolesInitialized w with
  | mk r w1 =>
    rw [hen] at he
    simp only at he
    have keep : GetState w1 k = GetState w k ∨
        (k = roleSetKeyPrefix ∧ getRoleSet w = .ok none ∧
          GetState w1 k = some (marshalStrings defaultRoles)) := by
      rcases he k with h | ⟨h1, h2, _, h4⟩
      · exact Or.inl h
      · exact Or.inr ⟨h1, h2, h4⟩
    cases r with
    | error e =>
      simp only
      exact keep.imp id Or.inl
    | ok _ =>
      simp only
      cases hu : GetState w u with
      | some _ =>
        simp only
        exact keep.imp id Or.inl
      | none =>
        simp only
        cases hp : parsePublicKeyPEM lib pem with
        | error e =>
          simp only
          exact keep.imp id Or.inl
        | ok key =>
          simp only
          cases hput : PutState w1 u (User.marshal ⟨pem.toValid, role.toValid⟩) with
          | error e =>
            simp only
            exact keep.imp id Or.inl
          | ok w2 =>
            simp only
            by_cases e : k = u
            · subst e
              exact Or.inr (Or.inr ⟨rfl, trivial, trivial, GetState_PutState_self hput⟩)
            · rw [GetState_PutState_ne hput e]
              exact keep.imp id Or.inl

/-- What `AddResource` changes: the key of the new resource, which was free. -/
theorem AddResource_footprint (lib : Lib) (ctx : TxContext) (w : World) (sig u c : String)
    (k : String) :
    GetState (AddResource lib ctx w sig u c).2 k = GetState w k ∨
    (k = c ∧ GetState w c = none ∧ (AddResource lib ctx w sig u c).1 = .ok () ∧
      (∃ usr, QueryUserID w u = .ok usr) ∧
      GetState (AddResource lib ctx w sig u c).2 k = some (Resource.marshal ⟨u, c, ctx.now⟩)) := by
  unfold AddResource
  cases hc : GetState w c with
  | some _ => exact Or.inl rfl
  | none =>
    simp only
    cases hu : QueryUserID w u with
    | error e => exact Or.inl rfl
    | ok usr =>
      simp only
      cases hp : parsePublicKeyPEM lib usr.PK with
      | error e => exact Or.inl rfl
      | ok pub =>
        simp only
        cases hs : verifySignature_for_caliper lib u sig pub with
        | error e => exact Or.inl rfl
        | ok _ =>
          simp only
          cases hput : PutState w c (Resource.marshal ⟨u, c, ctx.now⟩) with
          | error e => exact Or.inl rfl
          | ok w1 =>
            simp only
            by_cases e : k = c
            · subst e
              exact Or.inr ⟨rfl, trivial, trivial, ⟨usr, rfl⟩, GetState_PutState_self hput⟩
            · exact Or.inl (GetState_PutState_ne hput e)

/-- What `AddPerm` changes: policy keys of `cid` and `operation` for roles of the
role set, and only when the caller owns `cid` and signed `userID ++ cid`. -/
theorem AddPerm_footprint (lib : Lib) (w : World) (sig u c op : String) (rolesJSON : Bytes)
    (k : String) :
    GetState (AddPerm lib w sig u c op rolesJSON).2 k = GetState w k ∨
    (QueryCid w c = .ok u ∧
      (∃ usr pub, QueryUserID w u = .ok usr ∧ parsePublicKeyPEM lib usr.PK = .ok pub ∧
        verifySignature lib u c sig pub = .ok ()) ∧
      ∃ role sysRoles, getRoleSet w = .ok (some sysRoles) ∧ role ∈ sysRoles ∧
        CreateCompositeKey policyObjType [role, c, op] = .ok k ∧
        GetState (AddPerm lib w sig u c op rolesJSON).2 k = some policyMarker) := by
  unfold AddPerm
  cases hc : GetState w c with
  | none => exact Or.inl rfl
  | some b =>
    simp only
    cases hr : Resource.unmarshal b with
    | none => exact Or.inl rfl
    | some res =>
      simp only
      by_cases ho : res.OwnerUID = u
      · simp only [ho, ne_eq, not_true_eq_false, if_false]
        cases hu : QueryUserID w u with
        | error e => exact Or.inl rfl
        | ok usr =>
          simp only
          cases hp : parsePublicKeyPEM lib usr.PK with
          | error e => exact Or.inl rfl
          | ok pub =>
            simp only
            cases hs : verifySignature lib u c sig pub with
            | error e => exact Or.inl rfl
            | ok _ =>
              simp only
              cases hj : unmarshalStrings rolesJSON with
              | none => exact Or.inl rfl
              | some targetRoles =>
                simp only
                cases hg : getRoleSet w with
                | error e => exact Or.inl rfl
                | ok sysRoles =>
                  simp only
                  rcases grantRoles_footprint (sysRoles.getD []) c op (targetRoles.getD []) w k
                    with h | ⟨role, _, hs2, hk, hv⟩
                  · exact Or.inl h
                  · refine Or.inr ⟨?_, ⟨usr, pub, rfl, hp, hs⟩, ?_⟩
                    · simp [QueryCid, hc, hr, ho]
                    · cases sysRoles with
                      | none => simp at hs2
                      | some rs => exact ⟨role, rs, rfl, by simpa using hs2, hk, hv⟩
      · simp only [ne_eq, ho, not_false_eq_true, if_true]
        exact Or.inl trivial

theorem written_logGen (ctx : TxContext) (w : World) (c u d : String) (k : String) :
    GetState (written (logGen ctx w c u d) w) k =
      if k = c ++ "_log_" ++ ctx.txID then some (AccessLog.marshal ⟨u, d, ctx.now⟩)
      else GetState w k := by
  obtain ⟨w1, h⟩ := PutState_ok (w := w) (AccessLog.marshal ⟨u, d, ctx.now⟩)
    (by intro h; have := congrArg (fun s => s.data.length) h; simp at this :
      c ++ "_log_" ++ ctx.txID ≠ "")
  have h2 : logGen ctx w c u d = .ok w1 := h
  rw [h2]
  exact GetState_PutState h k

/-- What `CheckPerm` changes: the audit key of this transaction for `cid`. -/
theorem CheckPerm_footprint (lib : Lib) (ctx : TxContext) (w : World) (sig op u c : String)
    (k : String) :
    GetState (CheckPerm lib ctx w sig op u c).2 k = GetState w k ∨
    (k = c ++ "_log_" ++ ctx.txID ∧ (∃ usr, QueryUserID w u = .ok usr) ∧
      ∃ d, GetState (CheckPerm lib ctx w sig op u c).2 k =
        some (AccessLog.marshal ⟨u, d, ctx.now⟩)) := by
  unfold CheckPerm
  cases hu : QueryUserID w u with
  | error e => exact Or.inl rfl
  | ok usr =>
    simp only
    cases hp : parsePublicKeyPEM lib usr.PK with
    | error e => exact Or.inl rfl
    | ok pub =>
      simp only
      have key : ∀ d, GetState (written (logGen ctx w c u d) w) k = GetState w k ∨
          (k = c ++ "_log_" ++ ctx.txID ∧ (∃ usr1, Except.ok (ε := Err) usr = .ok usr1) ∧
          ∃ d1, GetState (written (logGen ctx w c u d) w) k =
            some (AccessLog.marshal ⟨u, d1, ctx.now⟩)) := by
        intro d
        rw [written_logGen]
        by_cases e : k = c ++ "_log_" ++ ctx.txID
        · simp only [e, if_true]
          exact Or.inr ⟨trivial, ⟨usr, rfl⟩, d, rfl⟩
        · simp [e]
      cases hs : verifySignature lib u c sig pub with
      | error e => exact key "Deny"
      | ok _ =>
        simp only
        cases hh : hasPolicyEntry w usr.Role c op with
        | error e => exact key "Deny"
        | ok allowed =>
          simp only
          have := key (if allowed = true then "Permit" else "Deny")
          cases hl : logGen ctx w c u (if allowed = true then "Permit" else "Deny") with
          | error e => exact Or.inl rfl
          | ok w1 =>
            rw [hl] at this
            exact this

/-! ## Invariants of runs -/

theorem getRoleSet_congr {w w1 : World}
    (h : GetState w1 roleSetKeyPrefix = GetState w roleSetKeyPrefix) :
    getRoleSet w1 = getRoleSet w := by
  simp [getRoleSet, h]

theorem roleSet_present_of_some {w : World} {rs : List String}
    (h : getRoleSet w = .ok (some rs)) : (GetState w roleSetKeyPrefix).isSome = true := by
  unfold getRoleSet at h
  cases hg : GetState w roleSetKeyPrefix with
  | none => simp [hg] at h
  | some b => rfl

theorem logKey_ne_roleSet (c txID : String) : c ++ "_log_" ++ txID ≠ roleSetKeyPrefix := by
  intro h
  have hm : '_' ∈ (c ++ "_log_" ++ txID).data := by simp
  rw [h] at hm
  revert hm
  decide

theorem compositeKey_ne_roleSet {r c op key : String}
    (h : CreateCompositeKey policyObjType [r, c, op] = .ok key) : key ≠ roleSetKeyPrefix := by
  intro e
  have := compositeKey_startsWithNull h
  rw [e] at this
  revert this
  decide

/-- No call removes a key. -/
theorem run_keeps_keys (lib : Lib) (ctx : TxContext) (w : World) (call : Call) (k : String)
    (h : (GetState w k).isSome = true) : (GetState (call.run lib ctx w) k).isSome = true := by
  cases call with
  | register u pem role =>
    rcases Register_footprint lib w u pem role k with e | ⟨_, _, e⟩ | ⟨_, _, _, e⟩ <;>
      simp [Call.run, e, h]
  | queryUserID _ => exact h
  | addResource sig u c =>
    rcases AddResource_footprint lib ctx w sig u c k with e | ⟨_, _, _, _, e⟩ <;>
      simp [Call.run, e, h]
  | addPerm sig u c op roles =>
    rcases AddPerm_footprint lib w sig u c op roles k with e | ⟨_, _, _, _, _, _, _, e⟩ <;>
      simp [Call.run, e, h]
  | checkPerm sig op u c =>
    rcases CheckPerm_footprint lib ctx w sig op u c k with e | ⟨_, _, _, e⟩ <;>
      simp [Call.run, e, h]
  | queryCid _ => exact h
  | traceCid _ => exact h

/-- Once the role set key holds a value that does not read as nil, no call writes it. -/
theorem run_roleSet_present (lib : Lib) (ctx : TxContext) (w : World) (call : Call)
    (hp : (GetState w roleSetKeyPrefix).isSome = true) (hn : getRoleSet w ≠ .ok none) :
    GetState (call.run lib ctx w) roleSetKeyPrefix = GetState w roleSetKeyPrefix := by
  cases call with
  | register u pem role =>
    rcases Register_footprint lib w u pem role roleSetKeyPrefix with e | ⟨_, e, _⟩ | ⟨e1, e2, _⟩
    · exact e
    · exact absurd e hn
    · rw [e1, e2] at hp; cases hp
  | queryUserID _ => rfl
  | addResource sig u c =>
    rcases AddResource_footprint lib ctx w sig u c roleSetKeyPrefix with e | ⟨e1, e2, _⟩
    · exact e
    · rw [e1, e2] at hp; cases hp
  | addPerm sig u c op roles =>
    rcases AddPerm_footprint lib w sig u c op roles roleSetKeyPrefix with
      e | ⟨_, _, _, _, _, _, e, _⟩
    · exact e
    · exact absurd rfl (compositeKey_ne_roleSet e)
  | checkPerm sig op u c =>
    rcases CheckPerm_footprint lib ctx w sig op u c roleSetKeyPrefix with e | ⟨e, _⟩
    · exact e
    · exact absurd e.symm (logKey_ne_roleSet c ctx.txID)
  | queryCid _ => rfl
  | traceCid _ => rfl

/-- Once the role set holds a list, no call writes its key. -/
theorem run_roleSet (lib : Lib) (ctx : TxContext) (w : World) (call : Call) (rs : List String)
    (h : getRoleSet w = .ok (some rs)) :
    GetState (call.run lib ctx w) roleSetKeyPrefix = GetState w roleSetKeyPrefix :=
  run_roleSet_present lib ctx w call (roleSet_present_of_some h) (by rw [h]; simp)

theorem runCalls_keeps_keys (lib : Lib) (k : String) :
    ∀ (calls : List (TxContext × Call)) (w : World), (GetState w k).isSome = true →
      (GetState (runCalls lib w calls) k).isSome = true
  | [], _, h => h
  | (ctx, c) :: rest, w, h =>
    runCalls_keeps_keys lib k rest _ (run_keeps_keys lib ctx w c k h)

theorem runCalls_roleSet (lib : Lib) (rs : List String) :
    ∀ (calls : List (TxContext × Call)) (w : World), getRoleSet w = .ok (some rs) →
      getRoleSet (runCalls lib w calls) = .ok (some rs)
  | [], _, h => h
  | (ctx, c) :: rest, w, h =>
    runCalls_roleSet lib rs rest _ ((getRoleSet_congr (run_roleSet lib ctx w c rs h)).trans h)

theorem Register_of_present (lib : Lib) (w : World) (u : String) (pem role : GoString)
    (rs : List String)
    (hr : getRoleSet w = .ok (some rs)) (hu : (GetState w u).isSome = true) :
    Register lib w u pem role = (.error (.userAlreadyExists u), w) := by
  unfold Register ensureSystemRolesInitialized
  simp only [hr]
  cases hg : GetState w u with
  | none => simp [hg] at hu
  | some _ => rfl

theorem getRoleSet_default {w w1 : World} (h : putRoleSet w defaultRoles = .ok w1) :
    getRoleSet w1 = .ok (some defaultRoles) := by
  have := GetState_PutState_self h
  simp only [getRoleSet, this]
  rfl

/-- When `ensureSystemRolesInitialized` succeeds the role set it leaves holds a list. -/
theorem ensure_ok_post {w w0 : World} (he : ensureSystemRolesInitialized w = (.ok (), w0)) :
    ∃ rs, getRoleSet w0 = .ok (some rs) := by
  unfold ensureSystemRolesInitialized at he
  cases hg : getRoleSet w with
  | error e => simp [hg] at he
  | ok r =>
    cases r with
    | some rs =>
      simp only [hg] at he
      cases he
      exact ⟨rs, hg⟩
    | none =>
      simp only [hg] at he
      cases hp : putRoleSet w defaultRoles with
      | error e => simp [hp] at he
      | ok w1 =>
        simp only [hp] at he
        cases he
        exact ⟨defaultRoles, getRoleSet_default hp⟩

/-- After a successful `Register` the identity is stored, and the role set holds a
list unless the identity was registered under the role set key. -/
theorem Register_ok_post (lib : Lib) (w : World) (u : String) (pem role : GoString)
    (h : (Register lib w u pem role).1 = .ok ()) :
    (u ≠ roleSetKeyPrefix → ∃ rs, getRoleSet (Register lib w u pem role).2 = .ok (some rs)) ∧
    GetState (Register lib w u pem role).2 u =
      some (User.marshal ⟨pem.toValid, role.toValid⟩) := by
  unfold Register at h ⊢
  cases hen : ensureSystemRolesInitialized w with
  | mk r w0 =>
    rw [hen] at h
    cases r with
    | error e => simp at h
    | ok _ =>
      simp only at h ⊢
      obtain ⟨rs, hrs⟩ := ensure_ok_post hen
      cases hu : GetState w u with
      | some _ => simp [hu] at h
      | none =>
        simp only [hu] at h ⊢
        cases hp : parsePublicKeyPEM lib pem with
        | error e => simp [hp] at h
        | ok key =>
          simp only [hp] at h ⊢
          cases hput : PutState w0 u (User.marshal ⟨pem.toValid, role.toValid⟩) with
          | error e => simp [hput] at h
          | ok w2 =>
            simp only
            refine ⟨fun hne => ⟨rs, ?_⟩, GetState_PutState_self hput⟩
            rw [getRoleSet_congr (GetState_PutState_ne hput (Ne.symm hne))]
            exact hrs

theorem GetState_empty (k : String) : GetState World.empty k = none := rfl

/-- On the empty ledger only `Register` writes. -/
theorem run_empty (lib : Lib) (ctx : TxContext) (call : Call)
    (h : ∀ u pem role, call ≠ .register u pem role) : call.run lib ctx World.empty = World.empty := by
  cases call with
  | register u pem role => exact absurd rfl (h u pem role)
  | queryUserID _ => rfl
  | addResource sig u c => simp [Call.run, AddResource, GetState_empty, QueryUserID]
  | addPerm sig u c op roles => simp [Call.run, AddPerm, GetState_empty]
  | checkPerm sig op u c => simp [Call.run, CheckPerm, GetState_empty, QueryUserID]
  | queryCid _ => rfl
  | traceCid _ => rfl

/-- A `Register` call that reads no role set leaves the default one stored, or,
when it registers an identity under the role set key, the record of that
identity in its place. -/
theorem Register_writes_roleSet (lib : Lib) (w : World) (u : String) (pem role : GoString)
    (h : getRoleSet w = .ok none) :
    GetState (Register lib w u pem role).2 roleSetKeyPrefix =
      some (marshalStrings defaultRoles) ∨
    (u = roleSetKeyPrefix ∧ (Register lib w u pem role).1 = .ok () ∧
      GetState (Register lib w u pem role).2 roleSetKeyPrefix =
        some (User.marshal ⟨pem.toValid, role.toValid⟩)) := by
  obtain ⟨w0, h0⟩ := PutState_ok (w := w) (marshalStrings defaultRoles)
    (by decide : roleSetKeyPrefix ≠ "")
  have h1 : putRoleSet w defaultRoles = .ok w0 := h0
  have hd : GetState w0 roleSetKeyPrefix = some (marshalStrings defaultRoles) :=
    GetState_PutState_self h0
  have he : ensureSystemRolesInitialized w = (.ok (), w0) := by
    simp [ensureSystemRolesInitialized, h, h1]
  unfold Register
  rw [he]
  simp only
  cases hu : GetState w u with
  | some _ => exact Or.inl hd
  | none =>
    simp only
    cases hp : parsePublicKeyPEM lib pem with
    | error e => exact Or.inl hd
    | ok key =>
      simp only
      cases hput : PutState w0 u (User.marshal ⟨pem.toValid, role.toValid⟩) with
      | error e => exact Or.inl hd
      | ok w2 =>
        simp only
        by_cases hne : u = roleSetKeyPrefix
        · subst hne
          exact Or.inr ⟨rfl, trivial, GetState_PutState_self hput⟩
        · rw [GetState_PutState_ne hput (Ne.symm hne)]
          exact Or.inl hd

/-- A stored identity record does not read as a role set. -/
theorem getRoleSet_of_user {w : World} {pk role : String}
    (h : GetState w roleSetKeyPrefix = some (User.marshal ⟨pk, role⟩)) :
    getRoleSet w = .error .unmarshalRoleSetFailed := by
  simp only [getRoleSet, h]
  rfl

theorem getRoleSet_of_value {w : World}
    (h : GetState w roleSetKeyPrefix = some (marshalStrings defaultRoles)) :
    getRoleSet w = .ok (some defaultRoles) := by
  simp only [getRoleSet, h]
  rfl

/-- What is stored under the role set key of a reached ledger stays what it is,
and the empty ledger gets the default roles or an identity record there. -/
theorem run_reachedRoleSet (lib : Lib) (ctx : TxContext) (w : World) (call : Call)
    (h : ReachedRoleSet w) : ReachedRoleSet (call.run lib ctx w) := by
  rcases h with h | h | ⟨pk, role, h⟩
  · subst h
    by_cases hr : ∃ u pem role, call = .register u pem role
    · obtain ⟨u, pem, role, e⟩ := hr
      subst e
      rcases Register_writes_roleSet lib World.empty u pem role rfl with e | ⟨_, _, e⟩
      · exact Or.inr (Or.inl e)
      · exact Or.inr (Or.inr ⟨_, _, e⟩)
    · exact Or.inl (run_empty lib ctx call (fun u pem role e => hr ⟨u, pem, role, e⟩))
  · refine Or.inr (Or.inl ?_)
    rw [run_roleSet lib ctx w call defaultRoles (getRoleSet_of_value h)]
    exact h
  · refine Or.inr (Or.inr ⟨pk, role, ?_⟩)
    rw [run_roleSet_present lib ctx w call (by rw [h]; rfl)
      (by rw [getRoleSet_of_user h]; simp)]
    exact h

/-- Every ledger reached from the empty one is empty, or holds the default roles
or an identity record under the role set key. -/
theorem runCalls_reachedRoleSet (lib : Lib) :
    ∀ (calls : List (TxContext × Call)) (w : World), ReachedRoleSet w →
      ReachedRoleSet (runCalls lib w calls)
  | [], _, h => h
  | (ctx, call) :: rest, w, h =>
    runCalls_reachedRoleSet lib rest _ (run_reachedRoleSet lib ctx w call h)

/-- After a successful `Register` of an identity other than the role set key, and
after any further calls, every `Register` of that identity fails with the
already-exists error and leaves the ledger state as it was. -/
theorem Register_again_fails (lib : Lib) (w : World) (u : String) (pem role : GoString)
    (hnr : u ≠ roleSetKeyPrefix) (h : (Register lib w u pem role).1 = .ok ())
    (calls : List (TxContext × Call)) (pem1 role1 : GoString) :
    Register lib (runCalls lib (Register lib w u pem role).2 calls) u pem1 role1 =
      (.error (.userAlreadyExists u), runCalls lib (Register lib w u pem role).2 calls) := by
  obtain ⟨hrs, hu⟩ := Register_ok_post lib w u pem role h
  obtain ⟨rs, hrs⟩ := hrs hnr
  exact Register_of_present lib _ u pem1 role1 rs (runCalls_roleSet lib rs calls _ hrs)
    (runCalls_keeps_keys lib u calls _ (by rw [hu]; rfl))

/-! ## Repeated grants and the origin of policy entries -/

theorem putPolicyEntry_error_iff {w : World} {r c op : String} {e : Err} :
    putPolicyEntry w r c op = .error e ↔
      ∃ e1, CreateCompositeKey policyObjType [r, c, op] = .error e1 ∧
        e = .createCompositeKeyFailed e1 := by
  unfold putPolicyEntry
  cases h : CreateCompositeKey policyObjType [r, c, op] with
  | error e1 => simp [eq_comm]
  | ok key =>
    obtain ⟨w1, hw⟩ := PutState_ok (w := w) policyMarker (compositeKey_ne_empty h)
    simp [hw]

/-- The result of the grant loop does not depend on the ledger. -/
theorem grantRoles_result (sysRoles : List String) (c op : String) :
    ∀ (roles : List String) (w w1 : World),
      (grantRoles sysRoles c op w roles).1 = (grantRoles sysRoles c op w1 roles).1
  | [], _, _ => rfl
  | role :: rest, w, w1 => by
    unfold grantRoles
    by_cases hc : sysRoles.contains role = true
    · simp only [hc, if_true]
      cases hk : CreateCompositeKey policyObjType [role, c, op] with
      | error e1 =>
        have h1 : putPolicyEntry w role c op = .error (.createCompositeKeyFailed e1) :=
          putPolicyEntry_error_iff.mpr ⟨e1, hk, rfl⟩
        have h2 : putPolicyEntry w1 role c op = .error (.createCompositeKeyFailed e1) :=
          putPolicyEntry_error_iff.mpr ⟨e1, hk, rfl⟩
        rw [h1, h2]
      | ok key =>
        obtain ⟨v, hv⟩ := PutState_ok (w := w) policyMarker (compositeKey_ne_empty hk)
        obtain ⟨v1, hv1⟩ := PutState_ok (w := w1) policyMarker (compositeKey_ne_empty hk)
        rw [putPolicyEntry_ok_iff.mpr ⟨key, hk, hv⟩, putPolicyEntry_ok_iff.mpr ⟨key, hk, hv1⟩]
        exact grantRoles_result sysRoles c op rest v v1
    · simp only [hc]
      rfl

/-- The ledger the grant loop leaves: the policy marker under the granted keys,
every other key as before. -/
theorem grantRoles_state (sysRoles : List String) (c op : String) :
    ∀ (roles : List String) (w : World) (k : String),
      GetState (grantRoles sysRoles c op w roles).2 k =
        if k ∈ grantedKeys sysRoles c op roles then some policyMarker else GetState w k
  | [], w, k => by simp [grantRoles, grantedKeys]
  | role :: rest, w, k => by
    unfold grantRoles grantedKeys
    by_cases hc : sysRoles.contains role = true
    · simp only [hc, if_true]
      cases hk : CreateCompositeKey policyObjType [role, c, op] with
      | error e1 =>
        have h1 : putPolicyEntry w role c op = .error (.createCompositeKeyFailed e1) :=
          putPolicyEntry_error_iff.mpr ⟨e1, hk, rfl⟩
        rw [h1]
        simp
      | ok key =>
        obtain ⟨v, hv⟩ := PutState_ok (w := w) policyMarker (compositeKey_ne_empty hk)
        rw [putPolicyEntry_ok_iff.mpr ⟨key, hk, hv⟩]
        simp only [grantRoles_state sysRoles c op rest v k, GetState_PutState hv, List.mem_cons]
        by_cases e : k = key
        · simp [e]
        · simp [e]
    · simp only [hc]
      simp

/-- Running the grant loop again on the ledger it left changes nothing. -/
theorem grantRoles_idem (sysRoles : List String) (c op : String) (roles : List String)
    (w : World) :
    (grantRoles sysRoles c op (grantRoles sysRoles c op w roles).2 roles).2 =
      (grantRoles sysRoles c op w roles).2 := by
  apply World.ext
  intro k
  rw [grantRoles_state, grantRoles_state]
  by_cases h : k ∈ grantedKeys sysRoles c op roles <;> simp [h]

/-- A second identical `AddPerm` leaves the ledger the first one left. -/
theorem AddPerm_twice_state (lib : Lib) (w : World) (sig u c op : String) (rolesJSON : Bytes) :
    (AddPerm lib (AddPerm lib w sig u c op rolesJSON).2 sig u c op rolesJSON).2 =
      (AddPerm lib w sig u c op rolesJSON).2 := by
  have hrs : getRoleSet (AddPerm lib w sig u c op rolesJSON).2 = getRoleSet w := by
    apply getRoleSet_congr
    rcases AddPerm_footprint lib w sig u c op rolesJSON roleSetKeyPrefix with
      e | ⟨_, _, _, _, _, _, e, _⟩
    · exact e
    · exact absurd rfl (compositeKey_ne_roleSet e)
  generalize hA : AddPerm lib w sig u c op rolesJSON = A at hrs ⊢
  have hfirst : A.2 = w ∨ ∃ sysRoles targetRoles, getRoleSet w = .ok sysRoles ∧
      unmarshalStrings rolesJSON = some targetRoles ∧
      A.2 = (grantRoles (sysRoles.getD []) c op w (targetRoles.getD [])).2 := by
    rw [← hA]
    unfold AddPerm
    cases GetState w c with
    | none => exact Or.inl rfl
    | some b =>
      simp only
      cases Resource.unmarshal b with
      | none => exact Or.inl rfl
      | some res =>
        simp only
        by_cases ho : res.OwnerUID = u
        · simp only [ho, ne_eq, not_true_eq_false, if_false]
          cases QueryUserID w u with
          | error e => exact Or.inl rfl
          | ok usr =>
            simp only
            cases parsePublicKeyPEM lib usr.PK with
            | error e => exact Or.inl rfl
            | ok pub =>
              simp only
              cases verifySignature lib u c sig pub with
              | error e => exact Or.inl rfl
              | ok _ =>
                simp only
                cases hj : unmarshalStrings rolesJSON with
                | none => exact Or.inl rfl
                | some targetRoles =>
                  simp only
                  cases hg : getRoleSet w with
                  | error e => exact Or.inl rfl
                  | ok sysRoles => exact Or.inr ⟨sysRoles, targetRoles, rfl, rfl, rfl⟩
        · simp only [ne_eq, ho, not_false_eq_true, if_true]
          exact Or.inl trivial
  rcases hfirst with h | ⟨sysRoles, targetRoles, hg, hj, h⟩
  · rw [h, hA]
    exact h
  · unfold AddPerm
    cases GetState A.2 c with
    | none => rfl
    | some b =>
      simp only
      cases Resource.unmarshal b with
      | none => rfl
      | some res =>
        simp only
        by_cases ho : res.OwnerUID = u
        · simp only [ho, ne_eq, not_true_eq_false, if_false]
          cases QueryUserID A.2 u with
          | error e => rfl
          | ok usr =>
            simp only
            cases parsePublicKeyPEM lib usr.PK with
            | error e => rfl
            | ok pub =>
              simp only
              cases verifySignature lib u c sig pub with
              | error e => rfl
              | ok _ =>
                simp only [hj, hrs, hg]
                rw [h]
                exact grantRoles_idem _ c op _ w
        · simp only [ne_eq, ho, not_false_eq_true, if_true]

theorem not_startsWithNull_of_valid {s : String} (h : validAttribute s = true) :
    startsWithNull s = false := by
  unfold startsWithNull
  cases hd : s.data with
  | nil => rfl
  | cons a t =>
    simp only [validAttribute, hd, List.all_cons, Bool.and_eq_true, decide_eq_true_eq] at h
    simpa using h.1.1

/-- The result of `AddPerm` depends on the ledger only through the resource, the
caller's identity record and the role set. -/
theorem AddPerm_result_congr (lib : Lib) (w w1 : World) (sig u c op : String)
    (rolesJSON : Bytes) (hc : GetState w1 c = GetState w c)
    (hq : QueryUserID w1 u = QueryUserID w u) (hrs : getRoleSet w1 = getRoleSet w) :
    (AddPerm lib w1 sig u c op rolesJSON).1 = (AddPerm lib w sig u c op rolesJSON).1 := by
  unfold AddPerm
  rw [hc, hq, hrs]
  cases GetState w c with
  | none => rfl
  | some b =>
    simp only
    cases Resource.unmarshal b with
    | none => rfl
    | some res =>
      simp only
      by_cases ho : res.OwnerUID = u
      · simp only [ho, ne_eq, not_true_eq_false, if_false]
        cases QueryUserID w u with
        | error e => rfl
        | ok usr =>
          simp only
          cases parsePublicKeyPEM lib usr.PK with
          | error e => rfl
          | ok pub =>
            simp only
            cases verifySignature lib u c sig pub with
            | error e => rfl
            | ok _ =>
              simp only
              cases unmarshalStrings rolesJSON with
              | none => rfl
              | some targetRoles =>
                simp only
                cases getRoleSet w with
                | error e => rfl
                | ok sysRoles => exact grantRoles_result _ c op _ w1 w
      · simp only [ne_eq, ho, not_false_eq_true, if_true]

/-- A second identical `AddPerm` by a caller whose identity does not start with
U+0000 returns what the first one returned. -/
theorem AddPerm_twice_result (lib : Lib) (w : World) (sig u c op : String) (rolesJSON : Bytes)
    (hu : startsWithNull u = false) :
    (AddPerm lib (AddPerm lib w sig u c op rolesJSON).2 sig u c op rolesJSON).1 =
      (AddPerm lib w sig u c op rolesJSON).1 := by
  have key : ∀ k, (k = c ∨ k = u ∨ k = roleSetKeyPrefix) →
      GetState (AddPerm lib w sig u c op rolesJSON).2 k = GetState w k := by
    intro k hk
    rcases AddPerm_footprint lib w sig u c op rolesJSON k with e | ⟨_, _, _, _, _, _, e, _⟩
    · exact e
    · exfalso
      have hn := compositeKey_startsWithNull e
      rcases hk with hk | hk | hk
      · subst hk
        rw [not_startsWithNull_of_valid (CreateCompositeKey_ok_iff.mp e).1.2.1] at hn
        cases hn
      · subst hk
        rw [hu] at hn
        cases hn
      · exact compositeKey_ne_roleSet e hk
  apply AddPerm_result_congr
  · exact key c (Or.inl rfl)
  · simp [QueryUserID, key u (Or.inr (Or.inl rfl))]
  · exact getRoleSet_congr (key roleSetKeyPrefix (Or.inr (Or.inr rfl)))

/-- How a policy entry can come into being: a call turns `hasPolicyEntry` of a
tuple from false to true only if it is an `AddPerm` on that contentID and
operation by the owner of the resource with a verifying signature, or if it is a
`Register`, `AddResource` or `CheckPerm` whose own ledger key is the composite
key of the tuple. -/
theorem hasPolicyEntry_created (lib : Lib) (ctx : TxContext) (w : World) (call : Call)
    (r c op : String) (h0 : hasPolicyEntry w r c op = .ok false)
    (h1 : hasPolicyEntry (call.run lib ctx w) r c op = .ok true) :
    (∃ sig u rolesJSON, call = .addPerm sig u c op rolesJSON ∧ QueryCid w c = .ok u ∧
      ∃ usr pub, QueryUserID w u = .ok usr ∧ parsePublicKeyPEM lib usr.PK = .ok pub ∧
        verifySignature lib u c sig pub = .ok ()) ∨
    (∃ key, CreateCompositeKey policyObjType [r, c, op] = .ok key ∧
      ((∃ pem role, call = .register key pem role) ∨
       (∃ sig u, call = .addResource sig u key) ∨
       (∃ sig op1 u c1, call = .checkPerm sig op1 u c1 ∧ c1 ++ "_log_" ++ ctx.txID = key))) := by
  cases hk : CreateCompositeKey policyObjType [r, c, op] with
  | error e => simp [hasPolicyEntry, hk] at h0
  | ok key =>
    rw [hasPolicyEntry_of_key hk] at h0 h1
    have hne : GetState (call.run lib ctx w) key ≠ GetState w key := by
      intro e
      rw [e] at h1
      rw [h1] at h0
      cases h0
    cases call with
    | register u pem role =>
      rcases Register_footprint lib w u pem role key with e | ⟨e, _⟩ | ⟨e, _⟩
      · exact absurd e hne
      · exact absurd e (compositeKey_ne_roleSet hk)
      · exact Or.inr ⟨key, rfl, Or.inl ⟨pem, role, by rw [e]⟩⟩
    | queryUserID _ => exact absurd rfl hne
    | addResource sig u c1 =>
      rcases AddResource_footprint lib ctx w sig u c1 key with e | ⟨e, _⟩
      · exact absurd e hne
      · exact Or.inr ⟨key, rfl, Or.inr (Or.inl ⟨sig, u, by rw [e]⟩)⟩
    | addPerm sig u c1 op1 roles =>
      rcases AddPerm_footprint lib w sig u c1 op1 roles key with
        e | ⟨hq, hs, role, _, _, _, e, _⟩
      · exact absurd e hne
      · obtain ⟨_, e2, e3⟩ := compositeKey_inj e hk
        subst e2 e3
        exact Or.inl ⟨sig, u, roles, rfl, hq, hs⟩
    | checkPerm sig op1 u c1 =>
      rcases CheckPerm_footprint lib ctx w sig op1 u c1 key with e | ⟨e, _⟩
      · exact absurd e hne
      · exact Or.inr ⟨key, rfl, Or.inr (Or.inr ⟨sig, op1, u, c1, rfl, e.symm⟩)⟩
    | queryCid _ => exact absurd rfl hne
    | traceCid _ => exact absurd rfl hne

/-! ## The audit range and its order -/

/-- In a key-ordered list an entry is a member exactly when `lookup` finds it. -/
theorem mem_iff_lookup : ∀ {l : List (String × Bytes)}, Sorted l →
    ∀ (k : String) (v : Bytes), (k, v) ∈ l ↔ lookup k l = some v
  | [], _, k, v => by simp [lookup]
  | (k1, v1) :: t, h, k, v => by
    have hp := List.pairwise_cons.mp h
    simp only [List.mem_cons, Prod.mk.injEq, lookup]
    by_cases e : k1 = k
    · subst e
      simp only [if_true, Option.some.injEq]
      constructor
      · rintro (⟨_, rfl⟩ | hm)
        · rfl
        · exact absurd rfl (keyLt_ne (hp.1 (k1, v) hm))
      · rintro rfl
        exact Or.inl ⟨trivial, rfl⟩
    · simp only [e, if_false]
      rw [← mem_iff_lookup hp.2 k v]
      constructor
      · rintro (⟨rfl, _⟩ | hm)
        · exact absurd rfl e
        · exact hm
      · exact Or.inr

theorem ltChars_append_left (p : List Char) (a b : List Char) :
    ltChars (p ++ a) (p ++ b) = ltChars a b := by
  induction p with
  | nil => rfl
  | cons x xs ih => simp [ltChars, ih]

theorem keyLt_append_left (p a b : String) : keyLt (p ++ a) (p ++ b) = keyLt a b := by
  simp [keyLt, ltChars_append_left]

theorem ltChars_nil_right (a : List Char) : ltChars a [] = false := by
  cases a <;> rfl

theorem startsWithNull_logKey {c : String} (h : startsWithNull c = false) (s : String) :
    startsWithNull (c ++ "_log_" ++ s) = false := by
  unfold startsWithNull at h ⊢
  cases hd : c.data with
  | nil => simp [hd]
  | cons x xs =>
    rw [hd] at h
    simp only [String.data_append, hd, List.cons_append]
    exact h

theorem startsWithNull_startKey {c : String} (h : startsWithNull c = false) :
    startsWithNull (c ++ "_log_") = false := by
  have := startsWithNull_logKey h ""
  simpa using this

theorem startKey_ne_empty (c : String) : c ++ "_log_" ≠ "" := by
  intro h
  have := congrArg (fun s => s.data.length) h
  simp at this

theorem GetStateByRange_trace (w : World) (c : String) (hc : startsWithNull c = false) :
    GetStateByRange w (c ++ "_log_") (c ++ "_log_" ++ "\uffff") =
      .ok (w.entries.filter (fun kv => !keyLt kv.1 (c ++ "_log_") &&
        keyLt kv.1 (c ++ "_log_" ++ "\uffff"))) := by
  have h1 := startsWithNull_startKey hc
  have h2 := startsWithNull_logKey hc "\uffff"
  have h3 := startKey_ne_empty c
  have h4 := logKey_ne_empty c "\uffff"
  simp [GetStateByRange, h1, h2, h3, h4]

/-- What a `CheckPerm` call that returns a decision has done. -/
theorem CheckPerm_ok (lib : Lib) (ctx : TxContext) (w : World) (sig op u c d : String)
    (h : (CheckPerm lib ctx w sig op u c).1 = .ok d) :
    validAttribute c = true ∧
    PutState w (c ++ "_log_" ++ ctx.txID) (AccessLog.marshal ⟨u, d, ctx.now⟩) =
      .ok (CheckPerm lib ctx w sig op u c).2 := by
  unfold CheckPerm at h ⊢
  cases hu : QueryUserID w u with
  | error e => simp [hu] at h
  | ok usr =>
    simp only [hu] at h ⊢
    cases hp : parsePublicKeyPEM lib usr.PK with
    | error e => simp [hp] at h
    | ok pub =>
      simp only [hp] at h ⊢
      cases hs : verifySignature lib u c sig pub with
      | error e => simp [hs] at h
      | ok _ =>
        simp only [hs] at h ⊢
        cases hh : hasPolicyEntry w usr.Role c op with
        | error e => simp [hh] at h
        | ok allowed =>
          simp only [hh] at h ⊢
          have hv : validAttribute c = true := by
            unfold hasPolicyEntry at hh
            cases hk : CreateCompositeKey policyObjType [usr.Role, c, op] with
            | error e => simp [hk] at hh
            | ok key => exact (CreateCompositeKey_ok_iff.mp hk).1.2.1
          cases hl : logGen ctx w c u (if allowed = true then "Permit" else "Deny") with
          | error e => simp [hl] at h
          | ok w1 =>
            simp only [hl] at h ⊢
            have hd : (if allowed = true then "Permit" else "Deny") = d := by simpa using h
            rw [hd] at hl
            exact ⟨hv, hl⟩

/-- The audit key of a transaction lies in the range `TraceCid` scans when the
transaction identifier sorts below the end sentinel. -/
theorem logKey_in_range (c txID : String) (h : belowSentinel txID = true) :
    (!keyLt (c ++ "_log_" ++ txID) (c ++ "_log_") &&
      keyLt (c ++ "_log_" ++ txID) (c ++ "_log_" ++ "\uffff")) = true := by
  have h1 : keyLt (c ++ "_log_" ++ txID) (c ++ "_log_") = false := by
    have := keyLt_append_left (c ++ "_log_") txID ""
    simp only [String.append_empty] at this
    rw [this]
    simp [keyLt, ltChars_nil_right]
  have h2 : keyLt (c ++ "_log_" ++ txID) (c ++ "_log_" ++ "\uffff") = true := by
    rw [keyLt_append_left]
    exact h
  simp [h1, h2]

theorem logKey_inj_txID (c t1 t2 : String) (h : c ++ "_log_" ++ t1 = c ++ "_log_" ++ t2) :
    t1 = t2 := by
  have := congrArg String.data h
  simp only [String.data_append] at this
  exact String.ext (List.append_cancel_left this)

/-- Storing a value under a key that is not in the list opens the list in two
and puts the entry in between. -/
theorem insert_split (k : String) (v : Bytes) :
    ∀ (l : List (String × Bytes)), lookup k l = none →
      ∃ A B, l = A ++ B ∧ insert k v l = A ++ (k, v) :: B
  | [], _ => ⟨[], [], rfl, rfl⟩
  | (k1, v1) :: t, h => by
    simp only [lookup] at h
    by_cases e : k1 = k
    · simp [e] at h
    · simp only [e, if_false] at h
      simp only [insert, e, if_false]
      by_cases hl : keyLt k k1 = true
      · exact ⟨[], (k1, v1) :: t, rfl, by simp [hl]⟩
      · obtain ⟨A, B, h1, h2⟩ := insert_split k v t h
        refine ⟨(k1, v1) :: A, B, by simp [h1], ?_⟩
        simp [hl, h2]

/-- Two entries of a key-ordered list stand in the order of their keys. -/
theorem sorted_split_two {l : List (String × Bytes)} (hs : Sorted l) {k1 k2 : String}
    {v1 v2 : Bytes} (h1 : (k1, v1) ∈ l) (h2 : (k2, v2) ∈ l) (hlt : keyLt k1 k2 = true) :
    ∃ A B C, l = A ++ (k1, v1) :: (B ++ (k2, v2) :: C) := by
  obtain ⟨A, R, hl⟩ := List.append_of_mem h1
  subst hl
  have hp := List.pairwise_append.mp hs
  have hR := List.pairwise_cons.mp hp.2.1
  rcases List.mem_append.mp h2 with hA | hR2
  · have := hp.2.2 _ hA _ (List.mem_cons_self _ _)
    have h3 := keyLt_trans this hlt
    rw [keyLt_irrefl] at h3
    cases h3
  · rcases List.mem_cons.mp hR2 with e | hR3
    · simp only [Prod.mk.injEq] at e
      rw [e.1, keyLt_irrefl] at hlt
      cases hlt
    · obtain ⟨B, C, hBC⟩ := List.append_of_mem hR3
      exact ⟨A, B, C, by rw [hBC]⟩

/-- `TraceCid` on a contentID that does not start with U+0000. -/
theorem TraceCid_eq (w : World) (c : String) (hc : startsWithNull c = false) :
    TraceCid w c = .ok ((w.entries.filter (fun kv => !keyLt kv.1 (c ++ "_log_") &&
      keyLt kv.1 (c ++ "_log_" ++ "\uffff"))).filterMap (fun kv => AccessLog.unmarshal kv.2)) := by
  simp [TraceCid, GetStateByRange_trace w c hc]

/-- Two audit entries of one contentID written in a ledger are listed by
`TraceCid` in the order of their transaction identifiers. -/
theorem TraceCid_two_entries (w : World) (c t1 t2 : String) (e1 e2 : AccessLog)
    (hc : startsWithNull c = false)
    (g1 : GetState w (c ++ "_log_" ++ t1) = some e1.marshal)
    (g2 : GetState w (c ++ "_log_" ++ t2) = some e2.marshal)
    (hb1 : belowSentinel t1 = true) (hb2 : belowSentinel t2 = true)
    (hlt : keyLt t1 t2 = true) :
    ∃ pre mid post, TraceCid w c = .ok (pre ++ e1 :: (mid ++ e2 :: post)) := by
  have hk : keyLt (c ++ "_log_" ++ t1) (c ++ "_log_" ++ t2) = true := by
    rw [keyLt_append_left]; exact hlt
  have m1 := (mem_iff_lookup w.sorted _ _).mpr g1
  have m2 := (mem_iff_lookup w.sorted _ _).mpr g2
  obtain ⟨A, B, C, hl⟩ := sorted_split_two w.sorted m1 m2 hk
  rw [TraceCid_eq w c hc, hl]
  refine ⟨((A.filter (fun kv : String × Bytes => !keyLt kv.1 (c ++ "_log_") &&
      keyLt kv.1 (c ++ "_log_" ++ "\uffff"))).filterMap
      (fun kv : String × Bytes => AccessLog.unmarshal kv.2)), ((B.filter (fun kv : String × Bytes => !keyLt kv.1 (c ++ "_log_") &&
      keyLt kv.1 (c ++ "_log_" ++ "\uffff"))).filterMap
      (fun kv : String × Bytes => AccessLog.unmarshal kv.2)), ((C.filter (fun kv : String × Bytes => !keyLt kv.1 (c ++ "_log_") &&
      keyLt kv.1 (c ++ "_log_" ++ "\uffff"))).filterMap
      (fun kv : String × Bytes => AccessLog.unmarshal kv.2)), ?_⟩
  simp only [List.filter_append, List.filter_cons, logKey_in_range c _ hb1,
    logKey_in_range c _ hb2, if_true, List.filterMap_append, List.filterMap_cons,
    unmarshal_marshal_AccessLog]

/-- A `CheckPerm` that returns a decision, under a transaction identifier below
the sentinel whose audit key is free, makes `TraceCid` list exactly one more
entry, the one of this call, and keeps the others in place. -/
theorem checkPerm_appends_trace (lib : Lib) (ctx : TxContext) (w : World)
    (sig op u c d : String) (h : (CheckPerm lib ctx w sig op u c).1 = .ok d)
    (hfree : GetState w (c ++ "_log_" ++ ctx.txID) = none)
    (hb : belowSentinel ctx.txID = true) :
    ∃ pre post, TraceCid w c = .ok (pre ++ post) ∧
      TraceCid (CheckPerm lib ctx w sig op u c).2 c = .ok (pre ++ ⟨u, d, ctx.now⟩ :: post) := by
  obtain ⟨hv, hp⟩ := CheckPerm_ok lib ctx w sig op u c d h
  have hc := not_startsWithNull_of_valid hv
  generalize (CheckPerm lib ctx w sig op u c).2 = w1 at hp ⊢
  have he : w1.entries = insert (c ++ "_log_" ++ ctx.txID)
      (AccessLog.marshal ⟨u, d, ctx.now⟩) w.entries := by
    unfold PutState at hp
    split at hp
    · cases hp
    · cases hp
      rfl
  obtain ⟨A, B, hAB, hins⟩ := insert_split (c ++ "_log_" ++ ctx.txID)
    (AccessLog.marshal ⟨u, d, ctx.now⟩) w.entries hfree
  rw [TraceCid_eq w c hc, TraceCid_eq w1 c hc, he, hins, hAB]
  refine ⟨((A.filter (fun kv : String × Bytes => !keyLt kv.1 (c ++ "_log_") &&
      keyLt kv.1 (c ++ "_log_" ++ "\uffff"))).filterMap
      (fun kv : String × Bytes => AccessLog.unmarshal kv.2)), ((B.filter (fun kv : String × Bytes => !keyLt kv.1 (c ++ "_log_") &&
      keyLt kv.1 (c ++ "_log_" ++ "\uffff"))).filterMap
      (fun kv : String × Bytes => AccessLog.unmarshal kv.2)), ?_, ?_⟩
  · simp only [List.filter_append, List.filterMap_append]
  · simp only [List.filter_append, List.filter_cons, logKey_in_range c _ hb, if_true,
      List.filterMap_append, List.filterMap_cons, unmarshal_marshal_AccessLog]

/-! ## The role set along a run -/

theorem run_roleSet_value (lib : Lib) (ctx : TxContext) (w : World) (call : Call)
    (h : GetState w roleSetKeyPrefix = some (marshalStrings defaultRoles)) :
    GetState (call.run lib ctx w) roleSetKeyPrefix = some (marshalStrings defaultRoles) := by
  rw [run_roleSet lib ctx w call defaultRoles (getRoleSet_of_value h)]
  exact h

theorem runCalls_roleSet_value (lib : Lib) :
    ∀ (calls : List (TxContext × Call)) (w : World),
      GetState w roleSetKeyPrefix = some (marshalStrings defaultRoles) →
      GetState (runCalls lib w calls) roleSetKeyPrefix = some (marshalStrings defaultRoles)
  | [], _, h => h
  | (ctx, c) :: rest, w, h =>
    runCalls_roleSet_value lib rest _ (run_roleSet_value lib ctx w c h)

theorem isRegister_false {call : Call} (h : call.isRegister = false) :
    ∀ u pem role, call ≠ .register u pem role := by
  intro u pem role e
  subst e
  cases h

theorem runCalls_no_register (lib : Lib) :
    ∀ (calls : List (TxContext × Call)), (∀ x ∈ calls, x.2.isRegister = false) →
      runCalls lib World.empty calls = World.empty
  | [], _ => rfl
  | (ctx, call) :: rest, h => by
    have h1 := h (ctx, call) (List.mem_cons_self _ _)
    simp only [runCalls, run_empty lib ctx call (isRegister_false h1)]
    exact runCalls_no_register lib rest (fun x hx => h x (List.mem_cons_of_mem _ hx))

/-- From the empty ledger, when some call is a `Register` and no `Register` names
the role set key, that key holds the default roles. -/
theorem runCalls_some_register (lib : Lib) :
    ∀ (calls : List (TxContext × Call)),
      (∀ x ∈ calls, ∀ pem role, x.2 ≠ .register roleSetKeyPrefix pem role) →
      (∃ x ∈ calls, x.2.isRegister = true) →
      GetState (runCalls lib World.empty calls) roleSetKeyPrefix =
        some (marshalStrings defaultRoles)
  | [], _, h => by
    obtain ⟨x, hx, _⟩ := h
    cases hx
  | (ctx, call) :: rest, hp, h => by
    cases hr : call.isRegister with
    | true =>
      cases call with
      | register u pem role =>
        rcases Register_writes_roleSet lib World.empty u pem role rfl with e | ⟨e, _⟩
        · exact runCalls_roleSet_value lib rest _ e
        · subst e
          exact absurd rfl (hp (ctx, _) (List.mem_cons_self _ _) pem role)
      | queryUserID _ => cases hr
      | addResource _ _ _ => cases hr
      | addPerm _ _ _ _ _ => cases hr
      | checkPerm _ _ _ _ => cases hr
      | queryCid _ => cases hr
      | traceCid _ => cases hr
    | false =>
      simp only [runCalls, run_empty lib ctx call (isRegister_false hr)]
      apply runCalls_some_register lib rest (fun x hx => hp x (List.mem_cons_of_mem _ hx))
      obtain ⟨x, hx, hx2⟩ := h
      rcases List.mem_cons.mp hx with e | e
      · subst e
        rw [hr] at hx2
        cases hx2
      · exact ⟨x, e, hx2⟩

/-- The role set lifecycle of runs that register no identity under the role set
key: from the empty ledger, the key is absent if no call was a `Register`, and
holds exactly the list Creator, Contributor, Public if some call was, whether or
not that call succeeded; and once the key holds that list, every further call,
whatever it names, leaves it holding that list. -/
theorem roleSet_lifecycle_plain (lib : Lib) (calls : List (TxContext × Call))
    (hp : ∀ x ∈ calls, ∀ pem role, x.2 ≠ .register "roleSet" pem role) :
    ((∀ x ∈ calls, x.2.isRegister = false) →
      GetState (runCalls lib World.empty calls) "roleSet" = none) ∧
    ((∃ x ∈ calls, x.2.isRegister = true) →
      GetState (runCalls lib World.empty calls) "roleSet" =
          some (marshalStrings ["Creator", "Contributor", "Public"]) ∧
        getRoleSet (runCalls lib World.empty calls) =
          .ok (some ["Creator", "Contributor", "Public"])) ∧
    (∀ (ctx : TxContext) (call : Call),
      GetState (runCalls lib World.empty calls) "roleSet" =
          some (marshalStrings ["Creator", "Contributor", "Public"]) →
        GetState (call.run lib ctx (runCalls lib World.empty calls)) "roleSet" =
          some (marshalStrings ["Creator", "Contributor", "Public"])) := by
  refine ⟨fun h => ?_, fun h => ?_, fun ctx call h => run_roleSet_value lib ctx _ call h⟩
  · rw [runCalls_no_register lib calls h]
    rfl
  · have := runCalls_some_register lib calls hp h
    exact ⟨this, getRoleSet_of_value this⟩

/-! ## The grant loop up to the first unknown role -/

/-- The grant loop on a list whose first role outside the role set is `bad`:
it ends with the unknown-role error for `bad`. -/
theorem grantRoles_before_bad (sysRoles : List String) (c op bad : String)
    (post : List String) (hbad : bad ∉ sysRoles) :
    ∀ (pre : List String) (w : World), (∀ r ∈ pre, r ∈ sysRoles) →
      (∀ r ∈ pre, ∃ key, CreateCompositeKey policyObjType [r, c, op] = .ok key) →
      (grantRoles sysRoles c op w (pre ++ bad :: post)).1 = .error (.roleNotInRoleSet bad)
  | [], w, _, _ => by
    simp [grantRoles, hbad]
  | r :: pre, w, hpre, hkeys => by
    have hr : sysRoles.contains r = true := by simpa using hpre r (List.mem_cons_self _ _)
    obtain ⟨key, hkey⟩ := hkeys r (List.mem_cons_self _ _)
    obtain ⟨w1, hput⟩ := PutState_ok (w := w) policyMarker (compositeKey_ne_empty hkey)
    have hp : putPolicyEntry w r c op = .ok w1 := putPolicyEntry_ok_iff.mpr ⟨key, hkey, hput⟩
    simp only [List.cons_append, grantRoles, hr, if_true, hp]
    exact grantRoles_before_bad sysRoles c op bad post hbad pre w1
      (fun x hx => hpre x (List.mem_cons_of_mem _ hx))
      (fun x hx => hkeys x (List.mem_cons_of_mem _ hx))

/-- The keys granted on such a list are the policy keys of the roles before `bad`. -/
theorem grantedKeys_before_bad (sysRoles : List String) (c op bad : String)
    (post : List String) (hbad : bad ∉ sysRoles) (k : String) :
    ∀ (pre : List String), (∀ r ∈ pre, r ∈ sysRoles) →
      (∀ r ∈ pre, ∃ key, CreateCompositeKey policyObjType [r, c, op] = .ok key) →
      (k ∈ grantedKeys sysRoles c op (pre ++ bad :: post) ↔
        ∃ r ∈ pre, CreateCompositeKey policyObjType [r, c, op] = .ok k)
  | [], _, _ => by
    simp [grantedKeys, hbad]
  | r :: pre, hpre, hkeys => by
    have hr : sysRoles.contains r = true := by simpa using hpre r (List.mem_cons_self _ _)
    obtain ⟨key, hkey⟩ := hkeys r (List.mem_cons_self _ _)
    have ih := grantedKeys_before_bad sysRoles c op bad post hbad k pre
      (fun x hx => hpre x (List.mem_cons_of_mem _ hx))
      (fun x hx => hkeys x (List.mem_cons_of_mem _ hx))
    simp only [List.cons_append, grantedKeys, hr, if_true, hkey, List.mem_cons,
      exists_eq_or_imp, Except.ok.injEq]
    constructor
    · rintro (e | h)
      · exact Or.inl e.symm
      · exact Or.inr (ih.mp h)
    · rintro (e | h)
      · exact Or.inl e.symm
      · exact Or.inr (ih.mpr h)

/-! ## Which calls change a stored record -/

/-- Which calls can change what is stored under a key. -/
theorem key_changed_by (lib : Lib) (ctx : TxContext) (w : World) (call : Call) (k : String)
    (h : GetState (call.run lib ctx w) k ≠ GetState w k) :
    (∃ u pem role, call = .register u pem role ∧
      ((k = roleSetKeyPrefix ∧ getRoleSet w = .ok none) ∨ (k = u ∧ GetState w k = none))) ∨
    (∃ sig u, call = .addResource sig u k ∧ GetState w k = none) ∨
    (∃ sig u c op rolesJSON role, call = .addPerm sig u c op rolesJSON ∧
      CreateCompositeKey policyObjType [role, c, op] = .ok k) ∨
    (∃ sig op u c, call = .checkPerm sig op u c ∧ k = c ++ "_log_" ++ ctx.txID) := by
  cases call with
  | register u pem role =>
    rcases Register_footprint lib w u pem role k with e | ⟨e1, e2, _⟩ | ⟨e1, e2, _⟩
    · exact absurd e h
    · exact Or.inl ⟨u, pem, role, rfl, Or.inl ⟨e1, e2⟩⟩
    · exact Or.inl ⟨u, pem, role, rfl, Or.inr ⟨e1, e1 ▸ e2⟩⟩
  | queryUserID _ => exact absurd rfl h
  | addResource sig u c =>
    rcases AddResource_footprint lib ctx w sig u c k with e | ⟨e1, e2, _⟩
    · exact absurd e h
    · subst e1
      exact Or.inr (Or.inl ⟨sig, u, rfl, e2⟩)
  | addPerm sig u c op roles =>
    rcases AddPerm_footprint lib w sig u c op roles k with e | ⟨_, _, role, _, _, _, e, _⟩
    · exact absurd e h
    · exact Or.inr (Or.inr (Or.inl ⟨sig, u, c, op, roles, role, rfl, e⟩))
  | checkPerm sig op u c =>
    rcases CheckPerm_footprint lib ctx w sig op u c k with e | ⟨e, _⟩
    · exact absurd e h
    · exact Or.inr (Or.inr (Or.inr ⟨sig, op, u, c, rfl, e⟩))
  | queryCid _ => exact absurd rfl h
  | traceCid _ => exact absurd rfl h

/-- The record stored under a present key other than the role set key changes only
through the blind write of an `AddPerm` or of a `CheckPerm` on that very key. -/
theorem present_key_changed_by (lib : Lib) (ctx : TxContext) (w : World) (call : Call)
    (k : String) (hp : (GetState w k).isSome = true) (hk : k ≠ roleSetKeyPrefix)
    (h : GetState (call.run lib ctx w) k ≠ GetState w k) :
    (∃ sig u c op rolesJSON role, call = .addPerm sig u c op rolesJSON ∧
      CreateCompositeKey policyObjType [role, c, op] = .ok k) ∨
    (∃ sig op u c, call = .checkPerm sig op u c ∧ k = c ++ "_log_" ++ ctx.txID) := by
  rcases key_changed_by lib ctx w call k h with
    ⟨_, _, _, _, ⟨e, _⟩ | ⟨_, e⟩⟩ | ⟨_, _, _, e⟩ | h1 | h1
  · exact absurd e hk
  · rw [e] at hp; cases hp
  · rw [e] at hp; cases hp
  · exact Or.inl h1
  · exact Or.inr h1

/-- The owner `QueryCid` reports is kept by every call that does not write the
key of the resource. -/
theorem QueryCid_kept (lib : Lib) (ctx : TxContext) (w : World) (call : Call) (c : String)
    (h : GetState (call.run lib ctx w) c = GetState w c) :
    QueryCid (call.run lib ctx w) c = QueryCid w c := by
  simp [QueryCid, h]

/-- The record `QueryUserID` reports is kept by every call that does not write
the key of the identity. -/
theorem QueryUserID_kept (lib : Lib) (ctx : TxContext) (w : World) (call : Call) (u : String)
    (h : GetState (call.run lib ctx w) u = GetState w u) :
    QueryUserID (call.run lib ctx w) u = QueryUserID w u := by
  simp [QueryUserID, h]

/-- `QueryCid` on a key under which nothing is stored fails with the not-found error. -/
theorem QueryCid_absent (w : World) (c : String) (h : GetState w c = none) :
    QueryCid w c = .error (.cidNotFound c) := by
  simp [QueryCid, h]

/-! ## Identities are stored by registration only -/

/-- With nothing stored under the identity, `CheckPerm` fails with the not-found
error and writes nothing. -/
theorem CheckPerm_absent (lib : Lib) (ctx : TxContext) (w : World)
    (sig op u c : String) (h : GetState w u = none) :
    CheckPerm lib ctx w sig op u c = (.error (.userDoesNotExist u), w) := by
  simp [CheckPerm, QueryUserID, h]

/-- A string of hexadecimal digits sorts below the end sentinel of the audit range. -/
theorem belowSentinel_of_hex {s : String} (h : isHexID s = true) : belowSentinel s = true := by
  unfold isHexID at h
  unfold belowSentinel keyLt
  cases hd : s.data with
  | nil => rfl
  | cons a t =>
    rw [hd] at h
    simp only [List.all_cons, Bool.and_eq_true, Bool.or_eq_true, decide_eq_true_eq] at h
    have ha : a.toNat < 65535 := by
      rcases h.1 with h1 | h1
      · simp only [Char.isDigit, Bool.and_eq_true, decide_eq_true_eq] at h1
        have := h1.2
        have h2 : a.val.toNat ≤ 57 := by
          have := UInt32.le_def.mp this
          simpa using this
        exact lt_of_le_of_lt h2 (by norm_num)
      · exact lt_of_le_of_lt h1.2 (by norm_num)
    have hlt : a < Char.ofNat 65535 := by
      rw [Char.lt_def, UInt32.lt_def]
      show a.toNat < (Char.ofNat 65535).toNat
      have e : (Char.ofNat 65535).toNat = 65535 := by decide
      rw [e]
      exact ha
    have hs : "\uffff".data = [Char.ofNat 65535] := by decide
    rw [hs]
    simp [ltChars, hlt]

theorem noIdentity_resource (r : Resource) : noIdentity r.marshal := by
  intro usr h
  have h1 : fieldIs "pk" "ownerUID" = false := by decide
  have h2 : fieldIs "role" "ownerUID" = false := by decide
  have h3 : fieldIs "pk" "cid" = false := by decide
  have h4 : fieldIs "role" "cid" = false := by decide
  have h5 : fieldIs "pk" "created" = false := by decide
  have h6 : fieldIs "role" "created" = false := by decide
  simp [User.unmarshal, Resource.marshal, unmarshalStruct, decodeMembers, User.setField,
    h1, h2, h3, h4, h5, h6] at h
  rw [← h]

theorem noIdentity_log (l : AccessLog) : noIdentity l.marshal := by
  intro usr h
  have h1 : fieldIs "pk" "uid" = false := by decide
  have h2 : fieldIs "role" "uid" = false := by decide
  have h3 : fieldIs "pk" "decision" = false := by decide
  have h4 : fieldIs "role" "decision" = false := by decide
  have h5 : fieldIs "pk" "time" = false := by decide
  have h6 : fieldIs "role" "time" = false := by decide
  simp [User.unmarshal, AccessLog.marshal, unmarshalStruct, decodeMembers, User.setField,
    h1, h2, h3, h4, h5, h6] at h
  rw [← h]

theorem noIdentity_roles (xs : List String) : noIdentity (marshalStrings xs) := by
  intro usr h
  simp [User.unmarshal, marshalStrings, unmarshalStruct] at h

theorem noIdentity_marker : noIdentity policyMarker := by
  intro usr h
  simp [User.unmarshal, policyMarker, unmarshalStruct] at h

theorem run_kind (lib : Lib) (ctx : TxContext) (w : World) (call : Call) (R : String → Prop)
    (h : KindInv w R) :
    KindInv (call.run lib ctx w) (fun k => R k ∨
      ∃ pem role, call = .register k pem role ∧ (Register lib w k pem role).1 = .ok ()) := by
  intro k v hv
  have keep : GetState (call.run lib ctx w) k = GetState w k →
      (R k ∨ ∃ pem role, call = .register k pem role ∧ (Register lib w k pem role).1 = .ok ()) ∨
        noIdentity v := by
    intro e
    rw [e] at hv
    rcases h k v hv with h1 | h1
    · exact Or.inl (Or.inl h1)
    · exact Or.inr h1
  cases call with
  | register u pem role =>
    rcases Register_footprint lib w u pem role k with e | ⟨_, _, e⟩ | ⟨e1, _, e2, e3⟩
    · exact keep e
    · have : v = marshalStrings defaultRoles := by
        have := hv.symm.trans e
        simpa using this
      rw [this]
      exact Or.inr (noIdentity_roles _)
    · subst e1
      exact Or.inl (Or.inr ⟨pem, role, rfl, e2⟩)
  | queryUserID _ => exact keep rfl
  | addResource sig u c =>
    rcases AddResource_footprint lib ctx w sig u c k with e | ⟨_, _, _, _, e⟩
    · exact keep e
    · have : v = Resource.marshal ⟨u, c, ctx.now⟩ := by
        have := hv.symm.trans e
        simpa using this
      rw [this]
      exact Or.inr (noIdentity_resource _)
  | addPerm sig u c op roles =>
    rcases AddPerm_footprint lib w sig u c op roles k with e | ⟨_, _, _, _, _, _, _, e⟩
    · exact keep e
    · have : v = policyMarker := by
        have := hv.symm.trans e
        simpa using this
      rw [this]
      exact Or.inr noIdentity_marker
  | checkPerm sig op u c =>
    rcases CheckPerm_footprint lib ctx w sig op u c k with e | ⟨_, _, d, e⟩
    · exact keep e
    · have : v = AccessLog.marshal ⟨u, d, ctx.now⟩ := by
        have := hv.symm.trans e
        simpa using this
      rw [this]
      exact Or.inr (noIdentity_log _)
  | queryCid _ => exact keep rfl
  | traceCid _ => exact keep rfl

theorem runCalls_kind (lib : Lib) :
    ∀ (calls : List (TxContext × Call)) (w : World) (R : String → Prop), KindInv w R →
      KindInv (runCalls lib w calls) (fun k => R k ∨ registeredBy lib w calls k)
  | [], w, R, h => fun k v hv => (h k v hv).imp Or.inl id
  | (ctx, call) :: rest, w, R, h => by
    have h1 := runCalls_kind lib rest _ _ (run_kind lib ctx w call R h)
    intro k v hv
    rcases h1 k v hv with (⟨h2 | h2⟩ | h2) | h2
    · exact Or.inl (Or.inl h2)
    · exact Or.inl (Or.inr (Or.inl h2))
    · exact Or.inl (Or.inr (Or.inr h2))
    · exact Or.inr h2

/-- In a ledger reached from the empty one, what is stored under a string that no
successful `Register` named does not read as an identity with a key. -/
theorem unregistered_noIdentity (lib : Lib) (calls : List (TxContext × Call)) (u : String)
    (hu : ¬ registeredBy lib World.empty calls u) (v : Bytes)
    (hv : GetState (runCalls lib World.empty calls) u = some v) : noIdentity v := by
  have h0 : KindInv World.empty (fun _ => False) := by
    intro k v h
    cases h
  rcases runCalls_kind lib calls World.empty _ h0 u v hv with (h | h) | h
  · exact h.elim
  · exact absurd h hu
  · exact h

/-! ## Policy entries of runs with plain names -/

/-- One call whose stored name is plain keeps this: every policy entry names a
role of the default role set, which is stored, and a contentID under which a
record is stored. -/
theorem run_policy_integrity (lib : Lib) (ctx : TxContext) (w : World) (call : Call)
    (hr : ReachedRoleSet w)
    (hinv : ∀ r c op, hasPolicyEntry w r c op = .ok true →
      GetState w roleSetKeyPrefix = some (marshalStrings defaultRoles) ∧
        r ∈ defaultRoles ∧ (GetState w c).isSome = true)
    (hp : call.plainName = true) (r c op : String)
    (h : hasPolicyEntry (call.run lib ctx w) r c op = .ok true) :
    GetState (call.run lib ctx w) roleSetKeyPrefix = some (marshalStrings defaultRoles) ∧
      r ∈ defaultRoles ∧ (GetState (call.run lib ctx w) c).isSome = true := by
  cases hk : CreateCompositeKey policyObjType [r, c, op] with
  | error e => simp [hasPolicyEntry, hk] at h
  | ok key =>
    rw [hasPolicyEntry_of_key hk] at h
    have h1 : (GetState (call.run lib ctx w) key).isSome = true := by injection h
    have hnull := compositeKey_startsWithNull hk
    cases h0 : GetState w key with
    | some v =>
      have := hinv r c op (by rw [hasPolicyEntry_of_key hk, h0]; rfl)
      exact ⟨run_roleSet_value lib ctx w call this.1, this.2.1,
        run_keeps_keys lib ctx w call c this.2.2⟩
    | none =>
      have hne : GetState (call.run lib ctx w) key ≠ GetState w key := by
        intro e
        rw [e, h0] at h1
        cases h1
      cases call with
      | register u pem role =>
        rcases Register_footprint lib w u pem role key with e | ⟨e, _⟩ | ⟨e, _⟩
        · exact absurd e hne
        · exact absurd e (compositeKey_ne_roleSet hk)
        · subst e
          simp [Call.plainName, hnull] at hp
      | queryUserID _ => exact absurd rfl hne
      | addResource sig u c1 =>
        rcases AddResource_footprint lib ctx w sig u c1 key with e | ⟨e, _⟩
        · exact absurd e hne
        · subst e
          simp [Call.plainName, hnull] at hp
      | addPerm sig u c1 op1 roles =>
        rcases AddPerm_footprint lib w sig u c1 op1 roles key with
          e | ⟨hq, _, role, sysRoles, hs, hmem, hkey, _⟩
        · exact absurd e hne
        · obtain ⟨e1, e2, e3⟩ := compositeKey_inj hk hkey
          subst e1 e2 e3
          have hc : (GetState w c).isSome = true := by
            cases hg : GetState w c with
            | none => rw [QueryCid_absent w c hg] at hq; cases hq
            | some v => rfl
          have hval : GetState w roleSetKeyPrefix = some (marshalStrings defaultRoles) := by
            rcases hr with hr | hr | ⟨pk, rl, hr⟩
            · subst hr
              cases hs
            · exact hr
            · rw [getRoleSet_of_user hr] at hs
              cases hs
          have hsys : sysRoles = defaultRoles := by
            rw [getRoleSet_of_value hval] at hs
            injection hs with hs
            injection hs with hs
            exact hs.symm
          exact ⟨run_roleSet_value lib ctx w _ hval, hsys ▸ hmem,
            run_keeps_keys lib ctx w _ c hc⟩
      | checkPerm sig op1 u c1 =>
        rcases CheckPerm_footprint lib ctx w sig op1 u c1 key with e | ⟨e, _⟩
        · exact absurd e hne
        · have hc1 : startsWithNull c1 = false := by
            simpa [Call.plainName] using hp
          have := startsWithNull_logKey hc1 ctx.txID
          rw [← e, hnull] at this
          cases this
      | queryCid _ => exact absurd rfl hne
      | traceCid _ => exact absurd rfl hne

/-- A run of calls with plain names keeps the integrity of policy entries. -/
theorem runCalls_policy_integrity (lib : Lib) :
    ∀ (calls : List (TxContext × Call)) (w : World), ReachedRoleSet w →
      (∀ r c op, hasPolicyEntry w r c op = .ok true →
        GetState w roleSetKeyPrefix = some (marshalStrings defaultRoles) ∧
          r ∈ defaultRoles ∧ (GetState w c).isSome = true) →
      (∀ x ∈ calls, x.2.plainName = true) →
      ∀ r c op, hasPolicyEntry (runCalls lib w calls) r c op = .ok true →
        GetState (runCalls lib w calls) roleSetKeyPrefix = some (marshalStrings defaultRoles) ∧
          r ∈ defaultRoles ∧ (GetState (runCalls lib w calls) c).isSome = true
  | [], _, _, hinv, _ => hinv
  | (ctx, call) :: rest, w, hr, hinv, hp =>
    runCalls_policy_integrity lib rest _ (run_reachedRoleSet lib ctx w call hr)
      (run_policy_integrity lib ctx w call hr hinv (hp (ctx, call) (List.mem_cons_self _ _)))
      (fun x hx => hp x (List.mem_cons_of_mem _ hx))

/-- Policy referential integrity of runs with plain names: in a ledger reached from
the empty one by calls that store no record under a name starting with U+0000,
every policy entry present names a role of the stored role set, which is the
default one, and a contentID under which a record is stored. -/
theorem policy_integrity_plain (lib : Lib) (calls : List (TxContext × Call))
    (hp : ∀ x ∈ calls, x.2.plainName = true) (r c op : String)
    (h : hasPolicyEntry (runCalls lib World.empty calls) r c op = .ok true) :
    getRoleSet (runCalls lib World.empty calls) = .ok (some defaultRoles) ∧
    r ∈ defaultRoles ∧ (GetState (runCalls lib World.empty calls) c).isSome = true := by
  have hi := runCalls_policy_integrity lib calls World.empty (Or.inl rfl)
    (fun r c op h => by
      cases hk : CreateCompositeKey policyObjType [r, c, op] with
      | error e => simp [hasPolicyEntry, hk] at h
      | ok key =>
        rw [hasPolicyEntry_of_key hk, GetState_empty] at h
        cases h) hp r c op h
  exact ⟨getRoleSet_of_value hi.1, hi.2⟩

/-! ## The audit range of a contentID -/

/-- A list that is not below `p` and is below an extension of `p` starts with `p`. -/
theorem ltChars_between : ∀ (p k t : List Char), ltChars k p = false →
    ltChars k (p ++ t) = true → ∃ s, k = p ++ s
  | [], k, _, _, _ => ⟨k, rfl⟩
  | a :: p, [], _, h1, _ => by simp [ltChars] at h1
  | a :: p, b :: k, t, h1, h2 => by
    simp only [ltChars, List.cons_append] at h1 h2
    by_cases hba : b < a
    · simp [hba] at h1
    · simp only [hba, if_false] at h1 h2
      by_cases hab : a < b
      · simp [hab] at h2
      · simp only [hab, if_false] at h1 h2
        have e : a = b := le_antisymm (not_lt.mp hba) (not_lt.mp hab)
        subst e
        obtain ⟨s, hs⟩ := ltChars_between p k t h1 h2
        exact ⟨s, by rw [hs]; rfl⟩

/-- A key in the audit range of `cid` starts with `cid ++ "_log_"`. -/
theorem inAuditRange_elim {c k : String} (h : inAuditRange c k = true) :
    ∃ s : String, k = c ++ "_log_" ++ s := by
  simp only [inAuditRange, Bool.and_eq_true, Bool.not_eq_true', keyLt] at h
  obtain ⟨s, hs⟩ := ltChars_between (c ++ "_log_").data k.data "\uffff".data h.1
    (by simpa using h.2)
  exact ⟨⟨s⟩, String.ext (by simpa using hs)⟩

/-- The role set key lies in no audit range. -/
theorem not_inAuditRange_roleSet (c : String) : inAuditRange c roleSetKeyPrefix = false := by
  cases h : inAuditRange c roleSetKeyPrefix with
  | false => rfl
  | true =>
    obtain ⟨s, hs⟩ := inAuditRange_elim h
    have hm : '_' ∈ (c ++ "_log_" ++ s).data := by simp
    rw [← hs] at hm
    revert hm
    decide

/-- A key of the composite-key namespace lies in no audit range that can be scanned. -/
theorem not_inAuditRange_null {c k : String} (hc : startsWithNull c = false)
    (hk : startsWithNull k = true) : inAuditRange c k = false := by
  cases h : inAuditRange c k with
  | false => rfl
  | true =>
    obtain ⟨s, hs⟩ := inAuditRange_elim h
    rw [hs, startsWithNull_logKey hc s] at hk
    cases hk

/-- One call that keeps the scope of `cid` adds to its audit range only the entry
of a `CheckPerm` on `cid`. -/
theorem run_scope (lib : Lib) (ctx : TxContext) (w : World) (call : Call) (c : String)
    (S : AccessLog → Prop) (hc : startsWithNull c = false) (h : ScopeInv c w S)
    (hk : call.keepsScope c ctx = true) :
    ScopeInv c (call.run lib ctx w)
      (fun l => S l ∨ ∃ sig op u d, call = .checkPerm sig op u c ∧ l = ⟨u, d, ctx.now⟩) := by
  intro k v hv hr
  have keep : GetState (call.run lib ctx w) k = GetState w k →
      ∃ l, (S l ∨ ∃ sig op u d, call = .checkPerm sig op u c ∧ l = ⟨u, d, ctx.now⟩) ∧
        v = l.marshal := by
    intro e
    rw [e] at hv
    obtain ⟨l, hl, hv1⟩ := h k v hv hr
    exact ⟨l, Or.inl hl, hv1⟩
  cases call with
  | register u pem role =>
    rcases Register_footprint lib w u pem role k with e | ⟨e, _⟩ | ⟨e, _⟩
    · exact keep e
    · rw [e, not_inAuditRange_roleSet] at hr
      cases hr
    · subst e
      simp [Call.keepsScope, hr] at hk
  | queryUserID _ => exact keep rfl
  | addResource sig u c1 =>
    rcases AddResource_footprint lib ctx w sig u c1 k with e | ⟨e, _⟩
    · exact keep e
    · subst e
      simp [Call.keepsScope, hr] at hk
  | addPerm sig u c1 op roles =>
    rcases AddPerm_footprint lib w sig u c1 op roles k with e | ⟨_, _, _, _, _, _, hkey, _⟩
    · exact keep e
    · rw [not_inAuditRange_null hc (compositeKey_startsWithNull hkey)] at hr
      cases hr
  | checkPerm sig op u c1 =>
    rcases CheckPerm_footprint lib ctx w sig op u c1 k with e | ⟨e, _, d, e1⟩
    · exact keep e
    · subst e
      have hcc : c1 = c := by simpa [Call.keepsScope, hr] using hk
      subst hcc
      have : v = AccessLog.marshal ⟨u, d, ctx.now⟩ := by
        have := hv.symm.trans e1
        simpa using this
      exact ⟨⟨u, d, ctx.now⟩, Or.inr ⟨sig, op, u, d, rfl, rfl⟩, this⟩
  | queryCid _ => exact keep rfl
  | traceCid _ => exact keep rfl

/-- A run of calls that keep the scope of `cid` stores in its audit range only
entries of its own `CheckPerm` calls on `cid`. -/
theorem runCalls_scope (lib : Lib) (c : String) (hc : startsWithNull c = false) :
    ∀ (calls : List (TxContext × Call)) (w : World) (S : AccessLog → Prop), ScopeInv c w S →
      (∀ x ∈ calls, x.2.keepsScope c x.1 = true) →
      ScopeInv c (runCalls lib w calls) (fun l => S l ∨ checkedIn c calls l)
  | [], w, S, h, _ => fun k v hv hr =>
    (h k v hv hr).imp (fun l hl => ⟨Or.inl hl.1, hl.2⟩)
  | (ctx, call) :: rest, w, S, h, hk => by
    have h1 := runCalls_scope lib c hc rest _ _
      (run_scope lib ctx w call c S hc h (hk (ctx, call) (List.mem_cons_self _ _)))
      (fun x hx => hk x (List.mem_cons_of_mem _ hx))
    intro k v hv hr
    obtain ⟨l, hl, hv1⟩ := h1 k v hv hr
    refine ⟨l, ?_, hv1⟩
    rcases hl with (hl | ⟨sig, op, u, d, e, el⟩) | ⟨x, hx, hl⟩
    · exact Or.inl hl
    · exact Or.inr ⟨(ctx, call), List.mem_cons_self _ _, sig, op, u, d, e, el⟩
    · exact Or.inr ⟨x, List.mem_cons_of_mem _ hx, hl⟩

/-- Scope of the trace when names keep apart: in a ledger reached from the empty
one by calls that store no identity, resource or foreign audit entry in the
audit range of `c`, every entry `TraceCid c` returns was written by a `CheckPerm`
of the run on `c`. -/
theorem trace_scoped_of_keepsScope (lib : Lib) (c : String) (hc : startsWithNull c = false)
    (calls : List (TxContext × Call)) (hk : ∀ x ∈ calls, x.2.keepsScope c x.1 = true) :
    ∃ logs, TraceCid (runCalls lib World.empty calls) c = .ok logs ∧
      ∀ l ∈ logs, checkedIn c calls l := by
  refine ⟨_, TraceCid_eq _ c hc, ?_⟩
  intro l hl
  obtain ⟨kv, hkv, hdec⟩ := List.mem_filterMap.mp hl
  obtain ⟨hmem, hr⟩ := List.mem_filter.mp hkv
  have hg : GetState (runCalls lib World.empty calls) kv.1 = some kv.2 :=
    (mem_iff_lookup (runCalls lib World.empty calls).sorted kv.1 kv.2).mp hmem
  have h0 : ScopeInv c World.empty (fun _ => False) := by
    intro k v h
    cases h
  obtain ⟨l1, hl1, hv⟩ := runCalls_scope lib c hc calls World.empty _ h0 hk kv.1 kv.2 hg hr
  rw [hv, unmarshal_marshal_AccessLog] at hdec
  injection hdec with hdec
  subst hdec
  rcases hl1 with hl1 | hl1
  · exact hl1.elim
  · exact hl1

/-! # The claims -/

/-- Claim C1 (amended), decision correctness of `CheckPerm`: in every ledger
state, for a registered identity `u` with record `usr`, a key that parses, a
signature that verifies over `u ++ c`, and a role, contentID and operation whose
composite key can be built, `hasPolicyEntry` reports whether that key is stored,
and `CheckPerm` returns the successful result `Permit` when the entry is present
and the successful result `Deny` when it is absent. -/
theorem checkPerm_decision (lib : Lib) (ctx : TxContext) (w : World)
    (sig op u c : String) (usr : User) (pub : RSAPublicKey) (key : String)
    (hu : QueryUserID w u = .ok usr)
    (hpk : parsePublicKeyPEM lib usr.PK = .ok pub)
    (hsig : verifySignature lib u c sig pub = .ok ())
    (hkey : CreateCompositeKey policyObjType [usr.Role, c, op] = .ok key) :
    hasPolicyEntry w usr.Role c op = .ok (GetState w key).isSome ∧
    (hasPolicyEntry w usr.Role c op = .ok true →
      (CheckPerm lib ctx w sig op u c).1 = .ok "Permit") ∧
    (hasPolicyEntry w usr.Role c op = .ok false →
      (CheckPerm lib ctx w sig op u c).1 = .ok "Deny") := by
  have hp := hasPolicyEntry_of_key (w := w) hkey
  refine ⟨hp, ?_, ?_⟩
  · intro h
    obtain ⟨w1, hw1⟩ := logGen_ok ctx w c u "Permit"
    simp [CheckPerm, hu, hpk, hsig, h, hw1]
  · intro h
    obtain ⟨w1, hw1⟩ := logGen_ok ctx w c u "Deny"
    simp [CheckPerm, hu, hpk, hsig, h, hw1]

/-- The hypotheses of C1 hold on the sample ledger with the grant, for `U1`
asking to download `X`. -/
theorem checkPerm_decision_witness :
    hasPolicyEntry demoGranted "Creator" "X" "download" =
      .ok (GetState demoGranted
        "\x00policy\x00Creator\x00X\x00download\x00").isSome ∧
    (hasPolicyEntry demoGranted "Creator" "X" "download" = .ok true →
      (CheckPerm demoLib (demoCtx "tx1") demoGranted (demoSig 4 "U1X") "download" "U1" "X").1
        = .ok "Permit") ∧
    (hasPolicyEntry demoGranted "Creator" "X" "download" = .ok false →
      (CheckPerm demoLib (demoCtx "tx1") demoGranted (demoSig 4 "U1X") "download" "U1" "X").1
        = .ok "Deny") :=
  checkPerm_decision demoLib (demoCtx "tx1") demoGranted (demoSig 4 "U1X") "download" "U1" "X"
    ⟨"KEY1", "Creator"⟩ ⟨4, 3⟩ "\x00policy\x00Creator\x00X\x00download\x00" rfl rfl rfl rfl

/-- Counterexample to C1 as stated: `U1` is registered with role Creator, its
key parses and its signature over `U1 ++ X` verifies, the policy entry of
`(Creator, X, op)` for the operation `op` made of the one character U+0000 is
not present, and yet `CheckPerm` returns an error instead of `Deny`, because
the composite key of that tuple cannot be built. -/
theorem checkPerm_null_operation_fails :
    QueryUserID demoGranted "U1" = .ok ⟨"KEY1", "Creator"⟩ ∧
    parsePublicKeyPEM demoLib "KEY1" = .ok ⟨4, 3⟩ ∧
    verifySignature demoLib "U1" "X" (demoSig 4 "U1X") ⟨4, 3⟩ = .ok () ∧
    hasPolicyEntry demoGranted "Creator" "X" "\x00" ≠ .ok true ∧
    (CheckPerm demoLib (demoCtx "tx1") demoGranted (demoSig 4 "U1X") "\x00" "U1" "X").1 =
      .error (.createCompositeKeyFailed .badCompositeKeyAttribute) :=
  ⟨rfl, rfl, rfl, by decide, rfl⟩

/-- Claim C2, ownership gate of `AddPerm`: in every state where resource `c`
has owner `o`, a call by any identity `u ≠ o`, with any signature, operation
and role list, fails with the permission-denied error and leaves the ledger
state as it was. -/
theorem addPerm_non_owner_denied (lib : Lib) (w : World) (sig u c op : String)
    (rolesJSON : Bytes) (o : String) (ho : QueryCid w c = .ok o) (hne : u ≠ o) :
    AddPerm lib w sig u c op rolesJSON = (.error (.permissionDenied u c), w) := by
  unfold QueryCid at ho
  unfold AddPerm
  cases hg : GetState w c with
  | none => simp [hg] at ho
  | some b =>
    simp only [hg] at ho ⊢
    cases hr : Resource.unmarshal b with
    | none => simp [hr] at ho
    | some res =>
      simp only [hr] at ho ⊢
      have : res.OwnerUID = o := by simpa using ho
      simp [this, Ne.symm hne]

/-- The ownership gate on the sample ledger: `U2` asks to grant on `X`, which
`U1` owns. -/
theorem addPerm_non_owner_denied_witness :
    AddPerm demoLib demoResource (demoSig 5 "U2X") "U2" "X" "download"
        (marshalStrings ["Public"]) =
      (.error (.permissionDenied "U2" "X"), demoResource) :=
  addPerm_non_owner_denied demoLib demoResource (demoSig 5 "U2X") "U2" "X" "download"
    (marshalStrings ["Public"]) "U1" rfl (by decide)

/-- Claim C3, the code at a failing input: on the sample ledger no policy
entry of `(Public, X, download)` exists; registering an identity whose name is
the composite key of that tuple succeeds, after which `hasPolicyEntry` is true
of the tuple and `CheckPerm` permits `U2`, of role Public, to download `X`,
although the owner of `X` never granted it. -/
theorem register_forges_policy_entry :
    hasPolicyEntry demoResource "Public" "X" "download" = .ok false ∧
    (Register demoLib demoResource "\x00policy\x00Public\x00X\x00download\x00" "KEY333"
      "Creator").1 = .ok () ∧
    hasPolicyEntry
      (Register demoLib demoResource "\x00policy\x00Public\x00X\x00download\x00" "KEY333"
        "Creator").2 "Public" "X" "download" = .ok true ∧
    (CheckPerm demoLib (demoCtx "tx1")
      (Register demoLib demoResource "\x00policy\x00Public\x00X\x00download\x00" "KEY333"
        "Creator").2 (demoSig 5 "U2X") "download" "U2" "X").1 = .ok "Permit" :=
  ⟨rfl, rfl, rfl, rfl⟩

/-- Claim C5, the code at a failing input: on the empty ledger `Register` of the
identity `roleSet` succeeds, its existence check reading the state the call
started in, and stores the identity record over the role set the call has just
created; a later `Register` of `roleSet` then fails with the ensure-roles error
for an unreadable role set, not with the already-exists error. -/
theorem register_roleSet_twice_not_already_exists :
    (Register demoLib World.empty "roleSet" "KEY1" "Creator").1 = .ok () ∧
    QueryUserID (Register demoLib World.empty "roleSet" "KEY1" "Creator").2 "roleSet" =
      .ok ⟨"KEY1", "Creator"⟩ ∧
    Register demoLib (Register demoLib World.empty "roleSet" "KEY1" "Creator").2
        "roleSet" "KEY22" "Public" =
      (.error (.ensureRolesFailed .unmarshalRoleSetFailed),
        (Register demoLib World.empty "roleSet" "KEY1" "Creator").2) :=
  ⟨rfl, rfl, rfl⟩

/-- Claim C6, resource uniqueness: when the key `c` is present in the ledger,
`AddResource` for `c` fails with the already-exists error for every caller and
every signature, and leaves the ledger state as it was. -/
theorem addResource_existing_fails (lib : Lib) (ctx : TxContext) (w : World)
    (sig u c : String) (hc : (GetState w c).isSome = true) :
    AddResource lib ctx w sig u c = (.error (.resourceAlreadyExists c), w) := by
  unfold AddResource
  cases hg : GetState w c with
  | none => simp [hg] at hc
  | some b => rfl

/-- Resource uniqueness on the sample ledger: `X` exists, and an unregistered
caller with an empty signature gets the already-exists error. -/
theorem addResource_existing_fails_witness :
    (GetState demoResource "X").isSome = true ∧
    AddResource demoLib (demoCtx "tx9") demoResource "" "nobody" "X" =
      (.error (.resourceAlreadyExists "X"), demoResource) :=
  ⟨rfl, addResource_existing_fails demoLib (demoCtx "tx9") demoResource "" "nobody" "X" rfl⟩

/-- Claim C7 (amended), create / owner round trip: in every state where
the non-empty contentID `c` is absent, `u` is registered with a key that parses
and the signature verifies over `u` alone, `AddResource` succeeds, changes no
key other than `c`, and afterwards `QueryCid c` returns exactly `u`. -/
theorem addResource_roundtrip (lib : Lib) (ctx : TxContext) (w : World) (sig u c : String)
    (usr : User) (pub : RSAPublicKey)
    (hc : GetState w c = none) (hu : QueryUserID w u = .ok usr)
    (hpk : parsePublicKeyPEM lib usr.PK = .ok pub)
    (hsig : verifySignature_for_caliper lib u sig pub = .ok ())
    (hne : c ≠ "") :
    (AddResource lib ctx w sig u c).1 = .ok () ∧
    (∀ k, k ≠ c → GetState (AddResource lib ctx w sig u c).2 k = GetState w k) ∧
    QueryCid (AddResource lib ctx w sig u c).2 c = .ok u := by
  obtain ⟨w1, hput⟩ := PutState_ok (w := w) (Resource.marshal ⟨u, c, ctx.now⟩) hne
  have hrun : AddResource lib ctx w sig u c = (.ok (), w1) := by
    simp [AddResource, hc, hu, hpk, hsig, hput]
  rw [hrun]
  refine ⟨rfl, fun k hk => GetState_PutState_ne hput hk, ?_⟩
  simp [QueryCid, GetState_PutState_self hput, unmarshal_marshal_Resource]

/-- The round trip on the sample ledger: `U1` creates `X`. -/
theorem addResource_roundtrip_witness :
    (AddResource demoLib (demoCtx "tx0") demoRegistered (demoSig 4 "U1") "U1" "X").1 = .ok () ∧
    (∀ k, k ≠ "X" →
      GetState (AddResource demoLib (demoCtx "tx0") demoRegistered (demoSig 4 "U1") "U1" "X").2 k
        = GetState demoRegistered k) ∧
    QueryCid (AddResource demoLib (demoCtx "tx0") demoRegistered (demoSig 4 "U1") "U1" "X").2 "X"
      = .ok "U1" :=
  addResource_roundtrip demoLib (demoCtx "tx0") demoRegistered (demoSig 4 "U1") "U1" "X"
    ⟨"KEY1", "Creator"⟩ ⟨4, 3⟩ rfl rfl rfl rfl (by decide)

/-- Counterexample to C7 as stated: the empty contentID is absent, `U1` is
registered and its signature over `U1` verifies, and yet `AddResource` fails,
because the stub refuses to write the empty key. -/
theorem addResource_empty_cid_fails :
    GetState demoRegistered "" = none ∧
    QueryUserID demoRegistered "U1" = .ok ⟨"KEY1", "Creator"⟩ ∧
    parsePublicKeyPEM demoLib "KEY1" = .ok ⟨4, 3⟩ ∧
    verifySignature_for_caliper demoLib "U1" (demoSig 4 "U1") ⟨4, 3⟩ = .ok () ∧
    AddResource demoLib (demoCtx "tx0") demoRegistered (demoSig 4 "U1") "U1" "" =
      (.error (.putStateForCidFailed .emptyKey), demoRegistered) :=
  ⟨rfl, rfl, rfl, rfl, rfl⟩

/-- Claim C8 (amended), register / lookup round trip: in every state whose
role set is absent or readable, for an identity `u` that is not present and is
not empty, a PEM string that parses and any role, `Register` succeeds and
afterwards `QueryUserID u` returns the record of the two strings as
`json.Marshal` stores them, with U+FFFD for every byte that is not UTF-8; when
both are UTF-8 text the record holds exactly that PEM text and that role. -/
theorem register_roundtrip (lib : Lib) (w : World) (u : String) (pem role : GoString)
    (key : RSAPublicKey) (rs : Option (List String)) (hrs : getRoleSet w = .ok rs)
    (hu : GetState w u = none) (hne : u ≠ "")
    (hpem : parsePublicKeyPEM lib pem = .ok key) :
    (Register lib w u pem role).1 = .ok () ∧
    QueryUserID (Register lib w u pem role).2 u = .ok ⟨pem.toValid, role.toValid⟩ ∧
    ∀ p r : String, pem = .text p → role = .text r →
      QueryUserID (Register lib w u pem role).2 u = .ok ⟨p, r⟩ := by
  have hens : ∃ w0, ensureSystemRolesInitialized w = (.ok (), w0) := by
    unfold ensureSystemRolesInitialized
    rw [hrs]
    cases rs with
    | some r => exact ⟨w, rfl⟩
    | none =>
      obtain ⟨w0, h0⟩ := PutState_ok (w := w) (marshalStrings defaultRoles)
        (by decide : roleSetKeyPrefix ≠ "")
      have h1 : putRoleSet w defaultRoles = .ok w0 := h0
      simp only [h1]
      exact ⟨w0, rfl⟩
  obtain ⟨w0, he⟩ := hens
  obtain ⟨w1, hput⟩ := PutState_ok (w := w0) (User.marshal ⟨pem.toValid, role.toValid⟩) hne
  have hrun : Register lib w u pem role = (.ok (), w1) := by
    simp [Register, he, hu, hpem, hput]
  have hq : QueryUserID w1 u = .ok ⟨pem.toValid, role.toValid⟩ := by
    simp [QueryUserID, GetState_PutState_self hput, unmarshal_marshal_User]
  rw [hrun]
  refine ⟨rfl, hq, ?_⟩
  intro p r hp hr
  subst hp hr
  exact hq

/-- The round trip on the empty ledger: `U1` registers with role Creator. -/
theorem register_roundtrip_witness :
    (Register demoLib World.empty "U1" "KEY1" "Creator").1 = .ok () ∧
    QueryUserID (Register demoLib World.empty "U1" "KEY1" "Creator").2 "U1" =
      .ok ⟨"KEY1", "Creator"⟩ :=
  ⟨(register_roundtrip demoLib World.empty "U1" "KEY1" "Creator" ⟨4, 3⟩ none rfl rfl
      (by decide) rfl).1,
    (register_roundtrip demoLib World.empty "U1" "KEY1" "Creator" ⟨4, 3⟩ none rfl rfl
      (by decide) rfl).2.2 "KEY1" "Creator" rfl rfl⟩

/-- Counterexample to C8 as stated, on the empty ledger with identities that are
not present and key strings that parse.  `Register` of the empty identity fails,
the stub refusing the empty key.  `Register` of `U1` with the one-byte role
0xFF succeeds and `QueryUserID` returns the role U+FFFD, three other bytes;
with the key bytes `KEY` followed by 0xFF it returns the key text `KEY` followed
by U+FFFD.  And in the state left by a `Register` of `roleSet`, whose role set is
unreadable, `Register` of the absent `U1` fails with the ensure-roles error. -/
theorem register_roundtrip_not_exact :
    GetState World.empty "" = none ∧
    parsePublicKeyPEM demoLib "KEY1" = .ok ⟨4, 3⟩ ∧
    (Register demoLib World.empty "" "KEY1" "Creator").1 = .error .emptyKey ∧
    GetState World.empty "U1" = none ∧
    (Register demoLib World.empty "U1" "KEY1" (.invalid [255])).1 = .ok () ∧
    QueryUserID (Register demoLib World.empty "U1" "KEY1" (.invalid [255])).2 "U1" =
      .ok ⟨"KEY1", "\uFFFD"⟩ ∧
    (GoString.invalid [255]).bytes = [255] ∧
    (GoString.text "\uFFFD").bytes = [239, 191, 189] ∧
    parsePublicKeyPEM demoLib (.invalid [75, 69, 89, 255]) = .ok ⟨4, 3⟩ ∧
    (Register demoLib World.empty "U1" (.invalid [75, 69, 89, 255]) "Creator").1 = .ok () ∧
    QueryUserID (Register demoLib World.empty "U1" (.invalid [75, 69, 89, 255]) "Creator").2
      "U1" = .ok ⟨"KEY\uFFFD", "Creator"⟩ ∧
    (GoString.text "KEY\uFFFD").bytes = [75, 69, 89, 239, 191, 189] ∧
    GetState (runCalls demoLib World.empty roleSetIdentityCalls) "U1" = none ∧
    (Register demoLib (runCalls demoLib World.empty roleSetIdentityCalls) "U1" "KEY1"
      "Creator").1 = .error (.ensureRolesFailed .unmarshalRoleSetFailed) :=
  ⟨rfl, rfl, rfl, rfl, rfl, rfl, rfl, rfl, rfl, rfl, rfl, rfl, rfl, rfl⟩

/-- Claim C9, grant postcondition and non-collision: for tuples `(r, c, op)`
and `(r1, c1, op1)` whose composite keys can be built, the keys are equal only
if the tuples are, `putPolicyEntry w r c op` succeeds, and afterwards
`hasPolicyEntry` is true of `(r1, c1, op1)` if and only if it was true before or
the two tuples are equal. -/
theorem putPolicyEntry_frame (w : World) (r c op r1 c1 op1 key key1 : String)
    (hk : CreateCompositeKey policyObjType [r, c, op] = .ok key)
    (hk1 : CreateCompositeKey policyObjType [r1, c1, op1] = .ok key1) :
    (key1 = key ↔ (r1, c1, op1) = (r, c, op)) ∧
    ∃ w1, putPolicyEntry w r c op = .ok w1 ∧
      (hasPolicyEntry w1 r1 c1 op1 = .ok true ↔
        (hasPolicyEntry w r1 c1 op1 = .ok true ∨ (r1, c1, op1) = (r, c, op))) := by
  have hinj : key1 = key ↔ (r1, c1, op1) = (r, c, op) := by
    constructor
    · intro e
      subst e
      obtain ⟨a, b, d⟩ := compositeKey_inj hk1 hk
      rw [a, b, d]
    · intro e
      simp only [Prod.mk.injEq] at e
      obtain ⟨a, b, d⟩ := e
      subst a b d
      rw [hk] at hk1
      cases hk1
      rfl
  refine ⟨hinj, ?_⟩
  obtain ⟨w1, hput⟩ := PutState_ok (w := w) policyMarker (compositeKey_ne_empty hk)
  refine ⟨w1, putPolicyEntry_ok_iff.mpr ⟨key, hk, hput⟩, ?_⟩
  rw [hasPolicyEntry_of_key hk1, hasPolicyEntry_of_key hk1, GetState_PutState hput, ← hinj]
  by_cases e : key1 = key
  · simp [e]
  · simp [e]

/-- The frame property on the sample ledger: granting to Creator leaves the
entry of Public as it was. -/
theorem putPolicyEntry_frame_witness :
    ("\x00policy\x00Public\x00X\x00download\x00" = "\x00policy\x00Creator\x00X\x00download\x00" ↔
      (("Public", "X", "download") : String × String × String) = ("Creator", "X", "download")) ∧
    ∃ w1, putPolicyEntry demoResource "Creator" "X" "download" = .ok w1 ∧
      (hasPolicyEntry w1 "Public" "X" "download" = .ok true ↔
        (hasPolicyEntry demoResource "Public" "X" "download" = .ok true ∨
          (("Public", "X", "download") : String × String × String) =
            ("Creator", "X", "download"))) :=
  putPolicyEntry_frame demoResource "Creator" "X" "download" "Public" "X" "download" _ _ rfl rfl

/-- Claim C10, the code at a failing input: the owner of `X` is the identity
named by the policy key of `(Creator, X, download)`; its first `AddPerm` for
that tuple succeeds and overwrites its own identity record with the policy
marker, so the same call run again fails to read the identity. -/
theorem addPerm_twice_second_fails :
    QueryCid collisionWorld "X" = .ok "\x00policy\x00Creator\x00X\x00download\x00" ∧
    QueryUserID collisionWorld "\x00policy\x00Creator\x00X\x00download\x00" =
      .ok ⟨"KEY1", "Creator"⟩ ∧
    (AddPerm demoLib collisionWorld
      (demoSig 4 "\x00policy\x00Creator\x00X\x00download\x00X")
      "\x00policy\x00Creator\x00X\x00download\x00" "X" "download"
      (marshalStrings ["Creator"])).1 = .ok () ∧
    (AddPerm demoLib
      (AddPerm demoLib collisionWorld
        (demoSig 4 "\x00policy\x00Creator\x00X\x00download\x00X")
        "\x00policy\x00Creator\x00X\x00download\x00" "X" "download"
        (marshalStrings ["Creator"])).2
      (demoSig 4 "\x00policy\x00Creator\x00X\x00download\x00X")
      "\x00policy\x00Creator\x00X\x00download\x00" "X" "download"
      (marshalStrings ["Creator"])).1 = .error .unmarshalUserFailed :=
  ⟨rfl, rfl, rfl, rfl⟩

/-- Claim C11 (amended), fail-fast role list: when the owner of `c` calls
`AddPerm` with a verifying signature and a role list `pre ++ bad :: post` whose
first role outside the role set is `bad`, and the composite key of `(r, c, op)`
can be built for every role `r` before `bad`, the call fails with the
unknown-role error naming `bad`, the policy entry of `(r, c, op)` is present
afterwards for every `r` before `bad`, and `hasPolicyEntry` of `(r, c, op)` is
what it was for every role `r` that does not occur before `bad`. -/
theorem addPerm_fail_fast (lib : Lib) (w : World) (sig u c op : String) (rolesJSON : Bytes)
    (usr : User) (pub : RSAPublicKey) (sysRoles : Option (List String))
    (pre post : List String) (bad : String)
    (hown : QueryCid w c = .ok u) (hu : QueryUserID w u = .ok usr)
    (hpk : parsePublicKeyPEM lib usr.PK = .ok pub)
    (hsig : verifySignature lib u c sig pub = .ok ())
    (hroles : unmarshalStrings rolesJSON = some (some (pre ++ bad :: post)))
    (hrs : getRoleSet w = .ok sysRoles)
    (hpre : ∀ r ∈ pre, r ∈ sysRoles.getD [])
    (hbad : bad ∉ sysRoles.getD [])
    (hkeys : ∀ r ∈ pre, ∃ key, CreateCompositeKey policyObjType [r, c, op] = .ok key) :
    (AddPerm lib w sig u c op rolesJSON).1 = .error (.roleNotInRoleSet bad) ∧
    (∀ r ∈ pre, hasPolicyEntry (AddPerm lib w sig u c op rolesJSON).2 r c op = .ok true) ∧
    (∀ r, r ∉ pre →
      hasPolicyEntry (AddPerm lib w sig u c op rolesJSON).2 r c op = hasPolicyEntry w r c op) := by
  have hrun : AddPerm lib w sig u c op rolesJSON =
      grantRoles (sysRoles.getD []) c op w (pre ++ bad :: post) := by
    unfold QueryCid at hown
    unfold AddPerm
    cases hg : GetState w c with
    | none => simp [hg] at hown
    | some b =>
      simp only [hg] at hown ⊢
      cases hr : Resource.unmarshal b with
      | none => simp [hr] at hown
      | some res =>
        simp only [hr] at hown ⊢
        have : res.OwnerUID = u := by simpa using hown
        simp [this, hu, hpk, hsig, hroles, hrs]
  rw [hrun]
  refine ⟨grantRoles_before_bad _ c op bad post hbad pre w hpre hkeys, ?_, ?_⟩
  · intro r hr
    obtain ⟨key, hkey⟩ := hkeys r hr
    rw [hasPolicyEntry_of_key hkey, grantRoles_state,
      if_pos ((grantedKeys_before_bad _ c op bad post hbad key pre hpre hkeys).mpr ⟨r, hr, hkey⟩)]
    rfl
  · intro r hr
    cases hk : CreateCompositeKey policyObjType [r, c, op] with
    | error e => simp [hasPolicyEntry, hk]
    | ok key =>
      rw [hasPolicyEntry_of_key hk, hasPolicyEntry_of_key hk, grantRoles_state, if_neg]
      intro hm
      obtain ⟨r1, hr1, hk1⟩ := (grantedKeys_before_bad _ c op bad post hbad key pre hpre hkeys).mp hm
      obtain ⟨e, _, _⟩ := compositeKey_inj hk1 hk
      exact hr (e ▸ hr1)

/-- The fail-fast grant on the sample ledger: `U1` grants `download` on `X` to
Creator, Auditor and Public, and Auditor is not a role. -/
theorem addPerm_fail_fast_witness :
    (AddPerm demoLib demoResource (demoSig 4 "U1X") "U1" "X" "download"
      (marshalStrings ["Creator", "Auditor", "Public"])).1 = .error (.roleNotInRoleSet "Auditor") ∧
    (∀ r ∈ ["Creator"], hasPolicyEntry
      (AddPerm demoLib demoResource (demoSig 4 "U1X") "U1" "X" "download"
        (marshalStrings ["Creator", "Auditor", "Public"])).2 r "X" "download" = .ok true) ∧
    (∀ r, r ∉ ["Creator"] →
      hasPolicyEntry
        (AddPerm demoLib demoResource (demoSig 4 "U1X") "U1" "X" "download"
          (marshalStrings ["Creator", "Auditor", "Public"])).2 r "X" "download" =
        hasPolicyEntry demoResource r "X" "download") :=
  addPerm_fail_fast demoLib demoResource (demoSig 4 "U1X") "U1" "X" "download"
    (marshalStrings ["Creator", "Auditor", "Public"]) ⟨"KEY1", "Creator"⟩ ⟨4, 3⟩
    (some defaultRoles) ["Creator"] ["Public"] "Auditor" rfl rfl rfl rfl rfl rfl
    (by decide) (by decide) (by intro r hr; simp at hr; subst hr; exact ⟨_, rfl⟩)

/-- Counterexample to C11 as stated: `U1` owns `X`, its signature verifies, and
the role list has Creator, a role of the role set, before Auditor, which is
none; with the operation made of the one character U+0000 the call fails, but
with the composite-key error raised for Creator and not with the unknown-role
error, and it writes nothing. -/
theorem addPerm_null_operation_not_unknown_role :
    QueryCid demoResource "X" = .ok "U1" ∧
    QueryUserID demoResource "U1" = .ok ⟨"KEY1", "Creator"⟩ ∧
    parsePublicKeyPEM demoLib "KEY1" = .ok ⟨4, 3⟩ ∧
    verifySignature demoLib "U1" "X" (demoSig 4 "U1X") ⟨4, 3⟩ = .ok () ∧
    getRoleSet demoResource = .ok (some ["Creator", "Contributor", "Public"]) ∧
    unmarshalStrings (marshalStrings ["Creator", "Auditor"]) = some (some ["Creator", "Auditor"]) ∧
    AddPerm demoLib demoResource (demoSig 4 "U1X") "U1" "X" "\x00"
        (marshalStrings ["Creator", "Auditor"]) =
      (.error (.createCompositeKeyFailed .badCompositeKeyAttribute), demoResource) :=
  ⟨rfl, rfl, rfl, rfl, rfl, rfl, rfl⟩

/-- Claim C12, the code at a failing input: an identity is registered under the
name of the audit key of `X` for a transaction yet to come, and `TraceCid X`
lists its record as an entry with empty fields; the `CheckPerm` of that
transaction returns `Permit` and writes its audit entry over the record, so
`TraceCid X` lists one entry before the call and one after it, not one more,
and the entry listed before is gone. -/
theorem checkPerm_replaces_listed_record :
    belowSentinel demoTx = true ∧
    TraceCid auditNameIdentity "X" = .ok [⟨"", "", Time.zero⟩] ∧
    (CheckPerm demoLib (demoCtx demoTx) auditNameIdentity (demoSig 4 "U1X") "download" "U1"
      "X").1 = .ok "Permit" ∧
    TraceCid (CheckPerm demoLib (demoCtx demoTx) auditNameIdentity (demoSig 4 "U1X") "download"
      "U1" "X").2 "X" = .ok [⟨"U1", "Permit", Time.zero⟩] :=
  ⟨rfl, rfl, rfl, rfl⟩

/-- Claim C13, failed signature is audited: for a registered identity `u` with
a key that parses and a signature that does not verify over `u ++ c`,
`CheckPerm` returns the signature error, never a decision, and the state it
leaves is the prior state with one write: the audit entry with UID `u` and
decision `Deny` under the key `c ++ "_log_" ++ txID`; every other key is as
before. -/
theorem checkPerm_bad_signature_audited (lib : Lib) (ctx : TxContext) (w : World)
    (sig op u c : String) (usr : User) (pub : RSAPublicKey) (e : Err)
    (hu : QueryUserID w u = .ok usr)
    (hpk : parsePublicKeyPEM lib usr.PK = .ok pub)
    (hsig : verifySignature lib u c sig pub = .error e) :
    (CheckPerm lib ctx w sig op u c).1 = .error (.signatureVerifyFailed e) ∧
    PutState w (c ++ "_log_" ++ ctx.txID) (AccessLog.marshal ⟨u, "Deny", ctx.now⟩) =
      .ok (CheckPerm lib ctx w sig op u c).2 ∧
    GetState (CheckPerm lib ctx w sig op u c).2 (c ++ "_log_" ++ ctx.txID) =
      some (AccessLog.marshal ⟨u, "Deny", ctx.now⟩) ∧
    ∀ k, k ≠ c ++ "_log_" ++ ctx.txID →
      GetState (CheckPerm lib ctx w sig op u c).2 k = GetState w k := by
  obtain ⟨w1, hw1⟩ := logGen_ok ctx w c u "Deny"
  have hrun : CheckPerm lib ctx w sig op u c = (.error (.signatureVerifyFailed e), w1) := by
    simp [CheckPerm, hu, hpk, hsig, hw1, written]
  have hput : PutState w (c ++ "_log_" ++ ctx.txID) (AccessLog.marshal ⟨u, "Deny", ctx.now⟩) =
      .ok w1 := hw1
  rw [hrun]
  exact ⟨rfl, hput, GetState_PutState_self hput, fun k hk => GetState_PutState_ne hput hk⟩

/-- The audited failure on the sample ledger: `U1` presents a forged
signature for `X`. -/
theorem checkPerm_bad_signature_audited_witness :
    (CheckPerm demoLib (demoCtx "tx1") demoGranted "forged" "download" "U1" "X").1 =
      .error (.signatureVerifyFailed .invalidSignature) ∧
    PutState demoGranted ("X" ++ "_log_" ++ (demoCtx "tx1").txID)
        (AccessLog.marshal ⟨"U1", "Deny", (demoCtx "tx1").now⟩) =
      .ok (CheckPerm demoLib (demoCtx "tx1") demoGranted "forged" "download" "U1" "X").2 ∧
    GetState (CheckPerm demoLib (demoCtx "tx1") demoGranted "forged" "download" "U1" "X").2
        ("X" ++ "_log_" ++ (demoCtx "tx1").txID) =
      some (AccessLog.marshal ⟨"U1", "Deny", (demoCtx "tx1").now⟩) ∧
    ∀ k, k ≠ "X" ++ "_log_" ++ (demoCtx "tx1").txID →
      GetState (CheckPerm demoLib (demoCtx "tx1") demoGranted "forged" "download" "U1" "X").2 k =
        GetState demoGranted k :=
  checkPerm_bad_signature_audited demoLib (demoCtx "tx1") demoGranted "forged" "download" "U1"
    "X" ⟨"KEY1", "Creator"⟩ ⟨4, 3⟩ .invalidSignature rfl rfl rfl

/-- Claim C14 (amended), unregistered caller is not audited: in every state
reached from the empty ledger by public operations, for every identity string
`u` that no successful `Register` of the run has named, `CheckPerm` fails for
every signature, operation and contentID, with the not-found error, the
unmarshal error or the parse-key error, with the not-found error whenever
nothing is stored under `u`, and it leaves the ledger state as it was. The
library is taken to find no PEM block in the empty text. -/
theorem checkPerm_unregistered (lib : Lib) (hpem : lib.pemDecode "" = none)
    (calls : List (TxContext × Call)) (ctx : TxContext) (sig op u c : String)
    (hu : ¬ registeredBy lib World.empty calls u) :
    ((CheckPerm lib ctx (runCalls lib World.empty calls) sig op u c).1 =
        .error (.userDoesNotExist u) ∨
      (CheckPerm lib ctx (runCalls lib World.empty calls) sig op u c).1 =
        .error .unmarshalUserFailed ∨
      (CheckPerm lib ctx (runCalls lib World.empty calls) sig op u c).1 =
        .error (.parsePubkeyFailed .invalidPEM)) ∧
    (GetState (runCalls lib World.empty calls) u = none →
      (CheckPerm lib ctx (runCalls lib World.empty calls) sig op u c).1 =
        .error (.userDoesNotExist u)) ∧
    (CheckPerm lib ctx (runCalls lib World.empty calls) sig op u c).2 =
      runCalls lib World.empty calls := by
  have hni := unregistered_noIdentity lib calls u hu
  generalize runCalls lib World.empty calls = w at hni ⊢
  cases hg : GetState w u with
  | none =>
    have := CheckPerm_absent lib ctx w sig op u c hg
    rw [this]
    exact ⟨Or.inl rfl, fun _ => rfl, rfl⟩
  | some v =>
    have hn := hni v hg
    cases hd : User.unmarshal v with
    | none =>
      have : CheckPerm lib ctx w sig op u c = (.error .unmarshalUserFailed, w) := by
        simp [CheckPerm, QueryUserID, hg, hd]
      rw [this]
      exact ⟨Or.inr (Or.inl rfl), fun h => (by cases h), rfl⟩
    | some usr =>
      have hpk : usr.PK = "" := hn usr hd
      have : CheckPerm lib ctx w sig op u c = (.error (.parsePubkeyFailed .invalidPEM), w) := by
        simp [CheckPerm, QueryUserID, hg, hd, hpk, parsePublicKeyPEM, hpem]
      rw [this]
      exact ⟨Or.inr (Or.inr rfl), fun h => (by cases h), rfl⟩

/-- The unaudited failure on the sample run: `U9` is unknown. -/
theorem checkPerm_unregistered_witness :
    ((CheckPerm demoLib (demoCtx "tx1") (runCalls demoLib World.empty demoCalls) "any"
        "download" "U9" "X").1 = .error (.userDoesNotExist "U9") ∨
      (CheckPerm demoLib (demoCtx "tx1") (runCalls demoLib World.empty demoCalls) "any"
        "download" "U9" "X").1 = .error .unmarshalUserFailed ∨
      (CheckPerm demoLib (demoCtx "tx1") (runCalls demoLib World.empty demoCalls) "any"
        "download" "U9" "X").1 = .error (.parsePubkeyFailed .invalidPEM)) ∧
    (GetState (runCalls demoLib World.empty demoCalls) "U9" = none →
      (CheckPerm demoLib (demoCtx "tx1") (runCalls demoLib World.empty demoCalls) "any"
        "download" "U9" "X").1 = .error (.userDoesNotExist "U9")) ∧
    (CheckPerm demoLib (demoCtx "tx1") (runCalls demoLib World.empty demoCalls) "any"
      "download" "U9" "X").2 = runCalls demoLib World.empty demoCalls :=
  checkPerm_unregistered demoLib rfl demoCalls (demoCtx "tx1") "any" "download" "U9" "X"
    (by simp [registeredBy, demoCalls])

/-- Counterexample to C14 as stated: the sample run registers `U1` and `U2` and
creates resource `X`, so `X` was never registered as an identity; `CheckPerm`
called with identity `X` reads the resource record as an identity record with
an empty key and fails with the parse-key error, not with the not-found error.
The state is unchanged. -/
theorem checkPerm_resource_as_identity :
    ¬ registeredBy demoLib World.empty demoCalls "X" ∧
    CheckPerm demoLib (demoCtx "tx1") (runCalls demoLib World.empty demoCalls) "any" "download"
        "X" "X" =
      (.error (.parsePubkeyFailed .invalidPEM), runCalls demoLib World.empty demoCalls) :=
  ⟨by simp [registeredBy, demoCalls], rfl⟩

/-- Claim C15, the code at a failing input: `U1` owns a resource whose
contentID is the audit key of `X` for a transaction yet to come; the `CheckPerm`
on `X` in that transaction writes its audit entry over the resource record, and
`QueryCid` of the resource then returns the empty string instead of `U1`. -/
theorem checkPerm_overwrites_resource :
    QueryCid auditNameResource ("X_log_" ++ demoTx) = .ok "U1" ∧
    (CheckPerm demoLib (demoCtx demoTx) auditNameResource (demoSig 4 "U1X") "download" "U1"
      "X").1 = .ok "Permit" ∧
    QueryCid (CheckPerm demoLib (demoCtx demoTx) auditNameResource (demoSig 4 "U1X") "download"
      "U1" "X").2 ("X_log_" ++ demoTx) = .ok "" :=
  ⟨rfl, rfl, rfl⟩

/-- Claim C16, the code at a failing input: an identity is registered under the
name of the audit key of `X` for a transaction yet to come; the `CheckPerm` on
`X` in that transaction writes its audit entry over the identity record, and
`QueryUserID` of the identity then returns an empty key and an empty role
instead of the registered ones. -/
theorem checkPerm_overwrites_identity :
    QueryUserID auditNameIdentity ("X_log_" ++ demoTx) = .ok ⟨"KEY333", "Public"⟩ ∧
    (CheckPerm demoLib (demoCtx demoTx) auditNameIdentity (demoSig 4 "U1X") "download" "U1"
      "X").1 = .ok "Permit" ∧
    QueryUserID (CheckPerm demoLib (demoCtx demoTx) auditNameIdentity (demoSig 4 "U1X")
      "download" "U1" "X").2 ("X_log_" ++ demoTx) = .ok ⟨"", ""⟩ :=
  ⟨rfl, rfl, rfl⟩

/-- Claim C17, the code at a failing input: from the empty ledger one `Register`
of the identity `roleSet` succeeds; afterwards the role set key holds the
identity record, not the list Creator, Contributor, Public the call had first
written there, the role set cannot be read, and every later `Register` fails
with the ensure-roles error. -/
theorem register_roleSet_replaces_role_set :
    (Register demoLib World.empty "roleSet" "KEY1" "Creator").1 = .ok () ∧
    GetState (runCalls demoLib World.empty roleSetIdentityCalls) "roleSet" =
      some (User.marshal ⟨"KEY1", "Creator"⟩) ∧
    GetState (runCalls demoLib World.empty roleSetIdentityCalls) "roleSet" ≠
      some (marshalStrings ["Creator", "Contributor", "Public"]) ∧
    getRoleSet (runCalls demoLib World.empty roleSetIdentityCalls) =
      .error .unmarshalRoleSetFailed ∧
    Register demoLib (runCalls demoLib World.empty roleSetIdentityCalls) "U1" "KEY1"
        "Creator" =
      (.error (.ensureRolesFailed .unmarshalRoleSetFailed),
        runCalls demoLib World.empty roleSetIdentityCalls) := by
  refine ⟨rfl, rfl, ?_, rfl, rfl⟩
  intro h
  have e : GetState (runCalls demoLib World.empty roleSetIdentityCalls) "roleSet" =
      some (User.marshal ⟨"KEY1", "Creator"⟩) := rfl
  rw [e] at h
  simp [User.marshal, marshalStrings] at h

/-- Claim C18, the code at a failing input: on the ledger reached from the
empty one by registering `U1`, where no `AddResource` has run, `QueryCid U1`
does not fail: it reads the identity record as a resource and returns the empty
string as the owner. -/
theorem queryCid_identity_key_returns_owner :
    QueryCid (runCalls demoLib World.empty [(demoCtx "t1", .register "U1" "KEY1" "Creator")])
      "U1" = .ok "" := rfl

/-- Claim C19 (amended), trace result definition: for every state and every
contentID `c` that does not start with U+0000, `TraceCid c` succeeds and returns
the values that decode as an `AccessLog`, decoded, of a list of entries that is
in strictly ascending key order and holds exactly the stored pairs whose key `k`
satisfies `c ++ "_log_" ≤ k < c ++ "_log_" ++ "\uffff"`; values that do not
decode are left out and never make the call fail. -/
theorem traceCid_result (w : World) (c : String) (hc : startsWithNull c = false) :
    ∃ kvs : List (String × Bytes),
      TraceCid w c = .ok (kvs.filterMap (fun kv => AccessLog.unmarshal kv.2)) ∧
      kvs.Pairwise (fun a b => keyLt a.1 b.1 = true) ∧
      ∀ k v, (k, v) ∈ kvs ↔
        (GetState w k = some v ∧ keyLt k (c ++ "_log_") = false ∧
          keyLt k (c ++ "_log_" ++ "\uffff") = true) := by
  refine ⟨w.entries.filter (fun kv => !keyLt kv.1 (c ++ "_log_") &&
    keyLt kv.1 (c ++ "_log_" ++ "\uffff")), ?_, ?_, ?_⟩
  · simp [TraceCid, GetStateByRange_trace w c hc]
  · exact List.Pairwise.filter _ w.sorted
  · intro k v
    simp only [List.mem_filter, Bool.and_eq_true, Bool.not_eq_true', mem_iff_lookup w.sorted k v,
      GetState]

/-- The trace of `X` on the sample ledger. -/
theorem traceCid_result_witness :
    ∃ kvs : List (String × Bytes),
      TraceCid demoGranted "X" = .ok (kvs.filterMap (fun kv => AccessLog.unmarshal kv.2)) ∧
      kvs.Pairwise (fun a b => keyLt a.1 b.1 = true) ∧
      ∀ k v, (k, v) ∈ kvs ↔
        (GetState demoGranted k = some v ∧ keyLt k ("X" ++ "_log_") = false ∧
          keyLt k ("X" ++ "_log_" ++ "\uffff") = true) :=
  traceCid_result demoGranted "X" rfl

/-- Counterexample to C19 as stated: for the contentID made of the one
character U+0000 `TraceCid` returns an error, because the stub refuses a range
whose start key begins with U+0000. -/
theorem traceCid_null_cid_fails :
    TraceCid demoGranted "\x00" = .error (.getLogsByRangeFailed .rangeKeyStartsWithNull) := rfl

/-- Claim C20 (amended), trace order is transaction identifier order: when two
`CheckPerm` calls on `c` run one after the other, each returns a decision, and
their transaction identifiers are distinct and sort below the sentinel, then one
identifier sorts below the other, and `TraceCid c` afterwards lists the entry of
the call with the smaller identifier before the entry of the other call,
whichever of the two was submitted first. -/
theorem trace_order_by_txID (lib : Lib) (ctx1 ctx2 : TxContext) (w : World)
    (sig1 op1 u1 sig2 op2 u2 c d1 d2 : String)
    (h1 : (CheckPerm lib ctx1 w sig1 op1 u1 c).1 = .ok d1)
    (h2 : (CheckPerm lib ctx2 (CheckPerm lib ctx1 w sig1 op1 u1 c).2 sig2 op2 u2 c).1 = .ok d2)
    (hne : ctx1.txID ≠ ctx2.txID)
    (hb1 : belowSentinel ctx1.txID = true) (hb2 : belowSentinel ctx2.txID = true) :
    (keyLt ctx1.txID ctx2.txID = true ∨ keyLt ctx2.txID ctx1.txID = true) ∧
    (keyLt ctx1.txID ctx2.txID = true → ∃ pre mid post,
      TraceCid (CheckPerm lib ctx2 (CheckPerm lib ctx1 w sig1 op1 u1 c).2 sig2 op2 u2 c).2 c =
        .ok (pre ++ ⟨u1, d1, ctx1.now⟩ :: (mid ++ ⟨u2, d2, ctx2.now⟩ :: post))) ∧
    (keyLt ctx2.txID ctx1.txID = true → ∃ pre mid post,
      TraceCid (CheckPerm lib ctx2 (CheckPerm lib ctx1 w sig1 op1 u1 c).2 sig2 op2 u2 c).2 c =
        .ok (pre ++ ⟨u2, d2, ctx2.now⟩ :: (mid ++ ⟨u1, d1, ctx1.now⟩ :: post))) := by
  obtain ⟨hv, hp1⟩ := CheckPerm_ok lib ctx1 w sig1 op1 u1 c d1 h1
  obtain ⟨_, hp2⟩ := CheckPerm_ok lib ctx2 _ sig2 op2 u2 c d2 h2
  have hc := not_startsWithNull_of_valid hv
  generalize (CheckPerm lib ctx1 w sig1 op1 u1 c).2 = w1 at hp1 hp2 ⊢
  generalize (CheckPerm lib ctx2 w1 sig2 op2 u2 c).2 = w2 at hp2 ⊢
  have hkne : c ++ "_log_" ++ ctx1.txID ≠ c ++ "_log_" ++ ctx2.txID :=
    fun e => hne (logKey_inj_txID c _ _ e)
  have g1 : GetState w2 (c ++ "_log_" ++ ctx1.txID) =
      some (AccessLog.marshal ⟨u1, d1, ctx1.now⟩) := by
    rw [GetState_PutState_ne hp2 hkne, GetState_PutState_self hp1]
  have g2 : GetState w2 (c ++ "_log_" ++ ctx2.txID) =
      some (AccessLog.marshal ⟨u2, d2, ctx2.now⟩) := GetState_PutState_self hp2
  refine ⟨?_, fun hlt => TraceCid_two_entries w2 c _ _ _ _ hc g1 g2 hb1 hb2 hlt,
    fun hlt => TraceCid_two_entries w2 c _ _ _ _ hc g2 g1 hb2 hb1 hlt⟩
  by_cases hlt : keyLt ctx1.txID ctx2.txID = true
  · exact Or.inl hlt
  · exact Or.inr (keyLt_total (by simpa using hlt) hne)

/-- The order of the trace on the sample ledger for the identifiers `a1`
and `b2`. -/
theorem trace_order_by_txID_witness :
    (keyLt (demoCtx "a1").txID (demoCtx "b2").txID = true ∨
      keyLt (demoCtx "b2").txID (demoCtx "a1").txID = true) ∧
    (keyLt (demoCtx "a1").txID (demoCtx "b2").txID = true → ∃ pre mid post,
      TraceCid (CheckPerm demoLib (demoCtx "b2")
        (CheckPerm demoLib (demoCtx "a1") demoGranted (demoSig 4 "U1X") "download" "U1" "X").2
        (demoSig 5 "U2X") "download" "U2" "X").2 "X" =
        .ok (pre ++ ⟨"U1", "Permit", (demoCtx "a1").now⟩ ::
          (mid ++ ⟨"U2", "Deny", (demoCtx "b2").now⟩ :: post))) ∧
    (keyLt (demoCtx "b2").txID (demoCtx "a1").txID = true → ∃ pre mid post,
      TraceCid (CheckPerm demoLib (demoCtx "b2")
        (CheckPerm demoLib (demoCtx "a1") demoGranted (demoSig 4 "U1X") "download" "U1" "X").2
        (demoSig 5 "U2X") "download" "U2" "X").2 "X" =
        .ok (pre ++ ⟨"U2", "Deny", (demoCtx "b2").now⟩ ::
          (mid ++ ⟨"U1", "Permit", (demoCtx "a1").now⟩ :: post))) :=
  trace_order_by_txID demoLib (demoCtx "a1") (demoCtx "b2") demoGranted (demoSig 4 "U1X")
    "download" "U1" (demoSig 5 "U2X") "download" "U2" "X" "Permit" "Deny" rfl rfl (by decide)
    rfl rfl

/-- Counterexample to C20 as stated: `U1` checks `X` under the identifier `b2`
and then `U2` checks `X` under the identifier `a1`; both get a decision, and
`TraceCid X` lists the entry of the later call first. -/
theorem trace_order_not_submission_order :
    (CheckPerm demoLib (demoCtx "b2") demoGranted (demoSig 4 "U1X") "download" "U1" "X").1 =
      .ok "Permit" ∧
    (CheckPerm demoLib (demoCtx "a1")
      (CheckPerm demoLib (demoCtx "b2") demoGranted (demoSig 4 "U1X") "download" "U1" "X").2
      (demoSig 5 "U2X") "download" "U2" "X").1 = .ok "Deny" ∧
    TraceCid (CheckPerm demoLib (demoCtx "a1")
      (CheckPerm demoLib (demoCtx "b2") demoGranted (demoSig 4 "U1X") "download" "U1" "X").2
      (demoSig 5 "U2X") "download" "U2" "X").2 "X" =
      .ok [⟨"U2", "Deny", Time.zero⟩, ⟨"U1", "Permit", Time.zero⟩] :=
  ⟨rfl, rfl, rfl⟩

/-- Claim C21 (amended), creation signature is bound to the identity only: in
every state, for every identity `u`, signature and two non-empty contentIDs
absent from the state, `AddResource` returns the same result for both, in any
two transactions; when `u` is registered with a key that parses, that result is
the result of the signature check on `(u, sig, key)`, in which the contentID
does not occur. -/
theorem addResource_outcome_cid_free (lib : Lib) (ctx1 ctx2 : TxContext) (w : World)
    (sig u c1 c2 : String) (h1 : GetState w c1 = none) (h2 : GetState w c2 = none)
    (n1 : c1 ≠ "") (n2 : c2 ≠ "") :
    (AddResource lib ctx1 w sig u c1).1 = (AddResource lib ctx2 w sig u c2).1 ∧
    ∀ usr pub, QueryUserID w u = .ok usr → parsePublicKeyPEM lib usr.PK = .ok pub →
      (AddResource lib ctx1 w sig u c1).1 = verifySignature_for_caliper lib u sig pub ∧
      (AddResource lib ctx2 w sig u c2).1 = verifySignature_for_caliper lib u sig pub := by
  have key : ∀ (ctx : TxContext) (c : String), GetState w c = none → c ≠ "" →
      (AddResource lib ctx w sig u c).1 =
        (match QueryUserID w u with
         | .error e => .error e
         | .ok usr =>
           match parsePublicKeyPEM lib usr.PK with
           | .error e => .error (.parsePubkeyFailed e)
           | .ok pub => verifySignature_for_caliper lib u sig pub) := by
    intro ctx c hc hn
    unfold AddResource
    simp only [hc]
    cases hq : QueryUserID w u with
    | error e => rfl
    | ok usr =>
      simp only
      cases hp : parsePublicKeyPEM lib usr.PK with
      | error e => rfl
      | ok pub =>
        simp only
        cases hv : verifySignature_for_caliper lib u sig pub with
        | error e => rfl
        | ok x =>
          obtain ⟨w1, hw1⟩ := PutState_ok (w := w) (Resource.marshal ⟨u, c, ctx.now⟩) hn
          simp only [hw1]
  refine ⟨(key ctx1 c1 h1 n1).trans (key ctx2 c2 h2 n2).symm, ?_⟩
  intro usr pub hq hp
  rw [key ctx1 c1 h1 n1, key ctx2 c2 h2 n2]
  simp only [hq, hp, and_self]

/-- The two creations on the sample ledger: `U1` creates `X` or `Y` with one
signature over `U1`, and the result of both is that of the signature check. -/
theorem addResource_outcome_cid_free_witness :
    (AddResource demoLib (demoCtx "tx0") demoRegistered (demoSig 4 "U1") "U1" "X").1 =
      (AddResource demoLib (demoCtx "tx1") demoRegistered (demoSig 4 "U1") "U1" "Y").1 ∧
    (AddResource demoLib (demoCtx "tx0") demoRegistered (demoSig 4 "U1") "U1" "X").1 =
      verifySignature_for_caliper demoLib "U1" (demoSig 4 "U1") ⟨4, 3⟩ ∧
    (AddResource demoLib (demoCtx "tx1") demoRegistered (demoSig 4 "U1") "U1" "Y").1 =
      verifySignature_for_caliper demoLib "U1" (demoSig 4 "U1") ⟨4, 3⟩ :=
  ⟨(addResource_outcome_cid_free demoLib (demoCtx "tx0") (demoCtx "tx1") demoRegistered
      (demoSig 4 "U1") "U1" "X" "Y" rfl rfl (by decide) (by decide)).1,
    (addResource_outcome_cid_free demoLib (demoCtx "tx0") (demoCtx "tx1") demoRegistered
      (demoSig 4 "U1") "U1" "X" "Y" rfl rfl (by decide) (by decide)).2
      ⟨"KEY1", "Creator"⟩ ⟨4, 3⟩ rfl rfl⟩

/-- Counterexample to C21 as stated: on the sample ledger the empty contentID and
`Y` are both absent and `U1` is registered; with one valid signature over `U1`,
`AddResource` on the empty contentID fails, the ledger refusing the empty key,
while `AddResource` on `Y` succeeds. -/
theorem addResource_outcome_differs_on_empty_cid :
    QueryUserID demoRegistered "U1" = .ok ⟨"KEY1", "Creator"⟩ ∧
    GetState demoRegistered "" = none ∧ GetState demoRegistered "Y" = none ∧
    (AddResource demoLib (demoCtx "tx0") demoRegistered (demoSig 4 "U1") "U1" "").1 =
      .error (.putStateForCidFailed .emptyKey) ∧
    (AddResource demoLib (demoCtx "tx0") demoRegistered (demoSig 4 "U1") "U1" "Y").1 = .ok () :=
  ⟨rfl, rfl, rfl, rfl, rfl⟩

/-- Claim C22, the code at a failing input: from the empty ledger one `Register`
under the policy key of `(Auditor, Y, delete)` succeeds; afterwards the policy
entry of `(Auditor, Y, delete)` is present although `Auditor` is not in the
stored role set and nothing is stored under `Y`. -/
theorem register_breaks_policy_integrity :
    hasPolicyEntry (runCalls demoLib World.empty forgedPolicyCalls) "Auditor" "Y" "delete" =
      .ok true ∧
    getRoleSet (runCalls demoLib World.empty forgedPolicyCalls) = .ok (some defaultRoles) ∧
    defaultRoles.contains "Auditor" = false ∧
    GetState (runCalls demoLib World.empty forgedPolicyCalls) "Y" = none ∧
    QueryCid (runCalls demoLib World.empty forgedPolicyCalls) "Y" = .error (.cidNotFound "Y") :=
  ⟨rfl, rfl, rfl, rfl, rfl⟩

/-- Claim C23, permissions are never revoked: for every state and every public
operation with any arguments, a policy entry present before the operation is
present after it, and every key present before it is present after it. -/
theorem policy_never_revoked (lib : Lib) (ctx : TxContext) (w : World) (call : Call) :
    (∀ r c op, hasPolicyEntry w r c op = .ok true →
      hasPolicyEntry (call.run lib ctx w) r c op = .ok true) ∧
    (∀ k, (GetState w k).isSome = true → (GetState (call.run lib ctx w) k).isSome = true) := by
  refine ⟨?_, fun k h => run_keeps_keys lib ctx w call k h⟩
  intro r c op h
  unfold hasPolicyEntry at h ⊢
  cases hk : CreateCompositeKey policyObjType [r, c, op] with
  | error e => simp [hk] at h
  | ok key =>
    simp only [hk] at h ⊢
    have hs : (GetState w key).isSome = true := by
      injection h
    rw [run_keeps_keys lib ctx w call key hs]

/-- The grant of the sample ledger outlives a `CheckPerm` with a forged signature. -/
theorem policy_never_revoked_witness :
    hasPolicyEntry ((Call.checkPerm "forged" "download" "U1" "X").run demoLib (demoCtx "tx1")
      demoGranted) "Creator" "X" "download" = .ok true :=
  (policy_never_revoked demoLib (demoCtx "tx1") demoGranted
    (.checkPerm "forged" "download" "U1" "X")).1 "Creator" "X" "download" rfl

/-- Claim C24, the code at a failing input: in a run from the empty ledger with no
`CheckPerm` on `X`, `U1` creates the resource `X_log_a`, an identity is registered
as `X_log_b` and `U1` is checked on `X_log_a`; `TraceCid` of `X` then returns
three entries, read from the resource record, from the audit entry written for
`X_log_a` and from the identity record. -/
theorem traceCid_lists_foreign_records :
    (∀ x ∈ traceScopeCalls, ∀ sig op u, x.2 ≠ .checkPerm sig op u "X") ∧
    TraceCid (runCalls demoLib World.empty traceScopeCalls) "X" =
      .ok [⟨"", "", Time.zero⟩, ⟨"U1", "Deny", Time.zero⟩, ⟨"", "", Time.zero⟩] ∧
    GetState (runCalls demoLib World.empty traceScopeCalls) "X_log_a" =
      some (Resource.marshal ⟨"U1", "X_log_a", Time.zero⟩) ∧
    GetState (runCalls demoLib World.empty traceScopeCalls) ("X_log_a_log_" ++ demoTx) =
      some (AccessLog.marshal ⟨"U1", "Deny", Time.zero⟩) ∧
    GetState (runCalls demoLib World.empty traceScopeCalls) "X_log_b" =
      some (User.marshal ⟨"KEY333", "Public"⟩) :=
  ⟨by simp [traceScopeCalls, demoCalls], rfl, rfl, rfl, rfl⟩

/-- Claim C25, the signed message is the plain concatenation of identity and
contentID: for every signature and key, two pairs `(u1, c1)` and `(u2, c2)` with
`u1 ++ c1 = u2 ++ c2` get the same result from `verifySignature`, and
`verifySignature_for_caliper` on `u1` is `verifySignature` on `u1` and the empty
contentID. -/
theorem verifySignature_concat (lib : Lib) (sig : String) (pub : RSAPublicKey)
    (u1 c1 u2 c2 : String) (h : u1 ++ c1 = u2 ++ c2) :
    verifySignature lib u1 c1 sig pub = verifySignature lib u2 c2 sig pub ∧
    verifySignature_for_caliper lib u1 sig pub = verifySignature lib u1 "" sig pub := by
  constructor
  · unfold verifySignature
    simp only [h]
  · unfold verifySignature verifySignature_for_caliper
    simp only [String.append_empty]

/-- The pairs `(ab, c)` and `(a, bc)` verify alike under the sample library. -/
theorem verifySignature_concat_witness :
    verifySignature demoLib "ab" "c" (demoSig 4 "abc") ⟨4, 3⟩ =
      verifySignature demoLib "a" "bc" (demoSig 4 "abc") ⟨4, 3⟩ ∧
    verifySignature_for_caliper demoLib "ab" (demoSig 4 "abc") ⟨4, 3⟩ =
      verifySignature demoLib "ab" "" (demoSig 4 "abc") ⟨4, 3⟩ :=
  verifySignature_concat demoLib (demoSig 4 "abc") ⟨4, 3⟩ "ab" "c" "a" "bc" rfl

end Chaincode
